import Mathlib

/-!
# Navigation and search core of `src/main.js`

A shallow embedding of the trace cursor (live / replay), the step and run
actions, the point-search navigation, the timeline zoom window, the watch
list, the pattern matcher (hex, string and regex search) and the three search
sessions of `src/main.js`, together with theorems about them.

Conventions of the embedding.

* The wasm emulator (`src/pkg/binb_web.js`) is an external engine.  Its state is
  an abstract type `ε`; the calls the front end makes are the fields of
  `Engine ε`.  The general theorems quantify over all engines; their
  instances are stated on the small engine `counterEngine`.
* The module-level `let` variables of `main.js` are the fields of `UI ε`, of
  `WatchState` and of `SearchSession μ` (one copy per search domain).
* JavaScript numbers holding trace indices are `Int`.  Pixel coordinates and
  the intermediate values of the pointer arithmetic are rationals (`ℚ`), and
  every division, product, sum and difference the pointer listeners compute on
  them is rounded to a double (`divD`, `mulD`, `addD`, `subD`, through
  `toDouble`: IEEE 754 binary64, round to nearest, ties to even, subnormals
  included).  Above `2 ^ 53` the model keeps every integer, which binary64 does
  not; trace indices stay far below that.  Overflow, infinities and `NaN` are
  outside the model: a display width is a positive rational.  `Math.floor`,
  `Math.ceil`, `Math.round` are exact on a double: `⌊x⌋`, `⌈x⌉`, `⌊x + 1/2⌋`.
* The span of the wheel zoom, `wheelSpan`, takes `zSpan * factor` with the
  exact factors `13/10` and `10/13`.  The double product of the listener,
  `wheelSpanD`, rounds to the same integer for every span from 0 to `2 ^ 32`
  (`wheelSpanD_eq`).
* A JavaScript string is the list of its UTF-16 code units.  What the search
  functions use of the runtime beyond list operations (`toLowerCase`,
  `RegExp`) is a parameter, `JsEnv ρ`; a thrown exception that the code
  catches is `none`.
* A render function is modelled by what it does to the variables of its search
  session; the lines it draws are a parameter, `none` when it returns before
  searching.
* Calls that only write the DOM (`setStatus`, `renderTimeline`,
  `renderRegisters`, `updateZoomInfo`, ...) assign none of the modelled
  variables and are left out.
-/

namespace Binb

/-- The `status` field of the JSON step info returned by `step`, `step_over`
and `run_n`. -/
inductive StepStatus where
  | running
  | breakpoint
  | exited
  | halted
  | other
  deriving DecidableEq, Repr

/-- One memory access of a trace entry: `(addr, size, is_write)`. -/
abbrev MemAccess := Int × Int × Bool

/-- The calls of `Emulator` (`src/pkg/binb_web.js`) used by the navigation
core.  The three calls that advance the engine return the new engine state and
the parsed step info, `none` when the call (or the parsing of its result)
throws. -/
structure Engine (ε : Type) where
  get_trace_length : ε → Nat
  seek_trace_index : ε → Int → ε
  get_trace_mem_accesses : ε → Int → List MemAccess
  is_exited : ε → Bool
  step : ε → ε × Option StepStatus
  step_over : ε → ε × Option StepStatus
  run_n : ε → Int → ε × Option StepStatus
  /-- The `rip` of `get_trace_registers(i)` parsed with `parseInt(_, 16)`;
  `none` when the JSON is `'null'` or the parse is `NaN`. -/
  get_trace_rip : ε → Int → Option Int
  prev_trace_by_register : ε → Nat → Int → Int
  next_trace_by_register : ε → Nat → Int → Int
  prev_trace_by_rip : ε → Int → Int → Int
  next_trace_by_rip : ε → Int → Int → Int
  prev_trace_by_addr : ε → Int → Int → Int → Int
  next_trace_by_addr : ε → Int → Int → Int → Int

/-- The callback handed to `requestAnimationFrame` that has not run yet: the
`runChunk` closure of `doStepN` (with its `remaining` counter), of `doContinue`
or of `doRun`. -/
inductive Pending where
  | stepN (remaining : Int)
  | cont
  | run
  deriving DecidableEq, Repr

/-- The module-level state of `main.js` the navigation core reads and writes.
`traceToggle` is `traceToggle.checked`.  `advanceLog` is a ghost field: one
entry per call of `step`, `step_over` or `run_n`, holding the value of
`traceMode` at the moment of the call. -/
structure UI (ε : Type) where
  emulator : Option ε
  traceMode : Bool
  traceCursor : Int
  focusedGprIndex : Option Nat
  traceMemAccesses : Option (List MemAccess)
  daddr : Option (Int × Int)
  tlZoomStart : Int
  tlZoomEnd : Int
  tlIaddrBreakpoint : Option Int
  tlDragging : Bool
  tlDragStartX : ℚ
  tlDragEndX : ℚ
  isRunning : Bool
  lastStoppedAtBreakpoint : Bool
  animFrame : Option Pending
  traceToggle : Bool
  advanceLog : List Bool

/-- The values of the `let` declarations at the top of `main.js`. -/
def UI.initial (ε : Type) : UI ε where
  emulator := none
  traceMode := false
  traceCursor := 0
  focusedGprIndex := none
  traceMemAccesses := none
  daddr := none
  tlZoomStart := 0
  tlZoomEnd := 0
  tlIaddrBreakpoint := none
  tlDragging := false
  tlDragStartX := 0
  tlDragEndX := 0
  isRunning := false
  lastStoppedAtBreakpoint := false
  animFrame := none
  traceToggle := false
  advanceLog := []

/-- The spec's `TraceCursor.localIndex`: the index pinned by the cursor, defined
only in replay mode. -/
def UI.localIndex {ε : Type} (s : UI ε) : Option Int :=
  if s.traceMode then some s.traceCursor else none

/-- `seekTrace(idx)` (main.js 4498). -/
def seekTrace {ε : Type} (E : Engine ε) (s : UI ε) (idx : Int) : UI ε :=
  match s.emulator with
  | none => s
  | some emu =>
    let len : Int := E.get_trace_length emu
    if len = 0 then s
    else
      let idx := max 0 (min idx (len - 1))
      let emu := E.seek_trace_index emu idx
      { s with
        traceCursor := idx
        emulator := some emu
        traceMode := if !s.traceMode then true else s.traceMode
        traceMemAccesses := some (E.get_trace_mem_accesses emu idx) }

/-- `updateFullUI()` (main.js 4078): in replay it re-seeks to the cursor and
returns; in live mode the only modelled variable it writes is `tlZoomEnd`
(4139-4149). -/
def updateFullUI {ε : Type} (E : Engine ε) (s : UI ε) : UI ε :=
  match s.emulator with
  | none => s
  | some emu =>
    if s.traceMode then seekTrace E s s.traceCursor
    else if s.traceToggle then
      let len : Int := E.get_trace_length emu
      if len > 0 then
        if s.tlZoomEnd ≤ 0 ∨ s.tlZoomEnd ≥ len - 1 then { s with tlZoomEnd := len } else s
      else s
    else s

/-- `exitTraceMode()` (main.js 4560). -/
def exitTraceMode {ε : Type} (E : Engine ε) (s : UI ε) : UI ε :=
  updateFullUI E
    { s with
      traceMode := false
      traceCursor := 0
      focusedGprIndex := none
      traceMemAccesses := none
      tlIaddrBreakpoint := none }

/-- The bookkeeping of a call that advances the engine (`step`, `step_over`,
`run_n`): the engine state is replaced and the ghost log records the mode the
call was made in. -/
def UI.advanced {ε : Type} (s : UI ε) (emu : ε) : UI ε :=
  { s with emulator := some emu, advanceLog := s.advanceLog ++ [s.traceMode] }

/-- `doStep()` (main.js 2394).  Without an emulator `emulator.step()` throws a
`TypeError` that the `catch` turns into terminal output. -/
def doStep {ε : Type} (E : Engine ε) (s : UI ε) : UI ε :=
  let s := if s.traceMode then exitTraceMode E s else s
  match s.emulator with
  | none => s
  | some emu =>
    match E.step emu with
    | (emu, none) => s.advanced emu
    | (emu, some info) =>
      let s := s.advanced emu
      let s := if info ≠ StepStatus.breakpoint then { s with lastStoppedAtBreakpoint := false } else s
      updateFullUI E s

/-- `doStepOver()` (main.js 2412). -/
def doStepOver {ε : Type} (E : Engine ε) (s : UI ε) : UI ε :=
  let s := if s.traceMode then exitTraceMode E s else s
  match s.emulator with
  | none => s
  | some emu =>
    match E.step_over emu with
    | (emu, none) => s.advanced emu
    | (emu, some info) =>
      let s := s.advanced emu
      let s := if info ≠ StepStatus.breakpoint then { s with lastStoppedAtBreakpoint := false } else s
      updateFullUI E s

/-- The constant `CHUNK` of `doStepN`, also the literal batch size of
`doContinue` and `doRun`. -/
def CHUNK : Int := 2000

/-- The closure `runChunk` of `doStepN` (main.js 2455), with its captured
counter `remaining`. -/
def runChunkStepN {ε : Type} (E : Engine ε) (s : UI ε) (remaining : Int) : UI ε :=
  match s.emulator with
  | none => { s with isRunning := false }
  | some emu =>
    if E.is_exited emu ∨ s.isRunning = false ∨ remaining ≤ 0 then
      updateFullUI E { s with isRunning := false }
    else
      let batch := min remaining CHUNK
      match E.run_n emu batch with
      | (emu, none) => { s.advanced emu with isRunning := false }
      | (emu, some info) =>
        let s := s.advanced emu
        let remaining := remaining - batch
        if info = StepStatus.breakpoint then
          updateFullUI E { s with lastStoppedAtBreakpoint := true, isRunning := false }
        else if info = StepStatus.running ∧ remaining > 0 then
          { s with animFrame := some (Pending.stepN remaining) }
        else
          let s := if info ≠ StepStatus.breakpoint then { s with lastStoppedAtBreakpoint := false } else s
          updateFullUI E { s with isRunning := false }

/-- `doStepN(n)` (main.js 2430). -/
def doStepN {ε : Type} (E : Engine ε) (s : UI ε) (n : Int) : UI ε :=
  let s := if s.traceMode then exitTraceMode E s else s
  if n ≤ CHUNK then
    match s.emulator with
    | none => s
    | some emu =>
      match E.run_n emu n with
      | (emu, none) => s.advanced emu
      | (emu, some info) =>
        let s := s.advanced emu
        let s := if info ≠ StepStatus.breakpoint then { s with lastStoppedAtBreakpoint := false } else s
        updateFullUI E s
  else
    runChunkStepN E { s with isRunning := true, animFrame := none } n

/-- The closure `runChunk` of `doContinue` (main.js 2507). -/
def runChunkContinue {ε : Type} (E : Engine ε) (s : UI ε) : UI ε :=
  match s.emulator with
  | none => { s with isRunning := false }
  | some emu =>
    if E.is_exited emu ∨ s.isRunning = false then
      updateFullUI E { s with isRunning := false }
    else
      match E.run_n emu 2000 with
      | (emu, none) => updateFullUI E { s.advanced emu with isRunning := false }
      | (emu, some info) =>
        let s := s.advanced emu
        if info = StepStatus.breakpoint then
          updateFullUI E { s with lastStoppedAtBreakpoint := true, isRunning := false }
        else if info = StepStatus.running then
          { s with animFrame := some Pending.cont }
        else
          updateFullUI E { s with isRunning := false }

/-- `doContinue()` (main.js 2500). -/
def doContinue {ε : Type} (E : Engine ε) (s : UI ε) : UI ε :=
  let s := if s.traceMode then exitTraceMode E s else s
  runChunkContinue E { s with isRunning := true, lastStoppedAtBreakpoint := false, animFrame := none }

/-- The closure `runChunk` of `doRun` (main.js 2557). -/
def runChunkRun {ε : Type} (E : Engine ε) (s : UI ε) : UI ε :=
  match s.emulator with
  | none => { s with isRunning := false }
  | some emu =>
    if E.is_exited emu ∨ s.isRunning = false then
      updateFullUI E { s with isRunning := false }
    else
      match E.run_n emu 2000 with
      | (emu, none) => { s.advanced emu with isRunning := false }
      | (emu, some info) =>
        let s := s.advanced emu
        if info = StepStatus.running then
          { s with animFrame := some Pending.run }
        else
          let s := if info = StepStatus.breakpoint then { s with lastStoppedAtBreakpoint := true } else s
          updateFullUI E { s with isRunning := false }

/-- `doRun()` (main.js 2549). -/
def doRun {ε : Type} (E : Engine ε) (s : UI ε) : UI ε :=
  let s := if s.traceMode then exitTraceMode E s else s
  runChunkRun E { s with isRunning := true, lastStoppedAtBreakpoint := false, animFrame := none }

/-- The browser runs the callback registered with `requestAnimationFrame`, if
one is pending. -/
def animationFrame {ε : Type} (E : Engine ε) (s : UI ε) : UI ε :=
  match s.animFrame with
  | none => s
  | some p =>
    let s := { s with animFrame := none }
    match p with
    | Pending.stepN remaining => runChunkStepN E s remaining
    | Pending.cont => runChunkContinue E s
    | Pending.run => runChunkRun E s

/-- The state after `k` animation frames with no other event in between. -/
def frames {ε : Type} (E : Engine ε) : Nat → UI ε → UI ε
  | 0, s => s
  | k + 1, s => frames E k (animationFrame E s)

/-- Between `s` and `t` the engine was advanced only in live mode, and `t` is
live: the ghost log of `t` extends that of `s` by entries that are all
`false`. -/
def AdvancedLive {ε : Type} (s t : UI ε) : Prop :=
  t.traceMode = false ∧ ∃ l : List Bool, t.advanceLog = s.advanceLog ++ l ∧ ∀ b ∈ l, b = false

/-- The advancing calls made by the first chunk of `doContinue` and `doRun`:
one call unless no emulator is loaded or the process has exited. -/
def firstChunkCalls {ε : Type} (E : Engine ε) (s : UI ε) : List Bool :=
  match s.emulator with
  | none => []
  | some emu => if E.is_exited emu then [] else [false]

/-! ## Keyboard and point-search navigation -/

/-- `navigateIaddr(direction)` (main.js 1468). -/
def navigateIaddr {ε : Type} (E : Engine ε) (s : UI ε) (direction : Int) : UI ε :=
  match s.emulator with
  | none => s
  | some emu =>
    if s.traceMode = false then s
    else
      match E.get_trace_rip emu s.traceCursor with
      | none => s
      | some currentRip =>
        let nextIdx :=
          if direction > 0 then E.next_trace_by_rip emu currentRip (s.traceCursor + 1)
          else E.prev_trace_by_rip emu currentRip (max 0 (s.traceCursor - 1))
        let idx := if nextIdx ≥ 0 then nextIdx else -1
        if idx ≥ 0 ∧ idx ≠ s.traceCursor then updateFullUI E (seekTrace E s idx) else s

/-- `navigateDaddr(direction)` (main.js 1491). -/
def navigateDaddr {ε : Type} (E : Engine ε) (s : UI ε) (direction : Int) : UI ε :=
  match s.emulator, s.daddr with
  | some emu, some (addr, size) =>
    if s.traceMode = false then s
    else
      let nextIdx :=
        if direction > 0 then E.next_trace_by_addr emu addr size (s.traceCursor + 1)
        else E.prev_trace_by_addr emu addr size (max 0 (s.traceCursor - 1))
      let idx := if nextIdx ≥ 0 then nextIdx else -1
      if idx ≥ 0 ∧ idx ≠ s.traceCursor then updateFullUI E (seekTrace E s idx) else s
  | _, _ => s

/-- What the `keydown` listener of `setupKeyboard` reads from the event and from
`document.activeElement`. -/
structure KeyEvent where
  key : String
  shiftKey : Bool
  ctrlKey : Bool
  isInput : Bool
  isMemByteEdit : Bool

/-- The `keydown` listener installed by `setupKeyboard()` (main.js 1404).  The
two register-seek branches are guarded by `focusedGprIndex !== null`; here that
test is the `match` around them. -/
def onKeydown {ε : Type} (E : Engine ε) (s : UI ε) (e : KeyEvent) : UI ε :=
  match s.emulator with
  | none => s
  | some emu =>
    let isTraceNavKey : Bool :=
      (e.key = "j" ∨ e.key = "k" ∨ e.key = "J" ∨ e.key = "K") ∧ s.traceMode = true
    if e.isInput = true ∧ isTraceNavKey = false then s
    else if e.isMemByteEdit then s
    else if e.key = "F5" then
      let s := if s.traceMode then exitTraceMode E s else s
      if (s.emulator.map E.is_exited) = some false then doContinue E s else s
    else if e.key = "F10" then
      let s := if s.traceMode then exitTraceMode E s else s
      if (s.emulator.map E.is_exited) = some false then doStepOver E s else s
    else if e.key = "F11" then
      let s := if s.traceMode then exitTraceMode E s else s
      if (s.emulator.map E.is_exited) = some false then doStep E s else s
    else if e.key = "ArrowLeft" ∧ s.traceMode = true then
      seekTrace E s (s.traceCursor - (if e.shiftKey then 10 else 1))
    else if e.key = "ArrowRight" ∧ s.traceMode = true then
      seekTrace E s (s.traceCursor + (if e.shiftKey then 10 else 1))
    else if e.key = "Escape" ∧ s.traceMode = true then exitTraceMode E s
    else if e.key = "j" ∧ e.shiftKey = false ∧ s.traceMode = true then navigateIaddr E s 1
    else if e.key = "k" ∧ e.shiftKey = false ∧ s.traceMode = true then navigateIaddr E s (-1)
    else if e.key = "J" ∧ s.traceMode = true then navigateDaddr E s 1
    else if e.key = "K" ∧ s.traceMode = true then navigateDaddr E s (-1)
    else
      match s.focusedGprIndex with
      | none => s
      | some gpr =>
        if e.key = "[" ∧ e.ctrlKey = true ∧ s.traceMode = true then
          let idx := E.prev_trace_by_register emu gpr s.traceCursor
          if idx ≥ 0 then seekTrace E s idx else s
        else if e.key = "]" ∧ e.ctrlKey = true ∧ s.traceMode = true then
          let idx := E.next_trace_by_register emu gpr s.traceCursor
          if idx ≥ 0 then seekTrace E s idx else s
        else s

/-! ## Double arithmetic -/

/-- Rounding to the nearest integer, a tie going to the even neighbour. -/
def roundEven (y : ℚ) : Int :=
  if y - ⌊y⌋ < 1 / 2 then ⌊y⌋
  else if y - ⌊y⌋ > 1 / 2 then ⌊y⌋ + 1
  else if ⌊y⌋ % 2 = 0 then ⌊y⌋
  else ⌊y⌋ + 1

/-- The exponent of the spacing of the doubles around `x`: for
`2 ^ e ≤ |x| < 2 ^ (e + 1)` the doubles are the multiples of `2 ^ (e - 52)`
(53 significant bits), of `2 ^ (-1074)` in the subnormal range.  From
`2 ^ 53` on the model keeps the spacing 1. -/
def quantumExp (x : ℚ) : Int :=
  max (-1074) (min (Int.log 2 |x| - 52) 0)

/-- The double a real result is rounded to: the nearest multiple of the
spacing at `x`, ties to the even multiple (IEEE 754 binary64, round to nearest
even; exact for magnitudes below `2 ^ 53`). -/
def toDouble (x : ℚ) : ℚ :=
  (roundEven (x / 2 ^ quantumExp x) : ℚ) * 2 ^ quantumExp x

/-- The JavaScript `a / b` on doubles. -/
def divD (a b : ℚ) : ℚ := toDouble (a / b)

/-- The JavaScript `a * b` on doubles. -/
def mulD (a b : ℚ) : ℚ := toDouble (a * b)

/-- The JavaScript `a + b` on doubles. -/
def addD (a b : ℚ) : ℚ := toDouble (a + b)

/-- The JavaScript `a - b` on doubles. -/
def subD (a b : ℚ) : ℚ := toDouble (a - b)

/-! ## Timeline zoom window -/

/-- `Math.round`: the nearest integer, a half rounding up. -/
def jsRound (x : ℚ) : Int := ⌊x + 1 / 2⌋

/-- `getZoomStart()` (main.js 2324). -/
def getZoomStart {ε : Type} (E : Engine ε) (s : UI ε) : Int :=
  match s.emulator with
  | none => 0
  | some emu =>
    let len : Int := E.get_trace_length emu
    if s.tlZoomEnd > s.tlZoomStart ∧ s.tlZoomEnd ≤ len then s.tlZoomStart else 0

/-- `getZoomEnd()` (main.js 2329). -/
def getZoomEnd {ε : Type} (E : Engine ε) (s : UI ε) : Int :=
  match s.emulator with
  | none => 0
  | some emu =>
    let len : Int := E.get_trace_length emu
    if s.tlZoomEnd > s.tlZoomStart ∧ s.tlZoomEnd ≤ len then s.tlZoomEnd else len

/-- The window `renderTimeline` draws (main.js 4701-4708): the window read
through the getters, replaced by the full range when it is empty. -/
def renderWindow {ε : Type} (E : Engine ε) (s : UI ε) (len : Int) : Int × Int :=
  let zStart := getZoomStart E s
  let zEnd := getZoomEnd E s
  if zEnd ≤ zStart ∧ len > 0 then (0, len) else (zStart, zEnd)

/-- The `click` listener of `btnZoomReset` (main.js 2215); the `dblclick`
listener of `timelineWrap` (main.js 2315) has the same body. -/
def onZoomReset {ε : Type} (E : Engine ε) (s : UI ε) : UI ε :=
  match s.emulator with
  | none => s
  | some emu => { s with tlZoomStart := 0, tlZoomEnd := E.get_trace_length emu }

/-- The `mousedown` listener of `timelineWrap` (main.js 2228); `x` is
`e.clientX - rect.left`. -/
def onMouseDown {ε : Type} (s : UI ε) (button : Int) (x : ℚ) : UI ε :=
  if s.emulator.isNone ∨ button ≠ 0 then s
  else { s with tlDragging := true, tlDragStartX := x, tlDragEndX := x }

/-- The `mousemove` listener (main.js 2238); `x` is `e.clientX - rect.left` and
`w` is `rect.width`. -/
def onMouseMove {ε : Type} (s : UI ε) (x w : ℚ) : UI ε :=
  if s.tlDragging = false then s
  else { s with tlDragEndX := max 0 (min x w) }

/-- The constant `targetIdx` of the `mouseup` listener (main.js 2259-2261): the
index a click is mapped to. -/
def clickTarget {ε : Type} (E : Engine ε) (s : UI ε) (wrapWidth : ℚ) : Int :=
  let fraction := divD s.tlDragStartX wrapWidth
  let zSpan := getZoomEnd E s - getZoomStart E s
  ⌊addD (getZoomStart E s) (mulD fraction zSpan)⌋

/-- The constant `newStart` of the `mouseup` listener (main.js 2267-2270). -/
def dragNewStart {ε : Type} (E : Engine ε) (s : UI ε) (wrapWidth : ℚ) : Int :=
  let left := min s.tlDragStartX s.tlDragEndX
  let zSpan := getZoomEnd E s - getZoomStart E s
  ⌊addD (getZoomStart E s) (mulD (divD left wrapWidth) zSpan)⌋

/-- The constant `newEnd` of the `mouseup` listener (main.js 2268-2271). -/
def dragNewEnd {ε : Type} (E : Engine ε) (s : UI ε) (wrapWidth : ℚ) : Int :=
  let right := max s.tlDragStartX s.tlDragEndX
  let zSpan := getZoomEnd E s - getZoomStart E s
  ⌈addD (getZoomStart E s) (mulD (divD right wrapWidth) zSpan)⌉

/-- The `mouseup` listener (main.js 2248): click-to-seek below 4 pixels of
travel, drag-to-zoom otherwise; `wrapWidth` is `rect.width`. -/
def onMouseUp {ε : Type} (E : Engine ε) (s : UI ε) (wrapWidth : ℚ) : UI ε :=
  if s.tlDragging = false then s
  else
    let s := { s with tlDragging := false }
    match s.emulator with
    | none => s
    | some emu =>
      let dragDist := |subD s.tlDragEndX s.tlDragStartX|
      if dragDist < 4 then seekTrace E s (clickTarget E s wrapWidth)
      else
        let newStart := dragNewStart E s wrapWidth
        let newEnd := dragNewEnd E s wrapWidth
        if newEnd - newStart > 1 then
          { s with
            tlZoomStart := max 0 newStart
            tlZoomEnd := min (E.get_trace_length emu : Int) newEnd }
        else s

/-- The zoom factor of the wheel listener: `deltaY > 0 ? 1.3 : 1 / 1.3`. -/
def zoomFactor (deltaY : ℚ) : ℚ := if deltaY > 0 then 13 / 10 else 1 / (13 / 10)

/-- The constant `newSpan` of the wheel listener (main.js 2296).  The product is
exact here; taken in doubles it gives the same integer (`wheelSpanD`). -/
def wheelSpan (len zSpan : Int) (deltaY : ℚ) : Int :=
  max 10 (min len (jsRound (zSpan * zoomFactor deltaY)))

/-- The zoom factor as the doubles the listener works with: the literal `1.3`
is the double nearest to `13/10`, and `1 / 1.3` is a division of doubles. -/
def zoomFactorD (deltaY : ℚ) : ℚ :=
  if deltaY > 0 then toDouble (13 / 10) else divD 1 (toDouble (13 / 10))

/-- The constant `newSpan` of the wheel listener (main.js 2293-2296) with the
product `zSpan * factor` taken in doubles.  It equals `wheelSpan` for every
span from 0 to `2 ^ 32` (`wheelSpanD_eq`). -/
def wheelSpanD (len zSpan : Int) (deltaY : ℚ) : Int :=
  max 10 (min len (jsRound (mulD zSpan (zoomFactorD deltaY))))

/-- The constant `center` of the wheel listener (main.js 2299): the trace
position under the pointer, as the listener computes it. -/
def wheelCenter {ε : Type} (E : Engine ε) (s : UI ε) (x w : ℚ) : ℚ :=
  let fraction := divD x w
  let zSpan := getZoomEnd E s - getZoomStart E s
  addD (getZoomStart E s) (mulD fraction zSpan)

/-- The first value of `newStart` in the wheel listener (main.js 2300): the
start of the re-centred window, before it is clamped to the trace. -/
def wheelStart {ε : Type} (E : Engine ε) (s : UI ε) (len : Int) (x w deltaY : ℚ) : Int :=
  let fraction := divD x w
  let newSpan := wheelSpan len (getZoomEnd E s - getZoomStart E s) deltaY
  jsRound (subD (wheelCenter E s x w) (mulD fraction newSpan))

/-- The block `// Clamp to bounds` of the wheel listener (main.js 2303-2306),
applied to the re-centred window `[newStart, newStart + newSpan)`. -/
def clampToBounds (len newStart newSpan : Int) : Int × Int :=
  let newEnd := newStart + newSpan
  let (newStart, newEnd) := if newStart < 0 then (0, newEnd - newStart) else (newStart, newEnd)
  let (newStart, newEnd) :=
    if newEnd > len then (newStart - (newEnd - len), len) else (newStart, newEnd)
  let newStart := max 0 newStart
  (newStart, newEnd)

/-- The `wheel` listener of `timelineWrap` (main.js 2282); `x` is
`e.clientX - rect.left` and `w` is `rect.width`. -/
def onWheel {ε : Type} (E : Engine ε) (s : UI ε) (x w deltaY : ℚ) : UI ε :=
  match s.emulator with
  | none => s
  | some emu =>
    let len : Int := E.get_trace_length emu
    if len = 0 then s
    else
      let newSpan := wheelSpan len (getZoomEnd E s - getZoomStart E s) deltaY
      let newStart := wheelStart E s len x w deltaY
      { s with
        tlZoomStart := (clampToBounds len newStart newSpan).1
        tlZoomEnd := (clampToBounds len newStart newSpan).2 }

/-- Forward mapping of the timeline (main.js 4759 and the spec's `pixel(i)`):
the pixel position of trace position `i` under the window `[zStart, zEnd)` on a
display `w` pixels wide. -/
def pixelOf (zStart zEnd : Int) (w i : ℚ) : ℚ :=
  (i - zStart) / ((zEnd : ℚ) - zStart) * w

/-- Inverse mapping of the timeline (the spec's `index(pixel)`, before
rounding): the trace position under pixel `p` for the window `[zStart, zEnd)`
on a display `w` pixels wide, as a real number. -/
def indexOf (zStart zEnd : Int) (w p : ℚ) : ℚ :=
  (zStart : ℚ) + (p / w) * ((zEnd - zStart : Int) : ℚ)

/-- The inverse mapping as the pointer listeners compute it (main.js 2260-2262,
2269-2270, 2291-2299): `zStart + (p / w) * zSpan`, each operation rounded to a
double. -/
def indexOfD (zStart zEnd : Int) (w p : ℚ) : ℚ :=
  addD (zStart : ℚ) (mulD (divD p w) ((zEnd - zStart : Int) : ℚ))

/-- The spec's scroll-zoom anchoring at one wheel event: the trace position
under the pointer before the event maps, under the window stored after it, to a
pixel within one column (one pixel) of its pixel before the event. -/
def ScrollAnchored {ε : Type} (E : Engine ε) (s : UI ε) (x w deltaY : ℚ) : Prop :=
  |pixelOf (onWheel E s x w deltaY).tlZoomStart (onWheel E s x w deltaY).tlZoomEnd w
      (indexOf (getZoomStart E s) (getZoomEnd E s) w x) -
    pixelOf (getZoomStart E s) (getZoomEnd E s) w
      (indexOf (getZoomStart E s) (getZoomEnd E s) w x)| ≤ 1

/-- The spec's invariant of `ZoomWindow` on the stored pair:
`0 ≤ start < end ≤ traceLength`. -/
def StoredWindowValid {ε : Type} (s : UI ε) (len : Int) : Prop :=
  0 ≤ s.tlZoomStart ∧ s.tlZoomStart < s.tlZoomEnd ∧ s.tlZoomEnd ≤ len

/-- The states the program can reach, as far as the zoom window is concerned.
`tlZoomStart` and `tlZoomEnd` are assigned in seven places of `main.js`:
`createEmulator` (1020) and `resetSession` (1638) set both to 0; the reset
button and the double click (2217, 2318), the drag (2274), the wheel (2308)
and `updateFullUI` (4147) are the handlers below.  Everything else, the engine
included, may change the rest of the state in any way.  Pointer events come
with a positive display width. -/
inductive Reachable {ε : Type} (E : Engine ε) : UI ε → Prop where
  | init : Reachable E (UI.initial ε)
  | load (s t : UI ε) : Reachable E s → t.tlZoomStart = 0 → t.tlZoomEnd = 0 → Reachable E t
  | other (s t : UI ε) : Reachable E s → t.tlZoomStart = s.tlZoomStart →
      t.tlZoomEnd = s.tlZoomEnd → Reachable E t
  | zoomReset (s : UI ε) : Reachable E s → Reachable E (onZoomReset E s)
  | mouseUp (s : UI ε) (w : ℚ) : Reachable E s → 0 < w → Reachable E (onMouseUp E s w)
  | wheel (s : UI ε) (x w deltaY : ℚ) : Reachable E s → 0 < w →
      Reachable E (onWheel E s x w deltaY)
  | refresh (s : UI ε) : Reachable E s → Reachable E (updateFullUI E s)

/-! ## A small concrete engine, used to instantiate the theorems -/

/-- A toy engine whose state is the number of recorded trace entries: every
advancing call records one more entry, and no point search finds anything. -/
def counterEngine : Engine Nat where
  get_trace_length := fun n => n
  seek_trace_index := fun n _ => n
  get_trace_mem_accesses := fun _ _ => []
  is_exited := fun _ => false
  step := fun n => (n + 1, some StepStatus.running)
  step_over := fun n => (n + 1, some StepStatus.running)
  run_n := fun n _ => (n + 1, some StepStatus.running)
  get_trace_rip := fun _ i => some i
  prev_trace_by_register := fun _ _ _ => -1
  next_trace_by_register := fun _ _ _ => -1
  prev_trace_by_rip := fun _ _ _ => -1
  next_trace_by_rip := fun _ _ _ => -1
  prev_trace_by_addr := fun _ _ _ _ => -1
  next_trace_by_addr := fun _ _ _ _ => -1

/-- A live session over `counterEngine` with `n` recorded trace entries. -/
def liveSession (n : Nat) : UI Nat :=
  { UI.initial Nat with emulator := some n, traceToggle := true }

/-- A replay session over `counterEngine`: `n` recorded entries, the cursor
pinned at `c`, register 0 focused and a watched range at `0x1000`. -/
def replaySession (n : Nat) (c : Int) : UI Nat :=
  { liveSession n with
    traceMode := true
    traceCursor := c
    focusedGprIndex := some 0
    daddr := some (4096, 4) }

/-- A session over `counterEngine` with `n` recorded entries and the stored zoom
window `[a, b)`. -/
def zoomedSession (n : Nat) (a b : Int) : UI Nat :=
  { liveSession n with tlZoomStart := a, tlZoomEnd := b }

/-- A session over `counterEngine` in the middle of a drag on the timeline, from
pixel `a` to pixel `b`, with `n` recorded entries and the stored window
`[zs, ze)`. -/
def draggingSession (n : Nat) (zs ze : Int) (a b : ℚ) : UI Nat :=
  { zoomedSession n zs ze with tlDragging := true, tlDragStartX := a, tlDragEndX := b }

/-! ## Watch list -/

/-- An element of `watchList`: `{ addr, size, label }`; the label is a string
of UTF-16 code units. -/
structure WatchEntry where
  addr : Int
  size : Int
  label : List Nat
  deriving DecidableEq, Repr

/-- The two module variables `_removeWatch` reads and writes: the focused
`daddr` (`{ addr, size }` or `null`) and `watchList`. -/
structure WatchState where
  daddr : Option (Int × Int)
  watchList : List WatchEntry
  deriving DecidableEq, Repr

/-- The index at which `Array.prototype.splice(idx, 1)` starts on an array of
length `len`: a negative `idx` counts from the end. -/
def spliceStart (len : Nat) (idx : Int) : Nat :=
  if idx < 0 then (max ((len : Int) + idx) 0).toNat else min idx.toNat len

/-- `clearDaddr()` (main.js 1531) on the watch state; the rest of it redraws. -/
def clearDaddr (s : WatchState) : WatchState :=
  { s with daddr := none }

/-- `window._removeWatch(idx)` (main.js 3300). -/
def removeWatch (s : WatchState) (idx : Int) : WatchState :=
  let start := spliceStart s.watchList.length idx
  let removed := s.watchList[start]?
  let s := { s with watchList := s.watchList.eraseIdx start }
  match s.daddr, removed with
  | some d, some r => if d.1 = r.addr then clearDaddr s else s
  | _, _ => s

/-! ## Strings -/

/-- A JavaScript string, as its sequence of UTF-16 code units. -/
abbrev JsString := List Nat

/-- The code units of a literal all of whose characters are in the Basic
Multilingual Plane. -/
def str (s : String) : JsString := s.toList.map Char.toNat

/-- The characters matched by `\s` and removed by `trim()`: white space and
line terminators. -/
def isWs (c : Nat) : Bool :=
  c = 9 ∨ c = 10 ∨ c = 11 ∨ c = 12 ∨ c = 13 ∨ c = 32 ∨ c = 160 ∨ c = 5760 ∨
    (8192 ≤ c ∧ c ≤ 8202) ∨ c = 8232 ∨ c = 8233 ∨ c = 8239 ∨ c = 8287 ∨ c = 12288 ∨ c = 65279

/-- The line terminators, which `.` does not match. -/
def isLineTerminator (c : Nat) : Bool :=
  c = 10 ∨ c = 13 ∨ c = 8232 ∨ c = 8233

/-- The class `[0-9a-fA-F]`. -/
def isHexDigit (c : Nat) : Bool :=
  (48 ≤ c ∧ c ≤ 57) ∨ (97 ≤ c ∧ c ≤ 102) ∨ (65 ≤ c ∧ c ≤ 70)

/-- The class `[gimsuy]`. -/
def isFlagChar (c : Nat) : Bool :=
  c = 103 ∨ c = 105 ∨ c = 109 ∨ c = 115 ∨ c = 117 ∨ c = 121

/-- `String.prototype.trim`. -/
def jsTrim (s : JsString) : JsString :=
  (s.dropWhile isWs).rdropWhile isWs

/-- The loop of `split(/\s+/).filter(Boolean)`: `cur` holds, reversed, the
token being read. -/
def splitWsAux : JsString → JsString → List JsString
  | cur, [] => if cur = [] then [] else [cur.reverse]
  | cur, c :: cs =>
    if isWs c then
      if cur = [] then splitWsAux [] cs else cur.reverse :: splitWsAux [] cs
    else splitWsAux (c :: cur) cs

/-- `s.split(/\s+/).filter(Boolean)`: the maximal runs of characters that are
not white space. -/
def splitWs (s : JsString) : List JsString :=
  splitWsAux [] s

/-- `s.startsWith('/')`. -/
def startsWithSlash (s : JsString) : Bool :=
  s.head? = some 47

/-- `s.lastIndexOf('/')`, which is `-1` when there is no slash. -/
def lastIndexOfSlash : JsString → Int
  | [] => -1
  | c :: r =>
    if lastIndexOfSlash r ≥ 0 then lastIndexOfSlash r + 1
    else if c = 47 then 0
    else -1

/-- `s.slice(a, b)` for `0 ≤ a`. -/
def jsSlice (s : JsString) (a b : Nat) : JsString :=
  (s.take b).drop a

/-- `t.toLowerCase().startsWith('0x')`, the test of `/^0x/i`: a `0` followed by
`x` or `X` (no other character lower-cases to either). -/
def startsWith0x (t : JsString) : Bool :=
  match t with
  | 48 :: c :: _ => c = 120 ∨ c = 88
  | _ => false

/-- The value of a hexadecimal digit. -/
def digitVal (c : Nat) : Nat :=
  if 48 ≤ c ∧ c ≤ 57 then c - 48
  else if 97 ≤ c ∧ c ≤ 102 then c - 87
  else if 65 ≤ c ∧ c ≤ 70 then c - 55
  else 0

/-- `parseInt(s, 16)`: leading white space is skipped, then an optional sign,
then an optional `0x` / `0X`, then the longest run of hexadecimal digits is
read; `none` stands for `NaN` (no digit read).  The value is exact, as it is in
JavaScript below `2^53`. -/
def parseInt16 (s : JsString) : Option Int :=
  let s := s.dropWhile isWs
  let (neg, s) :=
    match s with
    | 45 :: r => (true, r)
    | 43 :: r => (false, r)
    | _ => (false, s)
  let s := if startsWith0x s then s.drop 2 else s
  let ds := s.takeWhile isHexDigit
  if ds = [] then none
  else
    let v : Int := (ds.foldl (fun a c => a * 16 + digitVal c) 0 : Nat)
    some (if neg then -v else v)

/-- `n & 0xff` on an integer. -/
def lowByte (n : Int) : Nat := (n % 256).toNat

/-- A loop that collects `f a` for each element in turn and returns `null`
(`none`) as soon as one `f a` is `NaN` / `null`. -/
def mapOpt {α β : Type} (f : α → Option β) : List α → Option (List β)
  | [] => some []
  | a :: r =>
    match f a with
    | none => none
    | some b => (mapOpt f r).map (fun bs => b :: bs)

/-- The slices `hex.slice(i, i + 2)` for `i = 0, 2, 4, ...` below the length. -/
def pairs : JsString → List JsString
  | [] => []
  | [a] => [[a]]
  | a :: b :: r => [a, b] :: pairs r

/-- The body of the `for (const t of tokens)` loop of `parseHexQuery`: the bytes
a token contributes, `none` when the loop returns `null`. -/
def parseHexToken (t : JsString) : Option (List Nat) :=
  let hex := if startsWith0x t then t.drop 2 else t
  if hex.length = 2 then (parseInt16 hex).map (fun n => [lowByte n])
  else if hex.length > 2 then mapOpt (fun p => (parseInt16 p).map lowByte) (pairs hex)
  else some []

/-- `parseHexQuery(str)` (main.js 3402); `none` is `null`. -/
def parseHexQuery (s : JsString) : Option (List Nat) :=
  let s := jsTrim s
  if s = [] then none
  else
    match mapOpt parseHexToken (splitWs s) with
    | none => none
    | some outs => if outs.flatten = [] then none else some outs.flatten

/-- The search modes: the values of the mode selectors. -/
inductive SearchMode where
  | auto
  | hex
  | string
  | regex
  | other
  deriving DecidableEq, Repr

/-- The test `/^\/.*\/[gimsuy]*$/`: a slash, any characters but line
terminators, a slash, then flag letters up to the end. -/
def matchesRegexFrame (q : JsString) : Bool :=
  match q with
  | 47 :: rest =>
    (List.range rest.length).any (fun i =>
      rest[i]? = some 47 ∧ (rest.take i).all (fun c => !isLineTerminator c) ∧
        (rest.drop (i + 1)).all isFlagChar)
  | _ => false

/-- The test `/^([0-9a-fA-Fx\s]+)$/.test(q) && /[0-9a-fA-F]/.test(q)`. -/
def matchesHexClass (q : JsString) : Bool :=
  q ≠ [] ∧ q.all (fun c => isHexDigit c ∨ c = 120 ∨ isWs c) ∧ q.any isHexDigit

/-- `detectSearchMode(query)` (main.js 3426). -/
def detectSearchMode (query : JsString) : SearchMode :=
  let q := jsTrim query
  if matchesRegexFrame q then SearchMode.regex
  else if matchesHexClass q then SearchMode.hex
  else SearchMode.string

/-! ## Search -/

/-- What the search functions use of the JavaScript runtime beyond plain list
operations: `String.prototype.toLowerCase` and regular expressions.
`newRegExp pattern flags` is `new RegExp(pattern, flags)`, `none` when it
throws; `test` is `re.test(s)`; `execAll re s` lists `(m.index, m.index +
m[0].length)` for the successive results of the `re.exec(s)` loop of
`runMemorySearch`. -/
structure JsEnv (ρ : Type) where
  toLowerCase : JsString → JsString
  newRegExp : JsString → JsString → Option ρ
  test : ρ → JsString → Bool
  execAll : ρ → JsString → List (Nat × Nat)

/-- The UTF-8 bytes of one UTF-16 code unit that is not part of a surrogate
pair; a lone surrogate is encoded as U+FFFD. -/
def encodeUnit (c : Nat) : List Nat :=
  if c < 128 then [c]
  else if c < 2048 then [192 + c / 64, 128 + c % 64]
  else if 55296 ≤ c ∧ c < 57344 then [239, 191, 189]
  else [224 + c / 4096, 128 + c / 64 % 64, 128 + c % 64]

/-- `new TextEncoder().encode(q)`: the UTF-8 bytes of a string given by its
UTF-16 code units. -/
def textEncode : JsString → List Nat
  | [] => []
  | [c] => encodeUnit c
  | c :: d :: r =>
    if (55296 ≤ c ∧ c < 56320) ∧ (56320 ≤ d ∧ d < 57344) then
      let cp := 65536 + (c - 55296) * 1024 + (d - 56320)
      (240 + cp / 262144) :: (128 + cp / 4096 % 64) :: (128 + cp / 64 % 64) ::
        (128 + cp % 64) :: textEncode r
    else encodeUnit c ++ textEncode (d :: r)

/-- The inner loop of the byte scan: `found` after comparing
`bytes[i + j]` with `needle[j]` for `j = 0 .. n - 1`. -/
def foundAt (bytes needle : List Nat) (i : Nat) : Bool :=
  (List.range needle.length).all (fun j => bytes[i + j]? = needle[j]?)

/-- The outer loop of the byte scan, shared by the hex and the string branch of
`runMemorySearch`: for `i = 0 .. bytes.length - n`, in this order, push
`{ start: i, end: i + n }` when the needle is found at `i`. -/
def scanBytes (bytes needle : List Nat) : List (Nat × Nat) :=
  ((List.range (bytes.length + 1 - needle.length)).filter (foundAt bytes needle)).map
    (fun i => (i, i + needle.length))

/-- The constant `effectiveMode` of `runMemorySearch` and of `runDisasmSearch`
for the trimmed query `q`. -/
def effectiveMode (q : JsString) (mode : SearchMode) : SearchMode :=
  if mode = SearchMode.auto then detectSearchMode q else mode

/-- The constant `effectiveMode` of `runStraceSearch` for the trimmed query
`q`. -/
def straceEffectiveMode (q : JsString) (mode : SearchMode) : SearchMode :=
  if mode = SearchMode.auto then
    (if startsWithSlash q ∧ lastIndexOfSlash q > 0 then SearchMode.regex else SearchMode.string)
  else mode

/-- The flags after `if (!flags.includes('g')) flags += 'g'`. -/
def withGlobalFlag (flags : JsString) : JsString :=
  if flags.contains 103 then flags else flags ++ [103]

/-- The view of the bytes the regular expression is run on: printable ASCII
kept, every other byte shown as `.`. -/
def asciiView (bytes : List Nat) : JsString :=
  bytes.map (fun b => if 32 ≤ b ∧ b < 127 then b else 46)

/-- `runMemorySearch(bytes, query, mode)` (main.js 3434); a match
`{ start, end }` is the pair `(start, end)`. -/
def runMemorySearch {ρ : Type} (env : JsEnv ρ) (bytes : List Nat) (query : JsString)
    (mode : SearchMode) : List (Nat × Nat) :=
  let q := jsTrim query
  if q = [] then []
  else
    match effectiveMode q mode with
    | SearchMode.hex =>
      match parseHexQuery q with
      | none => []
      | some needle => if needle.length = 0 then [] else scanBytes bytes needle
    | SearchMode.string => scanBytes bytes (textEncode q)
    | SearchMode.regex =>
      if startsWithSlash q ∧ lastIndexOfSlash q > 0 then
        let lastSlash := (lastIndexOfSlash q).toNat
        let flags := withGlobalFlag (q.drop (lastSlash + 1))
        let pattern := jsSlice q 1 lastSlash
        match env.newRegExp pattern flags with
        | none => []
        | some re => env.execAll re (asciiView bytes)
      else []
    | _ => []

/-- A disassembly line `{ addr, text }`; a missing field is the empty
string. -/
structure DisasmLine where
  addr : JsString
  text : JsString
  deriving DecidableEq, Repr

/-- The text a disassembly line is searched in:
`(line.addr || '') + ' ' + (line.text || '')`. -/
def DisasmLine.full (line : DisasmLine) : JsString :=
  line.addr ++ [32] ++ line.text

/-- `haystack.includes(needle)`. -/
def jsIncludes (haystack needle : JsString) : Bool :=
  decide (needle <:+: haystack)

/-- The indices pushed by `lines.forEach((line, i) => { if (p(line)) matches.push(i) })`. -/
def matchingIndices {α : Type} (lines : List α) (p : α → Bool) : List Nat :=
  (List.range lines.length).filter (fun i => (lines[i]?.map p) = some true)

/-- `s.replace(/^0x/i, '')`. -/
def strip0x (s : JsString) : JsString :=
  if startsWith0x s then s.drop 2 else s

/-- `n.toString(16)` for an integer `n`. -/
def toHexString (n : Int) : JsString :=
  if n < 0 then 45 :: (Nat.toDigits 16 n.natAbs).map Char.toNat
  else (Nat.toDigits 16 n.natAbs).map Char.toNat

/-- The flags handed to `new RegExp` by `runDisasmSearch` and
`runStraceSearch`: `flags.replace(/g/g, '') + 'i'`, after the `g` was added. -/
def lineRegexFlags (flags : JsString) : JsString :=
  (withGlobalFlag flags).filter (fun c => c ≠ 103) ++ [105]

/-- `runDisasmSearch(lines, query, mode)` (main.js 3567).  In the hex branch the
number is exact (`parseInt` and `toString(16)` agree with JavaScript below
`2^53`) and `toString(16)` is already lower case. -/
def runDisasmSearch {ρ : Type} (env : JsEnv ρ) (lines : List DisasmLine) (query : JsString)
    (mode : SearchMode) : List Nat :=
  let q := jsTrim query
  if q = [] then []
  else
    match effectiveMode q mode with
    | SearchMode.hex =>
      let hexStr := (strip0x q).filter (fun c => !isWs c)
      match parseInt16 hexStr with
      | none => []
      | some hexNum =>
        let addrStr := toHexString hexNum
        matchingIndices lines (fun line =>
          jsIncludes (env.toLowerCase (strip0x line.addr)) addrStr ||
            jsIncludes (env.toLowerCase line.full) addrStr)
    | SearchMode.string =>
      let lower := env.toLowerCase q
      matchingIndices lines (fun line => jsIncludes (env.toLowerCase line.full) lower)
    | SearchMode.regex =>
      if startsWithSlash q ∧ lastIndexOfSlash q > 0 then
        let lastSlash := (lastIndexOfSlash q).toNat
        let flags := q.drop (lastSlash + 1)
        let pattern := jsSlice q 1 lastSlash
        match env.newRegExp pattern (lineRegexFlags flags) with
        | none => []
        | some re => matchingIndices lines (fun line => env.test re line.full)
      else []
    | _ => []

/-- `runStraceSearch(lines, query, mode)` (main.js 3634). -/
def runStraceSearch {ρ : Type} (env : JsEnv ρ) (lines : List JsString) (query : JsString)
    (mode : SearchMode) : List Nat :=
  let q := jsTrim query
  if q = [] then []
  else
    match straceEffectiveMode q mode with
    | SearchMode.string =>
      let lower := env.toLowerCase q
      matchingIndices lines (fun line => jsIncludes (env.toLowerCase line) lower)
    | SearchMode.regex =>
      if startsWithSlash q ∧ lastIndexOfSlash q > 0 then
        let lastSlash := (lastIndexOfSlash q).toNat
        let flags := q.drop (lastSlash + 1)
        let pattern := jsSlice q 1 lastSlash
        match env.newRegExp pattern (lineRegexFlags flags) with
        | none => []
        | some re => matchingIndices lines (fun line => env.test re line)
      else []
    | _ => []

/-- A JavaScript runtime for ASCII text, used to instantiate the theorems:
`toLowerCase` maps `A`-`Z` to `a`-`z`, and no regular expression compiles. -/
def asciiEnv : JsEnv Unit where
  toLowerCase := fun s => s.map (fun c => if 65 ≤ c ∧ c ≤ 90 then c + 32 else c)
  newRegExp := fun _ _ => none
  test := fun _ _ => false
  execAll := fun _ _ => []

/-- The character of the hexadecimal digit `n < 16`, in upper or lower
case. -/
def hexDigitCode (upper : Bool) (n : Nat) : Nat :=
  if n < 10 then 48 + n else if upper then 55 + n else 87 + n

/-- The two hexadecimal digits of a byte. -/
def hexByte (upper : Bool) (b : Nat) : JsString :=
  [hexDigitCode upper (b / 16), hexDigitCode upper (b % 16)]

/-- The hex encoding of bytes as 2-digit groups separated by one space, as in
`"41 42"`. -/
def hexSpaced (upper : Bool) (bs : List Nat) : JsString :=
  List.intercalate [32] (bs.map (hexByte upper))

/-- The hex encoding of bytes as `0x`-prefixed groups separated by one space,
as in `"0x41 0x42"`. -/
def hexPrefixed (upper : Bool) (bs : List Nat) : JsString :=
  List.intercalate [32] (bs.map (fun b => 48 :: 120 :: hexByte upper b))

/-- The hex encoding of bytes as one run of digits, as in `"4142"`. -/
def hexRun (upper : Bool) (bs : List Nat) : JsString :=
  (bs.map (hexByte upper)).flatten

/-- The part of `parseHexQuery` after tokenizing: the bytes of all tokens, or
`null` when a token is rejected or no byte was produced. -/
def bytesOfTokens (tokens : List JsString) : Option (List Nat) :=
  match mapOpt parseHexToken tokens with
  | none => none
  | some outs => if outs.flatten = [] then none else some outs.flatten

/-- A token as the spec allows it in a hex query: hex digits (at least one)
after an optional `0x` prefix. -/
def isSpecHexToken (tok : JsString) : Bool :=
  match tok with
  | 48 :: 120 :: d => d ≠ [] ∧ d.all isHexDigit
  | d => d ≠ [] ∧ d.all isHexDigit

/-- A query that "consists solely of hex digits, optional `0x` prefixes, and
whitespace", in the spec's words: at least one token, each a spec hex token. -/
def SpecHexQuery (q : JsString) : Bool :=
  splitWs q ≠ [] ∧ (splitWs q).all isSpecHexToken

/-- The mode inference as the spec words it: `Regex` for a query framed as
`/pattern/flags`, `Hex` for a spec hex query, `String` otherwise. -/
def specSearchMode (query : JsString) : SearchMode :=
  let q := jsTrim query
  if matchesRegexFrame q then SearchMode.regex
  else if SpecHexQuery q then SearchMode.hex
  else SearchMode.string

/-! ## Search sessions -/

/-- The variables of one search session.  `main.js` holds three copies, named
`memSearch...`, `disasmSearch...` and `straceSearch...`: `searchQuery`,
`searchMatches` and `searchCurrentIndex` are the three `let` variables,
`searchInput` is the `value` of the text box and `searchMode` the `value` of
the mode selector.  A memory match `{ addr, length }` is a pair, a line match
is a line index. -/
structure SearchSession (μ : Type) where
  searchQuery : JsString
  searchMatches : List μ
  searchCurrentIndex : Int
  searchInput : JsString
  searchMode : SearchMode

/-- The values of the `let` declarations (main.js 69-81), with an empty text
box. -/
def SearchSession.initial (μ : Type) (mode : SearchMode) : SearchSession μ where
  searchQuery := []
  searchMatches := []
  searchCurrentIndex := -1
  searchInput := []
  searchMode := mode

/-- The assignments `createEmulator` (main.js 1027-1041) and `resetSession`
(1629-1637, 1675-1686) make to a search session. -/
def resetSearch {μ : Type} (s : SearchSession μ) : SearchSession μ :=
  { s with searchQuery := [], searchMatches := [], searchCurrentIndex := -1, searchInput := [] }

/-- The user picks another entry of the mode selector.  No listener is attached
to the three selectors, so only the `value` read by later searches changes. -/
def onSearchModeChange {μ : Type} (s : SearchSession μ) (mode : SearchMode) : SearchSession μ :=
  { s with searchMode := mode }

/-- The operator `%` on integers: the remainder has the sign of the dividend
(`-0` is `0`). -/
def jsRem (a b : Int) : Int := Int.tmod a b

/-- The index assigned by a `goTo...SearchMatch(direction)`:
`direction === 'next' ? (i + 1) % n : (i - 1 + n) % n`. -/
def stepIndex (direction : String) (i n : Int) : Int :=
  if direction = "next" then jsRem (i + 1) n else jsRem (i - 1 + n) n

/-! ### Memory session -/

/-- What `searchAllMemory` uses of the emulator: `search_memory(query, mode)`
followed by `JSON.parse`, `[[addr, length], ...]` as a list of pairs, `none`
when either throws. -/
abbrev MemSearcher := JsString → SearchMode → Option (List (Int × Int))

/-- `searchAllMemory(query, mode)` (main.js 3528); `emu` is `none` when
`emulator` is `null`. -/
def searchAllMemory (emu : Option MemSearcher) (query : JsString) (mode : SearchMode) :
    List (Int × Int) :=
  match emu with
  | none => []
  | some search_memory =>
    if jsTrim query = [] then []
    else
      match search_memory (jsTrim query) (effectiveMode (jsTrim query) mode) with
      | none => []
      | some arr => arr

/-- What `refreshMemory()` (main.js 3692) does to the memory session.  `shown`
says that it gets past its two early returns (an emulator is loaded and
`memAddr` holds an address). -/
def refreshMemory (shown : Bool) (s : SearchSession (Int × Int)) : SearchSession (Int × Int) :=
  if shown = false then s
  else if jsTrim s.searchQuery = [] then { s with searchMatches := [], searchCurrentIndex := -1 }
  else s

/-- The `input` listener of `memSearchInput` (main.js 2053); `v` is the text
now in the box. -/
def onMemSearchInput (shown : Bool) (v : JsString) (s : SearchSession (Int × Int)) :
    SearchSession (Int × Int) :=
  refreshMemory shown
    { s with searchInput := v, searchQuery := v, searchMatches := [], searchCurrentIndex := -1 }

/-- The callback `runMemSearchAll` hands to `searchAllMemoryAsync` (main.js
2065-2073), run by the timer with the query and the mode captured at the
call. -/
def memSearchDone (emu : Option MemSearcher) (shown : Bool) (query : JsString) (mode : SearchMode)
    (s : SearchSession (Int × Int)) : SearchSession (Int × Int) :=
  let found := searchAllMemory emu query mode
  refreshMemory shown
    { s with searchMatches := found, searchCurrentIndex := if found.length > 0 then 0 else -1 }

/-- `runMemSearchAll()` (main.js 2060), the `click` listener of the search
button and the Enter key of the box: the state it leaves and, when a search was
started, the query and mode the pending callback will search for. -/
def runMemSearchAll (shown : Bool) (s : SearchSession (Int × Int)) :
    SearchSession (Int × Int) × Option (JsString × SearchMode) :=
  let s := { s with searchQuery := s.searchInput }
  if jsTrim s.searchQuery = [] then (refreshMemory shown s, none)
  else (s, some (s.searchQuery, s.searchMode))

/-- `goToMemSearchMatch(direction)` (main.js 2080). -/
def goToMemSearchMatch (emu : Option MemSearcher) (shown : Bool) (direction : String)
    (s : SearchSession (Int × Int)) : SearchSession (Int × Int) :=
  let s := { s with searchQuery := s.searchInput }
  if jsTrim s.searchQuery = [] then s
  else
    let s :=
      if s.searchMatches.length = 0 then
        let found := searchAllMemory emu s.searchQuery s.searchMode
        { s with searchMatches := found, searchCurrentIndex := if found.length > 0 then 0 else -1 }
      else s
    if s.searchMatches.length = 0 then s
    else
      refreshMemory shown
        { s with
          searchCurrentIndex := stepIndex direction s.searchCurrentIndex s.searchMatches.length }

/-! ### Disassembly and syscall log sessions -/

/-- The block `if (xSearchQuery.trim()) { ... } else { ... }` of `renderDisasm`
(main.js 3976), `renderTraceDisasm` (4585) and `renderStraceOutput` (2621);
`search query mode` is the call of `runDisasmSearch` / `runStraceSearch` on the
lines being drawn. -/
def searchBlock (search : JsString → SearchMode → List Nat) (s : SearchSession Nat) :
    SearchSession Nat :=
  if jsTrim s.searchQuery ≠ [] then
    let found := search s.searchQuery s.searchMode
    if found.length > 0 ∧
        (s.searchCurrentIndex < 0 ∨ s.searchCurrentIndex ≥ found.length) then
      { s with searchMatches := found, searchCurrentIndex := 0 }
    else if found.length = 0 then
      { s with searchMatches := found, searchCurrentIndex := -1 }
    else { s with searchMatches := found }
  else { s with searchMatches := [], searchCurrentIndex := -1 }

/-- What `renderDisasm()` (main.js 3968) and `renderTraceDisasm(traceCursor)`
(4573) do to the disassembly session.  `lines` is the constant `disasmLines` of
the one that is called (the first in live mode, the second in replay), `none`
when it returns before the search block: no emulator, or in replay no registers
or no `rip` at the cursor. -/
def renderDisasm {ρ : Type} (env : JsEnv ρ) (lines : Option (List DisasmLine))
    (s : SearchSession Nat) : SearchSession Nat :=
  match lines with
  | none => s
  | some ls => searchBlock (runDisasmSearch env ls) s

/-- What `renderStraceOutput()` (main.js 2608) does to the syscall log session.
`lines` is its constant `lines`, `none` when it returns before the search block:
no output element, syscall tracing off, no emulator, or an empty trace. -/
def renderStraceOutput {ρ : Type} (env : JsEnv ρ) (lines : Option (List JsString))
    (s : SearchSession Nat) : SearchSession Nat :=
  match lines with
  | none => s
  | some ls => searchBlock (runStraceSearch env ls) s

/-- The `input` listeners of `disasmSearchInput` (main.js 2103) and
`straceSearchInput` (2137), over the session's render function; `v` is the text
now in the box. -/
def onLineSearchInput (render : SearchSession Nat → SearchSession Nat) (v : JsString)
    (s : SearchSession Nat) : SearchSession Nat :=
  render { s with searchInput := v, searchQuery := v, searchCurrentIndex := -1 }

/-- The `keydown` listeners of `disasmSearchInput` (main.js 2109) and
`straceSearchInput` (2142) for the Enter key, over the session's render
function. -/
def onLineSearchEnter (render : SearchSession Nat → SearchSession Nat)
    (s : SearchSession Nat) : SearchSession Nat :=
  let s := render s
  if s.searchMatches.length > 0 then { s with searchCurrentIndex := 0 } else s

/-- The body shared by `goToDisasmSearchMatch(direction)` (main.js 2117) and
`goToStraceSearchMatch(direction)` (2149), over the session's render
function. -/
def goToLineSearchMatch (render : SearchSession Nat → SearchSession Nat) (direction : String)
    (s : SearchSession Nat) : SearchSession Nat :=
  let s := { s with searchQuery := s.searchInput }
  if jsTrim s.searchQuery = [] then s
  else
    let s := render s
    if s.searchMatches.length = 0 then s
    else
      render
        { s with
          searchCurrentIndex := stepIndex direction s.searchCurrentIndex s.searchMatches.length }

/-- The `input` listener of `disasmSearchInput` (main.js 2103). -/
def onDisasmSearchInput {ρ : Type} (env : JsEnv ρ) (lines : Option (List DisasmLine))
    (v : JsString) (s : SearchSession Nat) : SearchSession Nat :=
  onLineSearchInput (renderDisasm env lines) v s

/-- The Enter key in `disasmSearchInput` (main.js 2109). -/
def onDisasmSearchEnter {ρ : Type} (env : JsEnv ρ) (lines : Option (List DisasmLine))
    (s : SearchSession Nat) : SearchSession Nat :=
  onLineSearchEnter (renderDisasm env lines) s

/-- `goToDisasmSearchMatch(direction)` (main.js 2117). -/
def goToDisasmSearchMatch {ρ : Type} (env : JsEnv ρ) (lines : Option (List DisasmLine))
    (direction : String) (s : SearchSession Nat) : SearchSession Nat :=
  goToLineSearchMatch (renderDisasm env lines) direction s

/-- The `input` listener of `straceSearchInput` (main.js 2137). -/
def onStraceSearchInput {ρ : Type} (env : JsEnv ρ) (lines : Option (List JsString))
    (v : JsString) (s : SearchSession Nat) : SearchSession Nat :=
  onLineSearchInput (renderStraceOutput env lines) v s

/-- The Enter key in `straceSearchInput` (main.js 2142). -/
def onStraceSearchEnter {ρ : Type} (env : JsEnv ρ) (lines : Option (List JsString))
    (s : SearchSession Nat) : SearchSession Nat :=
  onLineSearchEnter (renderStraceOutput env lines) s

/-- `goToStraceSearchMatch(direction)` (main.js 2149). -/
def goToStraceSearchMatch {ρ : Type} (env : JsEnv ρ) (lines : Option (List JsString))
    (direction : String) (s : SearchSession Nat) : SearchSession Nat :=
  goToLineSearchMatch (renderStraceOutput env lines) direction s

/-- The spec's invariant of a search session: `currentIndex` lies in
`[-1, matches.length)`. -/
def IndexInRange {μ : Type} (s : SearchSession μ) : Prop :=
  -1 ≤ s.searchCurrentIndex ∧ s.searchCurrentIndex < s.searchMatches.length

/-- A session in which a match is selected: the text box holds a non-blank
query and `currentIndex` points at one of the matches. -/
def MatchSelected {μ : Type} (s : SearchSession μ) : Prop :=
  jsTrim s.searchInput ≠ [] ∧ 0 ≤ s.searchCurrentIndex ∧
    s.searchCurrentIndex < s.searchMatches.length

/-- The spec's cyclic navigation at a state with `n` matches, for the handlers
`next` and `prev` of a session: both keep the match list, `next` moves
`currentIndex` to `(currentIndex + 1) mod n` and `prev` to
`(currentIndex - 1 + n) mod n`, and `n` calls of either bring `currentIndex`
back to where it was. -/
def CyclicNavigation {μ : Type} (next prev : SearchSession μ → SearchSession μ)
    (s : SearchSession μ) : Prop :=
  (next s).searchMatches = s.searchMatches ∧
  (prev s).searchMatches = s.searchMatches ∧
  (next s).searchCurrentIndex = (s.searchCurrentIndex + 1) % (s.searchMatches.length : Int) ∧
  (prev s).searchCurrentIndex =
    (s.searchCurrentIndex - 1 + s.searchMatches.length) % (s.searchMatches.length : Int) ∧
  (next^[s.searchMatches.length] s).searchCurrentIndex = s.searchCurrentIndex ∧
  (prev^[s.searchMatches.length] s).searchCurrentIndex = s.searchCurrentIndex

/-! ### Concrete sessions, used to instantiate the theorems -/

/-- Three disassembly lines, two of them a `mov`. -/
def sampleDisasm : List DisasmLine :=
  [⟨str "0x1000", str "mov rax, rbx"⟩, ⟨str "0x1003", str "ret"⟩,
    ⟨str "0x1004", str "mov rcx, rax"⟩]

/-- Four lines of a syscall trace, two of them a `read`. -/
def sampleStrace : List JsString :=
  [str "open(3) = 3", str "read(3) = 10", str "read(3) = 0", str "close(3) = 0"]

/-- An engine whose memory search finds two matches for every query. -/
def sampleMemory : MemSearcher :=
  fun _ _ => some [(4096, 1), (8192, 1)]

/-- The disassembly session after `q` was typed in its search box, in `'auto'`
mode, with `sampleDisasm` shown. -/
def disasmTyped (q : String) : SearchSession Nat :=
  onDisasmSearchInput asciiEnv (some sampleDisasm) (str q)
    (SearchSession.initial Nat SearchMode.auto)

/-- The syscall log session after `q` was typed in its search box, in `'auto'`
mode, with `sampleStrace` traced. -/
def straceTyped (q : String) : SearchSession Nat :=
  onStraceSearchInput asciiEnv (some sampleStrace) (str q)
    (SearchSession.initial Nat SearchMode.auto)

/-- The memory session after `q` was typed in its search box, in `'auto'`
mode. -/
def memTyped (q : String) : SearchSession (Int × Int) :=
  onMemSearchInput true (str q) (SearchSession.initial (Int × Int) SearchMode.auto)

/-- The memory session after `q` was typed and Enter was pressed, once the
callback has run on `sampleMemory`. -/
def memSearched (q : String) : SearchSession (Int × Int) :=
  memSearchDone (some sampleMemory) true (str q) SearchMode.auto (memTyped q)

/-- The states the memory session can reach.  `memSearchMatches` and
`memSearchCurrentIndex` are assigned only in the places below: the program load
and the session reset, the `input` listener, the callback of the search-all
button and of Enter, `goToMemSearchMatch` and `refreshMemory`.  The engine, the
pending callbacks and the view may be in any state at each event. -/
inductive MemSearchReachable : SearchSession (Int × Int) → Prop where
  | init (mode : SearchMode) : MemSearchReachable (SearchSession.initial (Int × Int) mode)
  | load (s : SearchSession (Int × Int)) : MemSearchReachable s → MemSearchReachable (resetSearch s)
  | mode (s : SearchSession (Int × Int)) (m : SearchMode) :
      MemSearchReachable s → MemSearchReachable (onSearchModeChange s m)
  | typed (s : SearchSession (Int × Int)) (shown : Bool) (v : JsString) :
      MemSearchReachable s → MemSearchReachable (onMemSearchInput shown v s)
  | searchAll (s : SearchSession (Int × Int)) (shown : Bool) :
      MemSearchReachable s → MemSearchReachable (runMemSearchAll shown s).1
  | done (s : SearchSession (Int × Int)) (emu : Option MemSearcher) (shown : Bool)
      (q : JsString) (m : SearchMode) :
      MemSearchReachable s → MemSearchReachable (memSearchDone emu shown q m s)
  | goTo (s : SearchSession (Int × Int)) (emu : Option MemSearcher) (shown : Bool)
      (direction : String) :
      MemSearchReachable s → MemSearchReachable (goToMemSearchMatch emu shown direction s)
  | refresh (s : SearchSession (Int × Int)) (shown : Bool) :
      MemSearchReachable s → MemSearchReachable (refreshMemory shown s)

/-- The states the disassembly session can reach: load and reset, the `input`
and Enter listeners, `goToDisasmSearchMatch` and every re-render, each on
whatever lines the engine shows at that moment. -/
inductive DisasmSearchReachable {ρ : Type} (env : JsEnv ρ) : SearchSession Nat → Prop where
  | init (mode : SearchMode) : DisasmSearchReachable env (SearchSession.initial Nat mode)
  | load (s : SearchSession Nat) :
      DisasmSearchReachable env s → DisasmSearchReachable env (resetSearch s)
  | mode (s : SearchSession Nat) (m : SearchMode) :
      DisasmSearchReachable env s → DisasmSearchReachable env (onSearchModeChange s m)
  | typed (s : SearchSession Nat) (lines : Option (List DisasmLine)) (v : JsString) :
      DisasmSearchReachable env s → DisasmSearchReachable env (onDisasmSearchInput env lines v s)
  | enter (s : SearchSession Nat) (lines : Option (List DisasmLine)) :
      DisasmSearchReachable env s → DisasmSearchReachable env (onDisasmSearchEnter env lines s)
  | goTo (s : SearchSession Nat) (lines : Option (List DisasmLine)) (direction : String) :
      DisasmSearchReachable env s →
        DisasmSearchReachable env (goToDisasmSearchMatch env lines direction s)
  | render (s : SearchSession Nat) (lines : Option (List DisasmLine)) :
      DisasmSearchReachable env s → DisasmSearchReachable env (renderDisasm env lines s)

/-- The states the syscall log session can reach: load and reset, the `input`
and Enter listeners, `goToStraceSearchMatch` and every re-render, each on
whatever lines the engine has traced at that moment. -/
inductive StraceSearchReachable {ρ : Type} (env : JsEnv ρ) : SearchSession Nat → Prop where
  | init (mode : SearchMode) : StraceSearchReachable env (SearchSession.initial Nat mode)
  | load (s : SearchSession Nat) :
      StraceSearchReachable env s → StraceSearchReachable env (resetSearch s)
  | mode (s : SearchSession Nat) (m : SearchMode) :
      StraceSearchReachable env s → StraceSearchReachable env (onSearchModeChange s m)
  | typed (s : SearchSession Nat) (lines : Option (List JsString)) (v : JsString) :
      StraceSearchReachable env s → StraceSearchReachable env (onStraceSearchInput env lines v s)
  | enter (s : SearchSession Nat) (lines : Option (List JsString)) :
      StraceSearchReachable env s → StraceSearchReachable env (onStraceSearchEnter env lines s)
  | goTo (s : SearchSession Nat) (lines : Option (List JsString)) (direction : String) :
      StraceSearchReachable env s →
        StraceSearchReachable env (goToStraceSearchMatch env lines direction s)
  | render (s : SearchSession Nat) (lines : Option (List JsString)) :
      StraceSearchReachable env s → StraceSearchReachable env (renderStraceOutput env lines s)

/-! ## A runtime with literal regular expressions -/

/-- The letters, the digits and the space: characters that stand for themselves
in a pattern. -/
def isLiteralChar (c : Nat) : Bool :=
  (48 ≤ c ∧ c ≤ 57) ∨ (65 ≤ c ∧ c ≤ 90) ∨ (97 ≤ c ∧ c ≤ 122) ∨ c = 32

/-- The loop `while ((m = re.exec(s)) !== null)` for a literal pattern `p` with
the flag `g`: the successive occurrences of `p` from index `i` on, each search
starting where the previous match ended. -/
def execLiteral (p s : JsString) : Nat → Nat → List (Nat × Nat)
  | 0, _ => []
  | fuel + 1, i =>
    if i + p.length > s.length then []
    else if p <+: s.drop i then (i, i + p.length) :: execLiteral p s fuel (i + p.length)
    else execLiteral p s fuel (i + 1)

/-- A fragment of the JavaScript runtime, used to instantiate the theorems.
`new RegExp(pattern, flags)` succeeds for a non-empty pattern of letters, digits
and spaces with flags among `g` and `i`, each at most once, and throws
otherwise; the expression `(pattern, ignoreCase)` matches where the pattern
occurs, up to ASCII case under `i`.  `toLowerCase` is that of `asciiEnv`. -/
def literalEnv : JsEnv (JsString × Bool) where
  toLowerCase := asciiEnv.toLowerCase
  newRegExp := fun p f =>
    if p ≠ [] ∧ p.all isLiteralChar ∧ f.Nodup ∧ f.all (fun c => c = 103 ∨ c = 105) then
      some (p, f.contains 105)
    else none
  test := fun re s =>
    if re.2 then jsIncludes (asciiEnv.toLowerCase s) (asciiEnv.toLowerCase re.1)
    else jsIncludes s re.1
  execAll := fun re s =>
    if re.2 then
      execLiteral (asciiEnv.toLowerCase re.1) (asciiEnv.toLowerCase s) (s.length + 1) 0
    else execLiteral re.1 s (s.length + 1) 0

/-- The query `/pattern/flags`. -/
def regexQuery (pattern flags : JsString) : JsString :=
  47 :: pattern ++ 47 :: flags

/-! ## Program load, session reset and the trace buttons -/

/-- What `createEmulator(bytes, opts)` (main.js 958) does to the modelled
variables.  `created` is the engine after the constructor and the calls of
`set_syscall_trace` / `set_trace_recording`, `none` when the constructor throws:
the `catch` then leaves the variables as they were. -/
def createEmulator {ε : Type} (E : Engine ε) (s : UI ε) (created : Option ε) : UI ε :=
  match created with
  | none => s
  | some emu =>
    updateFullUI E
      { s with
        emulator := some emu
        isRunning := false
        lastStoppedAtBreakpoint := false
        traceMode := false
        traceCursor := 0
        focusedGprIndex := none
        traceMemAccesses := none
        daddr := none
        tlZoomStart := 0
        tlZoomEnd := 0
        tlIaddrBreakpoint := none }

/-- What `resetSession()` (main.js 1601) does to the modelled variables. -/
def resetSession {ε : Type} (s : UI ε) : UI ε :=
  { s with
    isRunning := false
    animFrame := none
    emulator := none
    lastStoppedAtBreakpoint := false
    traceMode := false
    traceCursor := 0
    focusedGprIndex := none
    traceMemAccesses := none
    daddr := none
    tlZoomStart := 0
    tlZoomEnd := 0
    tlIaddrBreakpoint := none
    tlDragging := false
    tlDragStartX := 0
    tlDragEndX := 0 }

/-- The `click` listener of `btnTraceStart` (main.js 2205). -/
def onTraceStart {ε : Type} (E : Engine ε) (s : UI ε) : UI ε :=
  seekTrace E s 0

/-- The `click` listener of `btnTraceBack` (main.js 2206). -/
def onTraceBack {ε : Type} (E : Engine ε) (s : UI ε) : UI ε :=
  seekTrace E s (s.traceCursor - 1)

/-- The `click` listener of `btnTraceBack10` (main.js 2207). -/
def onTraceBack10 {ε : Type} (E : Engine ε) (s : UI ε) : UI ε :=
  seekTrace E s (s.traceCursor - 10)

/-- The `click` listener of `btnTraceFwd` (main.js 2208). -/
def onTraceFwd {ε : Type} (E : Engine ε) (s : UI ε) : UI ε :=
  seekTrace E s (s.traceCursor + 1)

/-- The `click` listener of `btnTraceFwd10` (main.js 2209). -/
def onTraceFwd10 {ε : Type} (E : Engine ε) (s : UI ε) : UI ε :=
  seekTrace E s (s.traceCursor + 10)

/-- The `click` listener of `btnTraceEnd` (main.js 2210). -/
def onTraceEnd {ε : Type} (E : Engine ε) (s : UI ε) : UI ε :=
  match s.emulator with
  | none => s
  | some emu => seekTrace E s ((E.get_trace_length emu : Int) - 1)

/-- The states the program can reach, as far as the trace cursor is concerned.
`traceMode` and `traceCursor` are assigned in five places of `main.js`: their
declarations (54-55), `createEmulator` (1015-1016), `resetSession` (1620-1621),
`seekTrace` (4504, 4510) and `exitTraceMode` (4561-4562).  Every handler is a
sequence of calls of these and of steps that assign neither variable; such a
step, the engine included, may change the rest of the state in any way. -/
inductive TraceReachable {ε : Type} (E : Engine ε) : UI ε → Prop where
  | init : TraceReachable E (UI.initial ε)
  | load (s : UI ε) (created : Option ε) :
      TraceReachable E s → TraceReachable E (createEmulator E s created)
  | reset (s : UI ε) : TraceReachable E s → TraceReachable E (resetSession s)
  | seek (s : UI ε) (idx : Int) : TraceReachable E s → TraceReachable E (seekTrace E s idx)
  | exit (s : UI ε) : TraceReachable E s → TraceReachable E (exitTraceMode E s)
  | other (s t : UI ε) : TraceReachable E s → t.traceMode = s.traceMode →
      t.traceCursor = s.traceCursor → TraceReachable E t

/-! ## Frame lemmas -/

theorem seekTrace_advanceLog {ε : Type} (E : Engine ε) (s : UI ε) (k : Int) :
    (seekTrace E s k).advanceLog = s.advanceLog := by
  unfold seekTrace
  cases s.emulator with
  | none => rfl
  | some emu => by_cases h : ((E.get_trace_length emu : Nat) : Int) = 0 <;> simp [h]

theorem updateFullUI_advanceLog {ε : Type} (E : Engine ε) (s : UI ε) :
    (updateFullUI E s).advanceLog = s.advanceLog := by
  unfold updateFullUI
  cases s.emulator with
  | none => rfl
  | some emu =>
    simp only
    split_ifs <;> simp [seekTrace_advanceLog]

theorem updateFullUI_live {ε : Type} (E : Engine ε) (s : UI ε) (h : s.traceMode = false) :
    (updateFullUI E s).traceMode = false ∧ (updateFullUI E s).traceCursor = s.traceCursor ∧
      (updateFullUI E s).emulator = s.emulator := by
  unfold updateFullUI
  cases hemu : s.emulator with
  | none => simp [h, hemu]
  | some emu =>
    simp only [h]
    split_ifs <;> simp_all

theorem exitTraceMode_traceMode {ε : Type} (E : Engine ε) (s : UI ε) :
    (exitTraceMode E s).traceMode = false :=
  (updateFullUI_live E _ rfl).1

theorem exitTraceMode_traceCursor {ε : Type} (E : Engine ε) (s : UI ε) :
    (exitTraceMode E s).traceCursor = 0 :=
  (updateFullUI_live E _ rfl).2.1

theorem exitTraceMode_emulator {ε : Type} (E : Engine ε) (s : UI ε) :
    (exitTraceMode E s).emulator = s.emulator :=
  (updateFullUI_live E _ rfl).2.2

theorem exitTraceMode_advanceLog {ε : Type} (E : Engine ε) (s : UI ε) :
    (exitTraceMode E s).advanceLog = s.advanceLog := by
  unfold exitTraceMode
  rw [updateFullUI_advanceLog]

/-! ## Trace cursor -/

/-- The cursor `seekTrace` leaves on a non-empty trace. -/
theorem seekTrace_traceCursor {ε : Type} (E : Engine ε) (s : UI ε) (emu : ε) (k : Int)
    (hemu : s.emulator = some emu) (hlen : 1 ≤ E.get_trace_length emu) :
    (seekTrace E s k).traceCursor = max 0 (min k ((E.get_trace_length emu : Int) - 1)) := by
  have h0 : ((E.get_trace_length emu : Nat) : Int) ≠ 0 := by omega
  simp [seekTrace, hemu, h0]

/-- C1: for every trace length `len ≥ 1` and every requested index `k`,
`seekTrace(k)` leaves `traceCursor = max(0, min(k, len - 1))`. -/
theorem seekTrace_cursor_clamped {ε : Type} (E : Engine ε) (s : UI ε) (emu : ε) (k : Int)
    (hemu : s.emulator = some emu) (hlen : 1 ≤ E.get_trace_length emu) :
    (seekTrace E s k).traceCursor = max 0 (min k ((E.get_trace_length emu : Int) - 1)) :=
  seekTrace_traceCursor E s emu k hemu hlen

/-- Instance of C1 on a trace of length 1000: `seekTrace(5000)` gives 999 and
`seekTrace(-5)` gives 0. -/
theorem seekTrace_cursor_clamped_witness :
    (seekTrace counterEngine (liveSession 1000) 5000).traceCursor = 999 ∧
    (seekTrace counterEngine (liveSession 1000) (-5)).traceCursor = 0 :=
  ⟨(seekTrace_cursor_clamped counterEngine (liveSession 1000) 1000 5000 rfl (by decide)).trans
      (by decide),
   (seekTrace_cursor_clamped counterEngine (liveSession 1000) 1000 (-5) rfl (by decide)).trans
      (by decide)⟩

/-- C2: with an emulator loaded, `seekTrace(k)` enters replay exactly when the
trace is non-empty: if the trace length is at least 1 the call ends, from live
and from replay alike, with `traceMode = true` and `0 ≤ traceCursor < length`;
if the trace length is 0 the call changes nothing at all. -/
theorem seekTrace_replay_iff_nonempty {ε : Type} (E : Engine ε) (s : UI ε) (emu : ε) (k : Int)
    (hemu : s.emulator = some emu) :
    (1 ≤ E.get_trace_length emu →
      (seekTrace E s k).traceMode = true ∧ 0 ≤ (seekTrace E s k).traceCursor ∧
        (seekTrace E s k).traceCursor < E.get_trace_length emu) ∧
    (E.get_trace_length emu = 0 → seekTrace E s k = s) := by
  constructor
  · intro hlen
    have h0 : ((E.get_trace_length emu : Nat) : Int) ≠ 0 := by omega
    have hc := seekTrace_traceCursor E s emu k hemu hlen
    refine ⟨?_, ?_, ?_⟩
    · simp [seekTrace, hemu, h0]
    · rw [hc]; exact le_max_left _ _
    · rw [hc]
      have h1 : (1 : Int) ≤ (E.get_trace_length emu : Nat) := by omega
      omega
  · intro hlen
    simp [seekTrace, hemu, hlen]

/-- Instance of C2: on a trace of 1000 entries a seek from live mode enters
replay at a valid index, and on an empty trace the seek is refused. -/
theorem seekTrace_replay_iff_nonempty_witness :
    ((seekTrace counterEngine (liveSession 1000) 5000).traceMode = true ∧
      0 ≤ (seekTrace counterEngine (liveSession 1000) 5000).traceCursor ∧
      (seekTrace counterEngine (liveSession 1000) 5000).traceCursor < 1000) ∧
    seekTrace counterEngine (liveSession 0) 7 = liveSession 0 :=
  ⟨(seekTrace_replay_iff_nonempty counterEngine (liveSession 1000) 1000 5000 rfl).1 (by decide),
   (seekTrace_replay_iff_nonempty counterEngine (liveSession 0) 0 7 rfl).2 rfl⟩

/-- C3: `exitTraceMode()` always ends in live mode (`traceMode = false`) with no
index pinned: the spec-level `localIndex` is undefined and the variable
`traceCursor` is back at its initial value 0, whatever the state it is called
in. -/
theorem exitTraceMode_live {ε : Type} (E : Engine ε) (s : UI ε) :
    (exitTraceMode E s).traceMode = false ∧ (exitTraceMode E s).localIndex = none ∧
      (exitTraceMode E s).traceCursor = 0 := by
  refine ⟨exitTraceMode_traceMode E s, ?_, exitTraceMode_traceCursor E s⟩
  simp [UI.localIndex, exitTraceMode_traceMode]

/-! ## Step and run actions -/

theorem AdvancedLive.rfl_of_live {ε : Type} {s : UI ε} (h : s.traceMode = false) :
    AdvancedLive s s :=
  ⟨h, [], by simp, by simp⟩

theorem AdvancedLive.trans {ε : Type} {s t u : UI ε} (h₁ : AdvancedLive s t)
    (h₂ : AdvancedLive t u) : AdvancedLive s u := by
  obtain ⟨-, l₁, e₁, f₁⟩ := h₁
  obtain ⟨m, l₂, e₂, f₂⟩ := h₂
  refine ⟨m, l₁ ++ l₂, by rw [e₂, e₁, List.append_assoc], ?_⟩
  intro b hb
  rcases List.mem_append.1 hb with hb | hb
  · exact f₁ b hb
  · exact f₂ b hb

/-- A state that differs from a live `s` in neither the mode nor the log. -/
theorem AdvancedLive.of_same {ε : Type} {s t : UI ε} (hs : s.traceMode = false)
    (hm : t.traceMode = s.traceMode) (hl : t.advanceLog = s.advanceLog) : AdvancedLive s t :=
  ⟨hm.trans hs, [], by simp [hl], by simp⟩

theorem AdvancedLive.updateFullUI {ε : Type} (E : Engine ε) {s t : UI ε}
    (h : AdvancedLive s t) : AdvancedLive s (updateFullUI E t) :=
  h.trans (AdvancedLive.of_same h.1 ((updateFullUI_live E t h.1).1.trans h.1.symm)
    (updateFullUI_advanceLog E t))

/-- An advancing call made in live mode extends the log by one `false`. -/
theorem AdvancedLive.advanced {ε : Type} {s : UI ε} (hs : s.traceMode = false) (emu : ε) :
    AdvancedLive s (s.advanced emu) :=
  ⟨hs, [false], by simp [UI.advanced, hs], by simp⟩

/-- The first statement of every action: `if (traceMode) exitTraceMode()`. -/
theorem forceLive_spec {ε : Type} (E : Engine ε) (s : UI ε) :
    (if s.traceMode then exitTraceMode E s else s).traceMode = false ∧
    (if s.traceMode then exitTraceMode E s else s).advanceLog = s.advanceLog ∧
    (if s.traceMode then exitTraceMode E s else s).emulator = s.emulator := by
  cases h : s.traceMode <;>
    simp [h, exitTraceMode_traceMode, exitTraceMode_advanceLog, exitTraceMode_emulator]

/-- A run that starts from a state `t` with the log of `s`, whatever the mode
of `s` is. -/
theorem AdvancedLive.of_forced {ε : Type} {s t u : UI ε}
    (hl : t.advanceLog = s.advanceLog) (h : AdvancedLive t u) : AdvancedLive s u := by
  obtain ⟨m, l, e, f⟩ := h
  exact ⟨m, l, by rw [e, hl], f⟩

theorem runChunkStepN_live {ε : Type} (E : Engine ε) (s : UI ε) (r : Int)
    (hs : s.traceMode = false) : AdvancedLive s (runChunkStepN E s r) := by
  unfold runChunkStepN
  cases hemu : s.emulator with
  | none => exact AdvancedLive.of_same hs rfl rfl
  | some emu =>
    simp only
    split
    · apply AdvancedLive.updateFullUI
      exact AdvancedLive.of_same hs rfl rfl
    · rcases hr : E.run_n emu (min r CHUNK) with ⟨emu', _ | info⟩
      · exact (AdvancedLive.advanced hs emu').trans
          (AdvancedLive.of_same (AdvancedLive.advanced hs emu').1 rfl rfl)
      · have ha := AdvancedLive.advanced hs emu'
        simp only
        split_ifs <;>
          first
          | exact ha.trans (AdvancedLive.of_same ha.1 rfl rfl)
          | (apply AdvancedLive.updateFullUI
             exact ha.trans (AdvancedLive.of_same ha.1 rfl rfl))

theorem runChunkContinue_live {ε : Type} (E : Engine ε) (s : UI ε)
    (hs : s.traceMode = false) : AdvancedLive s (runChunkContinue E s) := by
  unfold runChunkContinue
  cases hemu : s.emulator with
  | none => exact AdvancedLive.of_same hs rfl rfl
  | some emu =>
    simp only
    split
    · apply AdvancedLive.updateFullUI
      exact AdvancedLive.of_same hs rfl rfl
    · rcases hr : E.run_n emu 2000 with ⟨emu', _ | info⟩
      · have ha := AdvancedLive.advanced hs emu'
        apply AdvancedLive.updateFullUI
        exact ha.trans (AdvancedLive.of_same ha.1 rfl rfl)
      · have ha := AdvancedLive.advanced hs emu'
        simp only
        split_ifs <;>
          first
          | exact ha.trans (AdvancedLive.of_same ha.1 rfl rfl)
          | (apply AdvancedLive.updateFullUI
             exact ha.trans (AdvancedLive.of_same ha.1 rfl rfl))

theorem runChunkRun_live {ε : Type} (E : Engine ε) (s : UI ε)
    (hs : s.traceMode = false) : AdvancedLive s (runChunkRun E s) := by
  unfold runChunkRun
  cases hemu : s.emulator with
  | none => exact AdvancedLive.of_same hs rfl rfl
  | some emu =>
    simp only
    split
    · apply AdvancedLive.updateFullUI
      exact AdvancedLive.of_same hs rfl rfl
    · rcases hr : E.run_n emu 2000 with ⟨emu', _ | info⟩
      · have ha := AdvancedLive.advanced hs emu'
        exact ha.trans (AdvancedLive.of_same ha.1 rfl rfl)
      · have ha := AdvancedLive.advanced hs emu'
        simp only
        split_ifs <;>
          first
          | exact ha.trans (AdvancedLive.of_same ha.1 rfl rfl)
          | (apply AdvancedLive.updateFullUI
             exact ha.trans (AdvancedLive.of_same ha.1 rfl rfl))

/-- The body shared by `doStep`, `doStepOver` and the small-count path of
`doStepN`, run from a live state with the advancing call `call`. -/
theorem stepBody_live {ε : Type} (E : Engine ε) (t : UI ε) (call : ε → ε × Option StepStatus)
    (ht : t.traceMode = false) :
    AdvancedLive t
      (match t.emulator with
      | none => t
      | some emu =>
        match call emu with
        | (emu, none) => t.advanced emu
        | (emu, some info) =>
          updateFullUI E
            (if info ≠ StepStatus.breakpoint then
              { t.advanced emu with lastStoppedAtBreakpoint := false }
            else t.advanced emu)) := by
  cases hemu : t.emulator with
  | none => exact AdvancedLive.rfl_of_live ht
  | some emu =>
    simp only
    rcases hr : call emu with ⟨emu', _ | info⟩
    · exact AdvancedLive.advanced ht emu'
    · have ha := AdvancedLive.advanced ht emu'
      simp only
      apply AdvancedLive.updateFullUI
      split_ifs
      · exact ha.trans (AdvancedLive.of_same ha.1 rfl rfl)
      · exact ha

theorem doStep_live {ε : Type} (E : Engine ε) (s : UI ε) : AdvancedLive s (doStep E s) := by
  obtain ⟨h1, h2, -⟩ := forceLive_spec E s
  unfold doStep
  simp only
  generalize (if s.traceMode = true then exitTraceMode E s else s) = t at h1 h2 ⊢
  exact AdvancedLive.of_forced h2 (stepBody_live E t E.step h1)

theorem doStepOver_live {ε : Type} (E : Engine ε) (s : UI ε) :
    AdvancedLive s (doStepOver E s) := by
  obtain ⟨h1, h2, -⟩ := forceLive_spec E s
  unfold doStepOver
  simp only
  generalize (if s.traceMode = true then exitTraceMode E s else s) = t at h1 h2 ⊢
  exact AdvancedLive.of_forced h2 (stepBody_live E t E.step_over h1)

theorem doStepN_live {ε : Type} (E : Engine ε) (s : UI ε) (n : Int) :
    AdvancedLive s (doStepN E s n) := by
  obtain ⟨h1, h2, -⟩ := forceLive_spec E s
  unfold doStepN
  simp only
  generalize (if s.traceMode = true then exitTraceMode E s else s) = t at h1 h2 ⊢
  split_ifs with hn
  · exact AdvancedLive.of_forced h2 (stepBody_live E t (fun emu => E.run_n emu n) h1)
  · have h0 : AdvancedLive t { t with isRunning := true, animFrame := none } :=
      AdvancedLive.of_same h1 rfl rfl
    exact AdvancedLive.of_forced h2 (h0.trans (runChunkStepN_live E _ n h1))

theorem doContinue_live {ε : Type} (E : Engine ε) (s : UI ε) :
    AdvancedLive s (doContinue E s) := by
  obtain ⟨h1, h2, -⟩ := forceLive_spec E s
  unfold doContinue
  simp only
  generalize (if s.traceMode = true then exitTraceMode E s else s) = t at h1 h2 ⊢
  have h0 : AdvancedLive t
      { t with isRunning := true, lastStoppedAtBreakpoint := false, animFrame := none } :=
    AdvancedLive.of_same h1 rfl rfl
  exact AdvancedLive.of_forced h2 (h0.trans (runChunkContinue_live E _ h1))

theorem doRun_live {ε : Type} (E : Engine ε) (s : UI ε) : AdvancedLive s (doRun E s) := by
  obtain ⟨h1, h2, -⟩ := forceLive_spec E s
  unfold doRun
  simp only
  generalize (if s.traceMode = true then exitTraceMode E s else s) = t at h1 h2 ⊢
  have h0 : AdvancedLive t
      { t with isRunning := true, lastStoppedAtBreakpoint := false, animFrame := none } :=
    AdvancedLive.of_same h1 rfl rfl
  exact AdvancedLive.of_forced h2 (h0.trans (runChunkRun_live E _ h1))

theorem animationFrame_live {ε : Type} (E : Engine ε) (s : UI ε) (hs : s.traceMode = false) :
    AdvancedLive s (animationFrame E s) := by
  unfold animationFrame
  cases hp : s.animFrame with
  | none => exact AdvancedLive.rfl_of_live hs
  | some p =>
    have h0 : AdvancedLive s { s with animFrame := none } := AdvancedLive.of_same hs rfl rfl
    cases p with
    | stepN r => exact h0.trans (runChunkStepN_live E _ r hs)
    | cont => exact h0.trans (runChunkContinue_live E _ hs)
    | run => exact h0.trans (runChunkRun_live E _ hs)

theorem frames_live {ε : Type} (E : Engine ε) (k : Nat) (s t : UI ε) (h : AdvancedLive s t) :
    AdvancedLive s (frames E k t) := by
  induction k generalizing t with
  | zero => exact h
  | succ k ih => exact ih _ (h.trans (animationFrame_live E t h.1))

/-- The log after the body shared by `doStep`, `doStepOver` and the small-count
path of `doStepN`: exactly one advancing call when an emulator is loaded. -/
theorem stepBody_log {ε : Type} (E : Engine ε) (t : UI ε) (call : ε → ε × Option StepStatus) :
    (match t.emulator with
      | none => t
      | some emu =>
        match call emu with
        | (emu, none) => t.advanced emu
        | (emu, some info) =>
          updateFullUI E
            (if info ≠ StepStatus.breakpoint then
              { t.advanced emu with lastStoppedAtBreakpoint := false }
            else t.advanced emu)).advanceLog =
      t.advanceLog ++ (if t.emulator.isSome then [t.traceMode] else []) := by
  cases hemu : t.emulator with
  | none => simp
  | some emu =>
    simp only
    rcases hr : call emu with ⟨emu', _ | info⟩
    · simp [UI.advanced]
    · simp only
      rw [updateFullUI_advanceLog]
      by_cases hb : info = StepStatus.breakpoint <;> simp [hb, UI.advanced]

theorem doStep_log {ε : Type} (E : Engine ε) (s : UI ε) :
    (doStep E s).advanceLog = s.advanceLog ++ (if s.emulator.isSome then [false] else []) := by
  obtain ⟨h1, h2, h3⟩ := forceLive_spec E s
  unfold doStep
  simp only
  generalize (if s.traceMode = true then exitTraceMode E s else s) = t at h1 h2 h3 ⊢
  rw [stepBody_log E t E.step, h1, h2, h3]

theorem doStepOver_log {ε : Type} (E : Engine ε) (s : UI ε) :
    (doStepOver E s).advanceLog =
      s.advanceLog ++ (if s.emulator.isSome then [false] else []) := by
  obtain ⟨h1, h2, h3⟩ := forceLive_spec E s
  unfold doStepOver
  simp only
  generalize (if s.traceMode = true then exitTraceMode E s else s) = t at h1 h2 h3 ⊢
  rw [stepBody_log E t E.step_over, h1, h2, h3]

theorem doStepN_log {ε : Type} (E : Engine ε) (s : UI ε) (n : Int) (hn : n ≤ CHUNK) :
    (doStepN E s n).advanceLog =
      s.advanceLog ++ (if s.emulator.isSome then [false] else []) := by
  obtain ⟨h1, h2, h3⟩ := forceLive_spec E s
  unfold doStepN
  simp only [hn, if_true]
  generalize (if s.traceMode = true then exitTraceMode E s else s) = t at h1 h2 h3 ⊢
  rw [stepBody_log E t (fun emu => E.run_n emu n), h1, h2, h3]

theorem doContinue_log {ε : Type} (E : Engine ε) (s : UI ε) (emu : ε)
    (hemu : s.emulator = some emu) :
    (doContinue E s).advanceLog =
      s.advanceLog ++ (if E.is_exited emu then [] else [false]) := by
  obtain ⟨h1, h2, h3⟩ := forceLive_spec E s
  unfold doContinue
  simp only
  generalize (if s.traceMode = true then exitTraceMode E s else s) = t at h1 h2 h3 ⊢
  rw [hemu] at h3
  unfold runChunkContinue
  simp only [h3]
  by_cases hx : E.is_exited emu = true
  · simp [hx, updateFullUI_advanceLog, h2]
  · rw [if_neg (by simp [hx])]
    rcases hr : E.run_n emu 2000 with ⟨emu', _ | info⟩
    · simp [updateFullUI_advanceLog, UI.advanced, h1, h2, hx]
    · simp only
      split_ifs <;> simp [updateFullUI_advanceLog, UI.advanced, h1, h2, hx]

theorem doRun_log {ε : Type} (E : Engine ε) (s : UI ε) (emu : ε)
    (hemu : s.emulator = some emu) :
    (doRun E s).advanceLog =
      s.advanceLog ++ (if E.is_exited emu then [] else [false]) := by
  obtain ⟨h1, h2, h3⟩ := forceLive_spec E s
  unfold doRun
  simp only
  generalize (if s.traceMode = true then exitTraceMode E s else s) = t at h1 h2 h3 ⊢
  rw [hemu] at h3
  unfold runChunkRun
  simp only [h3]
  by_cases hx : E.is_exited emu = true
  · simp [hx, updateFullUI_advanceLog, h2]
  · rw [if_neg (by simp [hx])]
    rcases hr : E.run_n emu 2000 with ⟨emu', _ | info⟩
    · simp [UI.advanced, h1, h2, hx]
    · simp only
      split_ifs <;> simp [updateFullUI_advanceLog, UI.advanced, h1, h2, hx]

theorem run_log_of_no_emulator {ε : Type} (E : Engine ε) (s : UI ε) (hemu : s.emulator = none) :
    (doContinue E s).advanceLog = s.advanceLog ∧ (doRun E s).advanceLog = s.advanceLog := by
  obtain ⟨-, h2, h3⟩ := forceLive_spec E s
  unfold doContinue doRun
  simp only
  generalize (if s.traceMode = true then exitTraceMode E s else s) = t at h2 h3 ⊢
  rw [hemu] at h3
  unfold runChunkContinue runChunkRun
  simp [h3, h2]

/-- C4: each of `doStep`, `doStepOver`, `doStepN`, `doContinue` and `doRun`,
issued in any state (replay included), forces the cursor back to live before it
calls the engine: over the action and any number `k` of animation frames that
continue it, every call of `step`, `step_over` or `run_n` is made with
`traceMode = false`, and the state ends live.  The calls are really made: a
single step makes exactly one when an emulator is loaded, and the first chunk of
a run makes one unless the process has exited. -/
theorem actions_force_live {ε : Type} (E : Engine ε) (s : UI ε) (n : Int) (k : Nat) :
    AdvancedLive s (frames E k (doStep E s)) ∧
    AdvancedLive s (frames E k (doStepOver E s)) ∧
    AdvancedLive s (frames E k (doStepN E s n)) ∧
    AdvancedLive s (frames E k (doContinue E s)) ∧
    AdvancedLive s (frames E k (doRun E s)) ∧
    (doStep E s).advanceLog = s.advanceLog ++ (if s.emulator.isSome then [false] else []) ∧
    (doStepOver E s).advanceLog = s.advanceLog ++ (if s.emulator.isSome then [false] else []) ∧
    (doContinue E s).advanceLog = s.advanceLog ++ firstChunkCalls E s ∧
    (doRun E s).advanceLog = s.advanceLog ++ firstChunkCalls E s := by
  refine ⟨frames_live E k s _ (doStep_live E s), frames_live E k s _ (doStepOver_live E s),
    frames_live E k s _ (doStepN_live E s n), frames_live E k s _ (doContinue_live E s),
    frames_live E k s _ (doRun_live E s), doStep_log E s, doStepOver_log E s, ?_, ?_⟩
  · cases hemu : s.emulator with
    | none => simp [firstChunkCalls, hemu, (run_log_of_no_emulator E s hemu).1]
    | some emu => simp [firstChunkCalls, hemu, doContinue_log E s emu hemu]
  · cases hemu : s.emulator with
    | none => simp [firstChunkCalls, hemu, (run_log_of_no_emulator E s hemu).2]
    | some emu => simp [firstChunkCalls, hemu, doRun_log E s emu hemu]

/-! ## Point searches that find nothing -/

/-- C5: when the engine's point search returns not-found (a negative index), no
seek is issued and nothing changes: the `keydown` listener on `[` and on `]`
(the Ctrl+[ / Ctrl+] register seek), `navigateIaddr` and `navigateDaddr` all
return the state they were given, so `traceMode`, `traceCursor` and the engine
state stay exactly as they were. -/
theorem not_found_is_noop {ε : Type} (E : Engine ε) (s : UI ε) (emu : ε)
    (hemu : s.emulator = some emu) :
    (∀ e : KeyEvent, e.key = "[" →
      (∀ gpr, s.focusedGprIndex = some gpr → E.prev_trace_by_register emu gpr s.traceCursor < 0) →
      onKeydown E s e = s) ∧
    (∀ e : KeyEvent, e.key = "]" →
      (∀ gpr, s.focusedGprIndex = some gpr → E.next_trace_by_register emu gpr s.traceCursor < 0) →
      onKeydown E s e = s) ∧
    (∀ direction : Int,
      (∀ rip, E.get_trace_rip emu s.traceCursor = some rip →
        (0 < direction → E.next_trace_by_rip emu rip (s.traceCursor + 1) < 0) ∧
        (direction ≤ 0 → E.prev_trace_by_rip emu rip (max 0 (s.traceCursor - 1)) < 0)) →
      navigateIaddr E s direction = s) ∧
    (∀ direction : Int,
      (∀ addr size, s.daddr = some (addr, size) →
        (0 < direction → E.next_trace_by_addr emu addr size (s.traceCursor + 1) < 0) ∧
        (direction ≤ 0 → E.prev_trace_by_addr emu addr size (max 0 (s.traceCursor - 1)) < 0)) →
      navigateDaddr E s direction = s) := by
  refine ⟨?_, ?_, ?_, ?_⟩
  · intro e hk hnf
    unfold onKeydown
    simp only [hemu, hk]
    cases hg : s.focusedGprIndex with
    | none => simp
    | some gpr =>
      have := hnf gpr hg
      simp [not_le.2 this]
  · intro e hk hnf
    unfold onKeydown
    simp only [hemu, hk]
    cases hg : s.focusedGprIndex with
    | none => simp
    | some gpr =>
      have := hnf gpr hg
      simp [not_le.2 this]
  · intro direction hnf
    unfold navigateIaddr
    simp only [hemu]
    by_cases hm : s.traceMode = false
    · simp only [hm, ↓reduceIte]
    · simp only [hm, ↓reduceIte]
      cases hr : E.get_trace_rip emu s.traceCursor with
      | none => rfl
      | some rip =>
        obtain ⟨hn, hp⟩ := hnf rip hr
        simp only
        by_cases hd : direction > 0
        · have := hn hd
          simp [hd, not_le.2 this]
        · have := hp (not_lt.1 hd)
          simp [hd, not_le.2 this]
  · intro direction hnf
    unfold navigateDaddr
    cases hda : s.daddr with
    | none => simp [hemu]
    | some d =>
      obtain ⟨addr, size⟩ := d
      obtain ⟨hn, hp⟩ := hnf addr size hda
      simp only [hemu]
      by_cases hm : s.traceMode = false
      · simp only [hm, ↓reduceIte]
      · simp only [hm, ↓reduceIte]
        by_cases hd : direction > 0
        · have := hn hd
          simp [hd, not_le.2 this]
        · have := hp (not_lt.1 hd)
          simp [hd, not_le.2 this]

/-- Instance of C5 on a replay session whose engine finds nothing: the four
navigation commands leave the session as it is. -/
theorem not_found_is_noop_witness :
    onKeydown counterEngine (replaySession 1000 500) ⟨"[", false, true, false, false⟩ =
      replaySession 1000 500 ∧
    onKeydown counterEngine (replaySession 1000 500) ⟨"]", false, true, false, false⟩ =
      replaySession 1000 500 ∧
    navigateIaddr counterEngine (replaySession 1000 500) 1 = replaySession 1000 500 ∧
    navigateDaddr counterEngine (replaySession 1000 500) (-1) = replaySession 1000 500 :=
  ⟨(not_found_is_noop counterEngine (replaySession 1000 500) 1000 rfl).1 _ rfl
      (fun _ _ => (by decide : (-1 : Int) < 0)),
   (not_found_is_noop counterEngine (replaySession 1000 500) 1000 rfl).2.1 _ rfl
      (fun _ _ => (by decide : (-1 : Int) < 0)),
   (not_found_is_noop counterEngine (replaySession 1000 500) 1000 rfl).2.2.1 1
      (fun _ _ => ⟨fun _ => (by decide : (-1 : Int) < 0), fun _ => (by decide : (-1 : Int) < 0)⟩),
   (not_found_is_noop counterEngine (replaySession 1000 500) 1000 rfl).2.2.2 (-1)
      (fun _ _ _ => ⟨fun _ => (by decide : (-1 : Int) < 0), fun _ => (by decide : (-1 : Int) < 0)⟩)⟩

/-! ## Double arithmetic: rounding -/

/-- Rounding to the nearest integer gives the floor, or the floor plus one when
the fractional part is at least one half. -/
theorem roundEven_cases (y : ℚ) : roundEven y = ⌊y⌋ ∨ (roundEven y = ⌊y⌋ + 1 ∧ 1 / 2 ≤ y - ⌊y⌋) := by
  unfold roundEven
  split_ifs with h1 h2 h3
  · exact Or.inl rfl
  · exact Or.inr ⟨rfl, le_of_lt h2⟩
  · exact Or.inl rfl
  · exact Or.inr ⟨rfl, not_lt.mp h1⟩

/-- Rounding does not cross an integer above. -/
theorem roundEven_le (y : ℚ) (m : Int) (h : y ≤ m) : roundEven y ≤ m := by
  have hf : ⌊y⌋ ≤ m := Int.floor_le_floor h |>.trans (by simp)
  rcases roundEven_cases y with e | ⟨e, hh⟩
  · omega
  · have hne : ⌊y⌋ ≠ m := by
      intro hc
      have : (y : ℚ) ≤ ⌊y⌋ := by rw [hc]; exact h
      linarith
    omega

/-- Rounding does not cross an integer below. -/
theorem le_roundEven (y : ℚ) (m : Int) (h : (m : ℚ) ≤ y) : m ≤ roundEven y := by
  have hf : m ≤ ⌊y⌋ := Int.le_floor.mpr h
  rcases roundEven_cases y with e | ⟨e, _⟩ <;> omega

/-- An integer is rounded to itself. -/
theorem roundEven_intCast (m : Int) : roundEven (m : ℚ) = m :=
  le_antisymm (roundEven_le _ _ le_rfl) (le_roundEven _ _ le_rfl)

/-- Rounding moves a number by at most one half. -/
theorem roundEven_near (y : ℚ) : |(roundEven y : ℚ) - y| ≤ 1 / 2 := by
  have h1 := Int.floor_le y
  have h2 := Int.lt_floor_add_one y
  unfold roundEven
  split_ifs with a b c
  · rw [abs_le]; constructor <;> linarith
  · rw [abs_le]; push_cast; constructor <;> linarith
  · rw [abs_le]; constructor <;> linarith
  · rw [abs_le]; push_cast; constructor <;> linarith

/-- The integer less than one half away is the one rounded to. -/
theorem roundEven_eq_of_near (y : ℚ) (m : Int) (h : |y - m| < 1 / 2) : roundEven y = m := by
  rw [abs_lt] at h
  have hn := roundEven_near y
  rw [abs_le] at hn
  have h1 : ((roundEven y : Int) : ℚ) < (m : ℚ) + 1 := by linarith
  have h2 : (m : ℚ) - 1 < (roundEven y : ℚ) := by linarith
  have h3 : roundEven y < m + 1 := by exact_mod_cast h1
  have h4 : m - 1 < roundEven y := by exact_mod_cast h2
  omega

/-- The spacing of the doubles is at most 1 in the model. -/
theorem quantumExp_nonpos (x : ℚ) : quantumExp x ≤ 0 := by
  unfold quantumExp; omega

/-- The spacing of the doubles is at least `2 ^ (-1074)`. -/
theorem quantumExp_ge (x : ℚ) : -1074 ≤ quantumExp x := by
  unfold quantumExp; omega

/-- A spacing `2 ^ p` with `p ≤ 0` is one over a whole number. -/
theorem two_zpow_nonpos (p : Int) (hp : p ≤ 0) :
    (2 : ℚ) ^ p = 1 / (((2 ^ (-p).toNat : Nat) : Int) : ℚ) := by
  have e : p = -(((-p).toNat : Nat) : Int) := by omega
  conv_lhs => rw [e]
  rw [zpow_neg, zpow_natCast]
  push_cast
  ring

/-- Rounding to a double does not cross an integer above: every integer is a
double in the model. -/
theorem toDouble_le_intCast (x : ℚ) (n : Int) (h : x ≤ n) : toDouble x ≤ n := by
  unfold toDouble
  rw [two_zpow_nonpos _ (quantumExp_nonpos x)]
  set N : Int := ((2 ^ (-quantumExp x).toNat : Nat) : Int) with hN
  have hpos : (0 : ℚ) < (N : ℚ) := by
    have : (0 : Int) < N := by rw [hN]; positivity
    exact_mod_cast this
  have h1 : x / (1 / (N : ℚ)) ≤ ((n * N : Int) : ℚ) := by
    rw [div_div_eq_mul_div, div_one]; push_cast
    exact mul_le_mul_of_nonneg_right h hpos.le
  have h2 := roundEven_le _ _ h1
  have h3 : ((roundEven (x / (1 / (N : ℚ))) : Int) : ℚ) ≤ ((n * N : Int) : ℚ) := by exact_mod_cast h2
  rw [mul_one_div, div_le_iff₀ hpos]
  push_cast at h3
  exact h3

/-- Rounding to a double does not cross an integer below. -/
theorem intCast_le_toDouble (x : ℚ) (n : Int) (h : (n : ℚ) ≤ x) : (n : ℚ) ≤ toDouble x := by
  unfold toDouble
  rw [two_zpow_nonpos _ (quantumExp_nonpos x)]
  set N : Int := ((2 ^ (-quantumExp x).toNat : Nat) : Int) with hN
  have hpos : (0 : ℚ) < (N : ℚ) := by
    have : (0 : Int) < N := by rw [hN]; positivity
    exact_mod_cast this
  have h1 : ((n * N : Int) : ℚ) ≤ x / (1 / (N : ℚ)) := by
    rw [div_div_eq_mul_div, div_one]; push_cast
    exact mul_le_mul_of_nonneg_right h hpos.le
  have h2 := le_roundEven _ _ h1
  have h3 : ((n * N : Int) : ℚ) ≤ ((roundEven (x / (1 / (N : ℚ))) : Int) : ℚ) := by exact_mod_cast h2
  rw [mul_one_div, le_div_iff₀ hpos]
  push_cast at h3
  exact h3

/-- An integer is a double. -/
theorem toDouble_intCast (n : Int) : toDouble (n : ℚ) = n :=
  le_antisymm (toDouble_le_intCast _ _ le_rfl) (intCast_le_toDouble _ _ le_rfl)

/-- The spacing of the doubles between `2 ^ e` and `2 ^ (e + 1)`. -/
theorem quantumExp_eq (x : ℚ) (e : Int) (h1 : (2 : ℚ) ^ e ≤ |x|) (h2 : |x| < (2 : ℚ) ^ (e + 1)) :
    quantumExp x = max (-1074) (min (e - 52) 0) := by
  have hpos : 0 < |x| := lt_of_lt_of_le (by positivity) h1
  have a : e ≤ Int.log 2 |x| := (Int.zpow_le_iff_le_log (by norm_num) hpos).mp (by exact_mod_cast h1)
  have b : Int.log 2 |x| < e + 1 := (Int.lt_zpow_iff_log_lt (by norm_num) hpos).mp (by exact_mod_cast h2)
  have c : Int.log 2 |x| = e := by omega
  unfold quantumExp
  rw [c]

/-- Evaluation of `toDouble` at a given number: with `2 ^ e ≤ |x| < 2 ^ (e + 1)`
the spacing is `2 ^ p`, `p = max (-1074) (min (e - 52) 0)`, and the result is
the multiple `m * 2 ^ p` less than half a spacing away. -/
theorem toDouble_eq (x q : ℚ) (e p m : Int) (h1 : (2 : ℚ) ^ e ≤ |x|)
    (h2 : |x| < (2 : ℚ) ^ (e + 1)) (hp : max (-1074) (min (e - 52) 0) = p)
    (hm : |x / 2 ^ p - m| < 1 / 2) (hq : (m : ℚ) * 2 ^ p = q) :
    toDouble x = q := by
  have hq1 : quantumExp x = p := (quantumExp_eq x e h1 h2).trans hp
  unfold toDouble
  rw [hq1, roundEven_eq_of_near _ _ hm, hq]

/-- Zero is a double. -/
theorem toDouble_zero : toDouble 0 = 0 := by
  have := toDouble_intCast 0
  simpa using this

/-- Rounding to a double has relative error at most `2 ^ (-53)`, and absolute
error at most `2 ^ (-1075)` in the subnormal range. -/
theorem toDouble_near (x : ℚ) : |toDouble x - x| ≤ |x| / 2 ^ 53 + 1 / 2 ^ 1075 := by
  by_cases hx : x = 0
  · subst hx; rw [toDouble_zero]; norm_num
  have hpos : 0 < |x| := abs_pos.mpr hx
  have hq : (0 : ℚ) < 2 ^ quantumExp x := by positivity
  have hr := roundEven_near (x / 2 ^ quantumExp x)
  have e1 : toDouble x - x = ((roundEven (x / 2 ^ quantumExp x) : ℚ) - x / 2 ^ quantumExp x) * 2 ^ quantumExp x := by
    unfold toDouble; field_simp
  rw [e1, abs_mul, abs_of_pos hq]
  have h3 : |(roundEven (x / 2 ^ quantumExp x) : ℚ) - x / 2 ^ quantumExp x| * 2 ^ quantumExp x
      ≤ 1 / 2 * 2 ^ quantumExp x := mul_le_mul_of_nonneg_right hr hq.le
  refine h3.trans ?_
  have hlog : (2 : ℚ) ^ Int.log 2 |x| ≤ |x| := by
    have := Int.zpow_log_le_self (b := 2) (r := |x|) (by norm_num) hpos
    exact_mod_cast this
  by_cases hc : quantumExp x = -1074
  · rw [hc]
    have : (0 : ℚ) ≤ |x| / 2 ^ 53 := by positivity
    have e2 : (1 : ℚ) / 2 * 2 ^ (-1074 : Int) = 1 / 2 ^ 1075 := by
      rw [zpow_neg]; norm_num
    linarith
  · have hle : quantumExp x ≤ Int.log 2 |x| - 52 := by
      unfold quantumExp at hc ⊢; omega
    have h4 : (2 : ℚ) ^ quantumExp x ≤ 2 ^ (Int.log 2 |x| - 52) :=
      zpow_le_zpow_right₀ (by norm_num) hle
    have h5 : (2 : ℚ) ^ (Int.log 2 |x| - 52) = 2 ^ Int.log 2 |x| / 2 ^ 52 := by
      rw [zpow_sub₀ (by norm_num)]; norm_num
    have h6 : (0 : ℚ) ≤ 1 / 2 ^ 1075 := by positivity
    have h7 : (1 : ℚ) / 2 * (2 ^ Int.log 2 |x| / 2 ^ 52) ≤ |x| / 2 ^ 53 := by
      have : (2 : ℚ) ^ Int.log 2 |x| / 2 ^ 53 ≤ |x| / 2 ^ 53 :=
        div_le_div_of_nonneg_right hlog (by positivity)
      calc (1 : ℚ) / 2 * (2 ^ Int.log 2 |x| / 2 ^ 52) = 2 ^ Int.log 2 |x| / 2 ^ 53 := by ring
        _ ≤ _ := this
    calc (1 : ℚ) / 2 * 2 ^ quantumExp x ≤ 1 / 2 * 2 ^ (Int.log 2 |x| - 52) := by linarith
      _ = 1 / 2 * (2 ^ Int.log 2 |x| / 2 ^ 52) := by rw [h5]
      _ ≤ |x| / 2 ^ 53 + 1 / 2 ^ 1075 := by linarith

/-- Rounding to a double keeps the integers. -/
theorem toDouble_ofNat (n : Nat) : toDouble (n : ℚ) = n := by
  have := toDouble_intCast (n : Int)
  simpa using this

/-- A difference of at least 4 pixels is still at least 4 once rounded to a
double. -/
theorem four_le_abs_subD (a b : ℚ) (h : 4 ≤ |a - b|) : 4 ≤ |subD a b| := by
  unfold subD
  rcases le_abs.1 h with h1 | h1
  · have h2 : ((4 : Int) : ℚ) ≤ a - b := by simpa using h1
    have h3 := intCast_le_toDouble _ _ h2
    have h4 : (4 : ℚ) ≤ toDouble (a - b) := by simpa using h3
    exact h4.trans (le_abs_self _)
  · have h2 : a - b ≤ ((-4 : Int) : ℚ) := by push_cast; linarith
    have h3 := toDouble_le_intCast _ _ h2
    have h4 : toDouble (a - b) ≤ -4 := by simpa using h3
    exact le_abs.2 (Or.inr (by linarith))

/-- The fraction of the display width at a pixel inside the display, as a
double, lies in `[0, 1]`. -/
theorem divD_unit (p w : ℚ) (hw : 0 < w) (hp0 : 0 ≤ p) (hpw : p ≤ w) :
    0 ≤ divD p w ∧ divD p w ≤ 1 := by
  have h0 : ((0 : Int) : ℚ) ≤ p / w := by simpa using div_nonneg hp0 hw.le
  have h1 : p / w ≤ ((1 : Int) : ℚ) := by simpa using (div_le_one hw).2 hpw
  have a := intCast_le_toDouble _ _ h0
  have b := toDouble_le_intCast _ _ h1
  unfold divD
  exact ⟨by simpa using a, by simpa using b⟩

/-- A fraction in `[0, 1]` of a whole span, as a double, lies in the span. -/
theorem mulD_unit (f : ℚ) (S : Int) (hf0 : 0 ≤ f) (hf1 : f ≤ 1) (hS : 0 ≤ S) :
    0 ≤ mulD f S ∧ mulD f S ≤ S := by
  have hS' : (0 : ℚ) ≤ (S : ℚ) := by exact_mod_cast hS
  have h0 : ((0 : Int) : ℚ) ≤ f * S := by simpa using mul_nonneg hf0 hS'
  have h1 : f * S ≤ (S : ℚ) := mul_le_of_le_one_left hS' hf1
  have a := intCast_le_toDouble _ _ h0
  have b := toDouble_le_intCast _ _ h1
  unfold mulD
  exact ⟨by simpa using a, b⟩

/-- The inverse mapping of a pixel inside the display, computed in doubles,
stays inside the window. -/
theorem indexOfD_mem (zs ze : Int) (w p : ℚ) (hz : zs ≤ ze) (hw : 0 < w)
    (hp0 : 0 ≤ p) (hpw : p ≤ w) :
    (zs : ℚ) ≤ indexOfD zs ze w p ∧ indexOfD zs ze w p ≤ ze := by
  obtain ⟨f0, f1⟩ := divD_unit p w hw hp0 hpw
  obtain ⟨g0, g1⟩ := mulD_unit (divD p w) (ze - zs) f0 f1 (by omega)
  unfold indexOfD addD
  constructor
  · exact intCast_le_toDouble _ _ (by linarith)
  · refine toDouble_le_intCast _ _ ?_
    push_cast at g1 ⊢
    linarith

/-- Rounding a number of magnitude at most `B` to a double moves it by at most
`B / 2 ^ 53 + 1 / 2 ^ 60`. -/
theorem toDouble_near_of_le (x B : ℚ) (h : |x| ≤ B) :
    |toDouble x - x| ≤ B / 2 ^ 53 + 1 / 2 ^ 60 := by
  have h1 := toDouble_near x
  have h2 : |x| / 2 ^ 53 ≤ B / 2 ^ 53 := div_le_div_of_nonneg_right h (by positivity)
  have h3 : (1 : ℚ) / 2 ^ 1075 ≤ 1 / 2 ^ 60 :=
    one_div_le_one_div_of_le (by positivity) (pow_le_pow_right₀ (by norm_num) (by norm_num))
  linarith

/-- On a trace shorter than `2 ^ 32` the inverse mapping computed in doubles is
within `2 ^ (-19)` of the real one. -/
theorem indexOfD_near (zs ze : Int) (w p : ℚ) (h0 : 0 ≤ zs) (hz : zs ≤ ze)
    (hL : ze ≤ 2 ^ 32) (hw : 0 < w) (hp0 : 0 ≤ p) (hpw : p ≤ w) :
    |indexOfD zs ze w p - indexOf zs ze w p| ≤ 1 / 2 ^ 19 := by
  obtain ⟨f0, f1⟩ := divD_unit p w hw hp0 hpw
  obtain ⟨g0, g1⟩ := mulD_unit (divD p w) (ze - zs) f0 f1 (by omega)
  have hzs : (0 : ℚ) ≤ (zs : ℚ) := by exact_mod_cast h0
  have hze : (ze : ℚ) ≤ 2 ^ 32 := by exact_mod_cast hL
  have hS0 : (0 : ℚ) ≤ ((ze - zs : Int) : ℚ) := by exact_mod_cast sub_nonneg.2 hz
  have hS1 : ((ze - zs : Int) : ℚ) ≤ 2 ^ 32 := by push_cast; linarith
  have r0 : 0 ≤ p / w := div_nonneg hp0 hw.le
  have r1 : p / w ≤ 1 := (div_le_one hw).2 hpw
  have e1 := toDouble_near_of_le (p / w) 1 (by rw [abs_of_nonneg r0]; exact r1)
  have e2 := toDouble_near_of_le (divD p w * ((ze - zs : Int) : ℚ)) (2 ^ 32) (by
    rw [abs_of_nonneg (mul_nonneg f0 hS0)]
    exact (mul_le_of_le_one_left hS0 f1).trans hS1)
  have e3 := toDouble_near_of_le ((zs : ℚ) + mulD (divD p w) ((ze - zs : Int) : ℚ)) (2 ^ 32) (by
    rw [abs_of_nonneg (add_nonneg hzs g0)]
    push_cast at g1 ⊢
    linarith)
  have e4 : |(divD p w - p / w) * ((ze - zs : Int) : ℚ)| ≤ (1 / 2 ^ 53 + 1 / 2 ^ 60) * 2 ^ 32 := by
    rw [abs_mul, abs_of_nonneg hS0]
    exact mul_le_mul e1 hS1 hS0 (by positivity)
  have key : indexOfD zs ze w p - indexOf zs ze w p =
      (toDouble ((zs : ℚ) + mulD (divD p w) ((ze - zs : Int) : ℚ)) -
        ((zs : ℚ) + mulD (divD p w) ((ze - zs : Int) : ℚ))) +
      (toDouble (divD p w * ((ze - zs : Int) : ℚ)) - divD p w * ((ze - zs : Int) : ℚ)) +
      (divD p w - p / w) * ((ze - zs : Int) : ℚ) := by
    unfold indexOfD indexOf addD
    have : mulD (divD p w) ((ze - zs : Int) : ℚ) = toDouble (divD p w * ((ze - zs : Int) : ℚ)) := rfl
    rw [this]
    ring
  rw [key]
  have t1 := abs_add_three
    (toDouble ((zs : ℚ) + mulD (divD p w) ((ze - zs : Int) : ℚ)) -
        ((zs : ℚ) + mulD (divD p w) ((ze - zs : Int) : ℚ)))
    (toDouble (divD p w * ((ze - zs : Int) : ℚ)) - divD p w * ((ze - zs : Int) : ℚ))
    ((divD p w - p / w) * ((ze - zs : Int) : ℚ))
  have e1' : |divD p w - p / w| ≤ 1 / 2 ^ 53 + 1 / 2 ^ 60 := e1
  have num : (2 : ℚ) ^ 32 / 2 ^ 53 + 1 / 2 ^ 60 + (2 ^ 32 / 2 ^ 53 + 1 / 2 ^ 60) +
      (1 / 2 ^ 53 + 1 / 2 ^ 60) * 2 ^ 32 ≤ 1 / 2 ^ 19 := by norm_num
  linarith

/-! ## Double arithmetic: the values of the examples -/

/-- The spec example: pixel 100 of 500 over the window `[0, 1000)` is mapped to
exactly 200 in doubles. -/
theorem indexOfD_spec_left :
    indexOfD 0 1000 500 100 = 200 := by
  have h1 : divD 100 500 =
      (3602879701896397 / 18014398509481984) :=
    toDouble_eq _ _ (-3) (-55) 7205759403792794 (by norm_num [abs_of_pos])
      (by norm_num [abs_of_pos]) (by decide) (by norm_num [abs_lt]) (by norm_num)
  have h2 : mulD (3602879701896397 / 18014398509481984) ((1000 - 0 : Int) : ℚ) =
      200 :=
    toDouble_eq _ _ 7 (-45) 7036874417766400 (by norm_num [abs_of_pos])
      (by norm_num [abs_of_pos]) (by decide) (by norm_num [abs_lt]) (by norm_num)
  have h3 : addD ((0 : Int) : ℚ) 200 =
      200 :=
    toDouble_eq _ _ 7 (-45) 7036874417766400 (by norm_num [abs_of_pos])
      (by norm_num [abs_of_pos]) (by decide) (by norm_num [abs_lt]) (by norm_num)
  unfold indexOfD
  rw [h1, h2, h3]

/-- The spec example: pixel 200 of 500 over the window `[0, 1000)` is mapped to
exactly 400 in doubles. -/
theorem indexOfD_spec_right :
    indexOfD 0 1000 500 200 = 400 := by
  have h1 : divD 200 500 =
      (3602879701896397 / 9007199254740992) :=
    toDouble_eq _ _ (-2) (-54) 7205759403792794 (by norm_num [abs_of_pos])
      (by norm_num [abs_of_pos]) (by decide) (by norm_num [abs_lt]) (by norm_num)
  have h2 : mulD (3602879701896397 / 9007199254740992) ((1000 - 0 : Int) : ℚ) =
      400 :=
    toDouble_eq _ _ 8 (-44) 7036874417766400 (by norm_num [abs_of_pos])
      (by norm_num [abs_of_pos]) (by decide) (by norm_num [abs_lt]) (by norm_num)
  have h3 : addD ((0 : Int) : ℚ) 400 =
      400 :=
    toDouble_eq _ _ 8 (-44) 7036874417766400 (by norm_num [abs_of_pos])
      (by norm_num [abs_of_pos]) (by decide) (by norm_num [abs_lt]) (by norm_num)
  unfold indexOfD
  rw [h1, h2, h3]

/-- Pixel 29 of 100 over the window `[0, 100)`: `29 / 100 * 100` is
`28.999999999999996` in doubles, one spacing below 29. -/
theorem indexOfD_29_of_100 :
    indexOfD 0 100 100 29 = (8162774324609023 / 281474976710656) := by
  have h1 : divD 29 100 =
      (5224175567749775 / 18014398509481984) :=
    toDouble_eq _ _ (-2) (-54) 5224175567749775 (by norm_num [abs_of_pos])
      (by norm_num [abs_of_pos]) (by decide) (by norm_num [abs_lt]) (by norm_num)
  have h2 : mulD (5224175567749775 / 18014398509481984) ((100 - 0 : Int) : ℚ) =
      (8162774324609023 / 281474976710656) :=
    toDouble_eq _ _ 4 (-48) 8162774324609023 (by norm_num [abs_of_pos])
      (by norm_num [abs_of_pos]) (by decide) (by norm_num [abs_lt]) (by norm_num)
  have h3 : addD ((0 : Int) : ℚ) (8162774324609023 / 281474976710656) =
      (8162774324609023 / 281474976710656) :=
    toDouble_eq _ _ 4 (-48) 8162774324609023 (by norm_num [abs_of_pos])
      (by norm_num [abs_of_pos]) (by decide) (by norm_num [abs_lt]) (by norm_num)
  unfold indexOfD
  rw [h1, h2, h3]

/-- Pixel 56 of 100 over the window `[0, 100)`: `56 / 100 * 100` is
`56.00000000000001` in doubles, one spacing above 56. -/
theorem indexOfD_56_of_100 :
    indexOfD 0 100 100 56 = (7881299347898369 / 140737488355328) := by
  have h1 : divD 56 100 =
      (1261007895663739 / 2251799813685248) :=
    toDouble_eq _ _ (-1) (-53) 5044031582654956 (by norm_num [abs_of_pos])
      (by norm_num [abs_of_pos]) (by decide) (by norm_num [abs_lt]) (by norm_num)
  have h2 : mulD (1261007895663739 / 2251799813685248) ((100 - 0 : Int) : ℚ) =
      (7881299347898369 / 140737488355328) :=
    toDouble_eq _ _ 5 (-47) 7881299347898369 (by norm_num [abs_of_pos])
      (by norm_num [abs_of_pos]) (by decide) (by norm_num [abs_lt]) (by norm_num)
  have h3 : addD ((0 : Int) : ℚ) (7881299347898369 / 140737488355328) =
      (7881299347898369 / 140737488355328) :=
    toDouble_eq _ _ 5 (-47) 7881299347898369 (by norm_num [abs_of_pos])
      (by norm_num [abs_of_pos]) (by decide) (by norm_num [abs_lt]) (by norm_num)
  unfold indexOfD
  rw [h1, h2, h3]

/-- Pixel 50 of 100 over the window `[0, 50)` is mapped to exactly 25. -/
theorem indexOfD_half_of_50 :
    indexOfD 0 50 100 50 = 25 := by
  have h1 : divD 50 100 =
      (1 / 2) :=
    toDouble_eq _ _ (-1) (-53) 4503599627370496 (by norm_num [abs_of_pos])
      (by norm_num [abs_of_pos]) (by decide) (by norm_num [abs_lt]) (by norm_num)
  have h2 : mulD (1 / 2) ((50 - 0 : Int) : ℚ) =
      25 :=
    toDouble_eq _ _ 4 (-48) 7036874417766400 (by norm_num [abs_of_pos])
      (by norm_num [abs_of_pos]) (by decide) (by norm_num [abs_lt]) (by norm_num)
  have h3 : addD ((0 : Int) : ℚ) 25 =
      25 :=
    toDouble_eq _ _ 4 (-48) 7036874417766400 (by norm_num [abs_of_pos])
      (by norm_num [abs_of_pos]) (by decide) (by norm_num [abs_lt]) (by norm_num)
  unfold indexOfD
  rw [h1, h2, h3]

/-- The re-centred start for the pointer at pixel 50 of 100 over the window `[0,
50)` and a new span of 65, before rounding: `25 - 0.5 * 65 = -7.5`, exact in
doubles. -/
theorem wheel_recentre_half_of_50 :
    subD (indexOfD 0 50 100 50) (mulD (divD 50 100) ((65 : Int) : ℚ)) =
      (-15 / 2) := by
  have h1 : divD 50 100 =
      (1 / 2) :=
    toDouble_eq _ _ (-1) (-53) 4503599627370496 (by norm_num [abs_of_pos])
      (by norm_num [abs_of_pos]) (by decide) (by norm_num [abs_lt]) (by norm_num)
  have h4 : mulD (1 / 2) ((65 : Int) : ℚ) =
      (65 / 2) :=
    toDouble_eq _ _ 5 (-47) 4573968371548160 (by norm_num [abs_of_pos])
      (by norm_num [abs_of_pos]) (by decide) (by norm_num [abs_lt]) (by norm_num)
  have h5 : subD 25 (65 / 2) =
      (-15 / 2) :=
    toDouble_eq _ _ 2 (-50) (-8444249301319680) (by norm_num [abs_of_neg])
      (by norm_num [abs_of_neg]) (by decide) (by norm_num [abs_lt]) (by norm_num)
  rw [indexOfD_half_of_50, h1, h4, h5]

/-- Pixel 250 of 500 over the window `[0, 1000)` is mapped to exactly 500. -/
theorem indexOfD_half_of_1000 :
    indexOfD 0 1000 500 250 = 500 := by
  have h1 : divD 250 500 =
      (1 / 2) :=
    toDouble_eq _ _ (-1) (-53) 4503599627370496 (by norm_num [abs_of_pos])
      (by norm_num [abs_of_pos]) (by decide) (by norm_num [abs_lt]) (by norm_num)
  have h2 : mulD (1 / 2) ((1000 - 0 : Int) : ℚ) =
      500 :=
    toDouble_eq _ _ 8 (-44) 8796093022208000 (by norm_num [abs_of_pos])
      (by norm_num [abs_of_pos]) (by decide) (by norm_num [abs_lt]) (by norm_num)
  have h3 : addD ((0 : Int) : ℚ) 500 =
      500 :=
    toDouble_eq _ _ 8 (-44) 8796093022208000 (by norm_num [abs_of_pos])
      (by norm_num [abs_of_pos]) (by decide) (by norm_num [abs_lt]) (by norm_num)
  unfold indexOfD
  rw [h1, h2, h3]

/-- The re-centred start for the pointer at pixel 250 of 500 over the window
`[0, 1000)` and a new span of 769, before rounding: `500 - 0.5 * 769 = 115.5`,
exact in doubles. -/
theorem wheel_recentre_half_of_1000 :
    subD (indexOfD 0 1000 500 250) (mulD (divD 250 500) ((769 : Int) : ℚ)) =
      (231 / 2) := by
  have h1 : divD 250 500 =
      (1 / 2) :=
    toDouble_eq _ _ (-1) (-53) 4503599627370496 (by norm_num [abs_of_pos])
      (by norm_num [abs_of_pos]) (by decide) (by norm_num [abs_lt]) (by norm_num)
  have h4 : mulD (1 / 2) ((769 : Int) : ℚ) =
      (769 / 2) :=
    toDouble_eq _ _ 8 (-44) 6764195534077952 (by norm_num [abs_of_pos])
      (by norm_num [abs_of_pos]) (by decide) (by norm_num [abs_lt]) (by norm_num)
  have h5 : subD 500 (769 / 2) =
      (231 / 2) :=
    toDouble_eq _ _ 6 (-46) 8127589952520192 (by norm_num [abs_of_pos])
      (by norm_num [abs_of_pos]) (by decide) (by norm_num [abs_lt]) (by norm_num)
  rw [indexOfD_half_of_1000, h1, h4, h5]

/-- Pixel 220 of 800 over the window `[10, 75)` is mapped to exactly 27.875. -/
theorem indexOfD_220_of_800 :
    indexOfD 10 75 800 220 = (223 / 8) := by
  have h1 : divD 220 800 =
      (2476979795053773 / 9007199254740992) :=
    toDouble_eq _ _ (-2) (-54) 4953959590107546 (by norm_num [abs_of_pos])
      (by norm_num [abs_of_pos]) (by decide) (by norm_num [abs_lt]) (by norm_num)
  have h2 : mulD (2476979795053773 / 9007199254740992) ((75 - 10 : Int) : ℚ) =
      (143 / 8) :=
    toDouble_eq _ _ 4 (-48) 5031365208702976 (by norm_num [abs_of_pos])
      (by norm_num [abs_of_pos]) (by decide) (by norm_num [abs_lt]) (by norm_num)
  have h3 : addD ((10 : Int) : ℚ) (143 / 8) =
      (223 / 8) :=
    toDouble_eq _ _ 4 (-48) 7846114975809536 (by norm_num [abs_of_pos])
      (by norm_num [abs_of_pos]) (by decide) (by norm_num [abs_lt]) (by norm_num)
  unfold indexOfD
  rw [h1, h2, h3]

/-- The re-centred start for the pointer at pixel 220 of 800 over the window
`[10, 75)` and a new span of 85, before rounding: `27.875 - 0.275 * 85` is
`4.4999999999999964` in doubles, below the real value 4.5. -/
theorem wheel_recentre_220_of_800 :
    subD (indexOfD 10 75 800 220) (mulD (divD 220 800) ((85 : Int) : ℚ)) =
      (1266637395197951 / 281474976710656) := by
  have h1 : divD 220 800 =
      (2476979795053773 / 9007199254740992) :=
    toDouble_eq _ _ (-2) (-54) 4953959590107546 (by norm_num [abs_of_pos])
      (by norm_num [abs_of_pos]) (by decide) (by norm_num [abs_lt]) (by norm_num)
  have h4 : mulD (2476979795053773 / 9007199254740992) ((85 : Int) : ℚ) =
      (6579477580611585 / 281474976710656) :=
    toDouble_eq _ _ 4 (-48) 6579477580611585 (by norm_num [abs_of_pos])
      (by norm_num [abs_of_pos]) (by decide) (by norm_num [abs_lt]) (by norm_num)
  have h5 : subD (223 / 8) (6579477580611585 / 281474976710656) =
      (1266637395197951 / 281474976710656) :=
    toDouble_eq _ _ 2 (-50) 5066549580791804 (by norm_num [abs_of_pos])
      (by norm_num [abs_of_pos]) (by decide) (by norm_num [abs_lt]) (by norm_num)
  rw [indexOfD_220_of_800, h1, h4, h5]

/-! ## Zoom window: what is read -/

theorem seekTrace_zoom {ε : Type} (E : Engine ε) (s : UI ε) (k : Int) :
    (seekTrace E s k).tlZoomStart = s.tlZoomStart ∧ (seekTrace E s k).tlZoomEnd = s.tlZoomEnd := by
  unfold seekTrace
  cases s.emulator with
  | none => exact ⟨rfl, rfl⟩
  | some emu => by_cases h : ((E.get_trace_length emu : Nat) : Int) = 0 <;> simp [h]

theorem updateFullUI_tlZoomStart {ε : Type} (E : Engine ε) (s : UI ε) :
    (updateFullUI E s).tlZoomStart = s.tlZoomStart := by
  unfold updateFullUI
  cases s.emulator with
  | none => rfl
  | some emu =>
    simp only
    split_ifs <;> simp [(seekTrace_zoom E s _).1]

theorem clampToBounds_fst_nonneg (len newStart newSpan : Int) :
    0 ≤ (clampToBounds len newStart newSpan).1 := by
  unfold clampToBounds
  exact le_max_left _ _

theorem onMouseUp_tlZoomStart_nonneg {ε : Type} (E : Engine ε) (s : UI ε) (w : ℚ)
    (h : 0 ≤ s.tlZoomStart) : 0 ≤ (onMouseUp E s w).tlZoomStart := by
  unfold onMouseUp
  split
  · exact h
  · simp only
    split
    · exact h
    · split
      · rw [(seekTrace_zoom E _ _).1]; exact h
      · split
        · exact le_max_left _ _
        · exact h

/-- Reachability invariant: the stored left edge is never negative. -/
theorem Reachable.zoomStart_nonneg {ε : Type} {E : Engine ε} {s : UI ε} (h : Reachable E s) :
    0 ≤ s.tlZoomStart := by
  induction h with
  | init => exact le_refl _
  | load s t _ h0 _ _ => rw [h0]
  | other s t _ h0 _ ih => rw [h0]; exact ih
  | zoomReset s _ ih =>
    unfold onZoomReset
    cases s.emulator with
    | none => exact ih
    | some emu => exact le_refl _
  | mouseUp s w _ _ ih => exact onMouseUp_tlZoomStart_nonneg E s w ih
  | wheel s x w deltaY _ _ ih =>
    unfold onWheel
    cases s.emulator with
    | none => exact ih
    | some emu =>
      simp only
      split_ifs
      · exact ih
      · exact clampToBounds_fst_nonneg _ _ _
  | refresh s _ ih => rw [updateFullUI_tlZoomStart]; exact ih

/-- The window read through the getters, for any stored pair with a
non-negative left edge, on a trace of length at least 1. -/
theorem readWindow_valid {ε : Type} (E : Engine ε) (s : UI ε) (emu : ε)
    (hemu : s.emulator = some emu) (hlen : 1 ≤ E.get_trace_length emu)
    (h0 : 0 ≤ s.tlZoomStart) :
    0 ≤ getZoomStart E s ∧ getZoomStart E s < getZoomEnd E s ∧
      getZoomEnd E s ≤ E.get_trace_length emu := by
  unfold getZoomStart getZoomEnd
  simp only [hemu]
  have h1 : (1 : Int) ≤ (E.get_trace_length emu : Nat) := by omega
  split_ifs with hc
  · exact ⟨h0, hc.1, hc.2⟩
  · exact ⟨le_refl _, by omega, le_refl _⟩

/-- C10: the mapper never renders with an invalid window.  For every trace
length `len ≥ 1` and every state the program can reach, the window read through
`getZoomStart` / `getZoomEnd` satisfies `0 ≤ start < end ≤ len`, so the divisor
`end - start` is not zero and `renderTimeline` uses that window as it is; and
whenever the stored end is at most the stored start, the window read is exactly
the full range `[0, len)`. -/
theorem read_window_never_invalid {ε : Type} (E : Engine ε) (s : UI ε) (emu : ε)
    (hreach : Reachable E s) (hemu : s.emulator = some emu)
    (hlen : 1 ≤ E.get_trace_length emu) :
    (0 ≤ getZoomStart E s ∧ getZoomStart E s < getZoomEnd E s ∧
      getZoomEnd E s ≤ E.get_trace_length emu) ∧
    getZoomEnd E s - getZoomStart E s ≠ 0 ∧
    renderWindow E s (E.get_trace_length emu) = (getZoomStart E s, getZoomEnd E s) ∧
    (s.tlZoomEnd ≤ s.tlZoomStart →
      getZoomStart E s = 0 ∧ getZoomEnd E s = E.get_trace_length emu) := by
  have hv := readWindow_valid E s emu hemu hlen hreach.zoomStart_nonneg
  refine ⟨hv, by omega, ?_, ?_⟩
  · unfold renderWindow
    have : ¬ (getZoomEnd E s ≤ getZoomStart E s) := by omega
    simp [this]
  · intro hdeg
    unfold getZoomStart getZoomEnd
    have : ¬ (s.tlZoomEnd > s.tlZoomStart) := by omega
    simp [hemu, this]

/-- Instance of C10: a session with 1000 recorded entries whose stored window is
still the initial, empty pair `(0, 0)` reads the full range `[0, 1000)`. -/
theorem read_window_never_invalid_witness :
    getZoomStart counterEngine (liveSession 1000) = 0 ∧
    getZoomEnd counterEngine (liveSession 1000) = 1000 :=
  (read_window_never_invalid counterEngine (liveSession 1000) 1000
    (Reachable.other _ _ Reachable.init rfl rfl) rfl (by decide)).2.2.2 (by decide)

/-! ## Zoom window: what the handlers store -/

/-- A stored window that is non-empty and inside the trace is read back as it
is. -/
theorem getZoom_of_stored {ε : Type} (E : Engine ε) (s : UI ε) (emu : ε)
    (hemu : s.emulator = some emu) (h1 : s.tlZoomStart < s.tlZoomEnd)
    (h2 : s.tlZoomEnd ≤ E.get_trace_length emu) :
    getZoomStart E s = s.tlZoomStart ∧ getZoomEnd E s = s.tlZoomEnd := by
  unfold getZoomStart getZoomEnd
  have hc : s.tlZoomEnd > s.tlZoomStart ∧ s.tlZoomEnd ≤ (E.get_trace_length emu : Int) := ⟨h1, h2⟩
  simp only [hemu, hc, and_self, if_true]

/-- Inverse mapping of a pixel inside the display stays inside the window:
rounded down it is at least the left edge, rounded up at most the right edge. -/
theorem inverse_map_bounds (zs ze : Int) (w p : ℚ) (hz : zs ≤ ze) (hw : 0 < w)
    (hp0 : 0 ≤ p) (hpw : p ≤ w) :
    zs ≤ ⌊indexOfD zs ze w p⌋ ∧ ⌈indexOfD zs ze w p⌉ ≤ ze := by
  obtain ⟨h1, h2⟩ := indexOfD_mem zs ze w p hz hw hp0 hpw
  exact ⟨Int.le_floor.2 h1, Int.ceil_le.2 h2⟩

/-- The `mouseup` listener on a drag of at least 4 pixels. -/
theorem onMouseUp_drag {ε : Type} (E : Engine ε) (s : UI ε) (emu : ε) (w : ℚ)
    (hemu : s.emulator = some emu) (hdrag : s.tlDragging = true)
    (hdist : 4 ≤ |s.tlDragEndX - s.tlDragStartX|) :
    onMouseUp E s w =
      if dragNewEnd E s w - dragNewStart E s w > 1 then
        { s with
          tlDragging := false
          tlZoomStart := max 0 (dragNewStart E s w)
          tlZoomEnd := min (E.get_trace_length emu : Int) (dragNewEnd E s w) }
      else { s with tlDragging := false } := by
  rcases s with ⟨em, tm, tc, fg, tma, da, zs, ze, ib, dg, dsx, dex, ir, lb, af, tt, al⟩
  simp only at hemu hdrag hdist
  subst hemu hdrag
  unfold onMouseUp
  rw [if_neg (by simp)]
  simp only
  rw [if_neg (not_lt.2 (four_le_abs_subD _ _ hdist))]
  rfl

/-- The `mouseup` listener on a travel below 4 pixels. -/
theorem onMouseUp_click {ε : Type} (E : Engine ε) (s : UI ε) (emu : ε) (w : ℚ)
    (hemu : s.emulator = some emu) (hdrag : s.tlDragging = true)
    (hdist : |subD s.tlDragEndX s.tlDragStartX| < 4) :
    onMouseUp E s w = seekTrace E { s with tlDragging := false } (clickTarget E s w) := by
  rcases s with ⟨em, tm, tc, fg, tma, da, zs, ze, ib, dg, dsx, dex, ir, lb, af, tt, al⟩
  simp only at hemu hdrag hdist
  subst hemu hdrag
  unfold onMouseUp
  rw [if_neg (by simp)]
  simp only
  rw [if_pos hdist]
  rfl

/-- The two edges computed by a drag stay inside the window that is read. -/
theorem drag_edges_bounds {ε : Type} (E : Engine ε) (s : UI ε) (emu : ε) (w : ℚ)
    (hemu : s.emulator = some emu) (hlen : 1 ≤ E.get_trace_length emu)
    (h0 : 0 ≤ s.tlZoomStart) (hw : 0 < w)
    (hs0 : 0 ≤ s.tlDragStartX) (hsw : s.tlDragStartX ≤ w)
    (he0 : 0 ≤ s.tlDragEndX) (hew : s.tlDragEndX ≤ w) :
    0 ≤ dragNewStart E s w ∧ dragNewEnd E s w ≤ E.get_trace_length emu := by
  obtain ⟨hv0, hv1, hv2⟩ := readWindow_valid E s emu hemu hlen h0
  have hl := (inverse_map_bounds (getZoomStart E s) (getZoomEnd E s) w
    (min s.tlDragStartX s.tlDragEndX) hv1.le hw (le_min hs0 he0) ((min_le_left _ _).trans hsw)).1
  have hr := (inverse_map_bounds (getZoomStart E s) (getZoomEnd E s) w
    (max s.tlDragStartX s.tlDragEndX) hv1.le hw (le_max_of_le_left hs0) (max_le hsw hew)).2
  exact ⟨hv0.trans hl, hr.trans hv2⟩

/-- The `wheel` listener on a non-empty trace. -/
theorem onWheel_eq {ε : Type} (E : Engine ε) (s : UI ε) (emu : ε) (x w deltaY : ℚ)
    (hemu : s.emulator = some emu) (hlen : 1 ≤ E.get_trace_length emu) :
    onWheel E s x w deltaY =
      { s with
        tlZoomStart := (clampToBounds (E.get_trace_length emu)
          (wheelStart E s (E.get_trace_length emu) x w deltaY)
          (wheelSpan (E.get_trace_length emu) (getZoomEnd E s - getZoomStart E s) deltaY)).1
        tlZoomEnd := (clampToBounds (E.get_trace_length emu)
          (wheelStart E s (E.get_trace_length emu) x w deltaY)
          (wheelSpan (E.get_trace_length emu) (getZoomEnd E s - getZoomStart E s) deltaY)).2 } := by
  have h0 : ((E.get_trace_length emu : Nat) : Int) ≠ 0 := by omega
  unfold onWheel
  simp only [hemu, h0, if_false]

/-- The block `// Clamp to bounds` shifts the re-centred window into the trace
and cuts its span down to the trace length when it is longer than the trace. -/
theorem clampToBounds_spec (len newStart newSpan : Int) :
    (clampToBounds len newStart newSpan).1 = max 0 (min newStart (len - min len newSpan)) ∧
    (clampToBounds len newStart newSpan).2 =
      (clampToBounds len newStart newSpan).1 + min len newSpan := by
  unfold clampToBounds
  simp only
  split_ifs <;> constructor <;> simp only <;> omega

theorem wheelSpan_ge (len zSpan : Int) (deltaY : ℚ) : 10 ≤ wheelSpan len zSpan deltaY :=
  le_max_left _ _

theorem wheelSpan_le (len zSpan : Int) (deltaY : ℚ) (hlen : 10 ≤ len) :
    wheelSpan len zSpan deltaY ≤ len := by
  unfold wheelSpan
  omega

/-- C6: after any zoom operation on a trace of length `len ≥ 1`, in a state the
program can reach, the stored window satisfies
`0 ≤ tlZoomStart < tlZoomEnd ≤ len`: after the reset button and the double
click, after a wheel event, and after a drag of at least 4 pixels between
positions inside the display width that the handler accepts (its guard
`newEnd - newStart > 1` passes), in which case moreover
`tlZoomEnd - tlZoomStart ≥ 2`. -/
theorem zoom_containment {ε : Type} (E : Engine ε) (s : UI ε) (emu : ε)
    (hreach : Reachable E s) (hemu : s.emulator = some emu)
    (hlen : 1 ≤ E.get_trace_length emu) :
    StoredWindowValid (onZoomReset E s) (E.get_trace_length emu) ∧
    (∀ x w deltaY : ℚ, 0 < w →
      StoredWindowValid (onWheel E s x w deltaY) (E.get_trace_length emu)) ∧
    (∀ w : ℚ, 0 < w → s.tlDragging = true →
      0 ≤ s.tlDragStartX → s.tlDragStartX ≤ w → 0 ≤ s.tlDragEndX → s.tlDragEndX ≤ w →
      4 ≤ |s.tlDragEndX - s.tlDragStartX| →
      1 < dragNewEnd E s w - dragNewStart E s w →
      StoredWindowValid (onMouseUp E s w) (E.get_trace_length emu) ∧
        2 ≤ (onMouseUp E s w).tlZoomEnd - (onMouseUp E s w).tlZoomStart) := by
  have h1 : (1 : Int) ≤ (E.get_trace_length emu : Nat) := by omega
  refine ⟨?_, ?_, ?_⟩
  · unfold onZoomReset StoredWindowValid
    simp only [hemu]
    omega
  · intro x w deltaY _
    rw [onWheel_eq E s emu x w deltaY hemu hlen]
    obtain ⟨e1, e2⟩ := clampToBounds_spec (E.get_trace_length emu)
      (wheelStart E s (E.get_trace_length emu) x w deltaY)
      (wheelSpan (E.get_trace_length emu) (getZoomEnd E s - getZoomStart E s) deltaY)
    have hsp := wheelSpan_ge (E.get_trace_length emu) (getZoomEnd E s - getZoomStart E s) deltaY
    unfold StoredWindowValid
    simp only
    rw [e2, e1]
    omega
  · intro w hw hdrag hs0 hsw he0 hew hdist hacc
    obtain ⟨hb0, hb1⟩ := drag_edges_bounds E s emu w hemu hlen hreach.zoomStart_nonneg hw
      hs0 hsw he0 hew
    rw [onMouseUp_drag E s emu w hemu hdrag hdist, if_pos hacc]
    unfold StoredWindowValid
    simp only
    omega

theorem zoomedSession_reachable (n : Nat) :
    Reachable counterEngine (zoomedSession n 0 n) :=
  Reachable.other _ _
    (Reachable.zoomReset _ (Reachable.other _ (liveSession n) Reachable.init rfl rfl)) rfl rfl

/-- The edges a drag computes, in terms of the inverse mapping in doubles, when
the stored window is read back as it is. -/
theorem dragNew_of_stored {ε : Type} (E : Engine ε) (s : UI ε) (emu : ε) (w : ℚ)
    (hemu : s.emulator = some emu) (h1 : s.tlZoomStart < s.tlZoomEnd)
    (h2 : s.tlZoomEnd ≤ E.get_trace_length emu) :
    dragNewStart E s w =
      ⌊indexOfD s.tlZoomStart s.tlZoomEnd w (min s.tlDragStartX s.tlDragEndX)⌋ ∧
    dragNewEnd E s w =
      ⌈indexOfD s.tlZoomStart s.tlZoomEnd w (max s.tlDragStartX s.tlDragEndX)⌉ := by
  obtain ⟨e1, e2⟩ := getZoom_of_stored E s emu hemu h1 h2
  unfold dragNewStart dragNewEnd indexOfD
  rw [e1, e2]
  exact ⟨rfl, rfl⟩

/-- Instance of C6 on a trace of 1000 entries shown 500 pixels wide: the reset,
a wheel event at pixel 250 and the drag from pixel 100 to pixel 200 all store a
window inside the trace, the drag one of span at least 2. -/
theorem zoom_containment_witness :
    StoredWindowValid (onZoomReset counterEngine (zoomedSession 1000 0 1000)) 1000 ∧
    StoredWindowValid (onWheel counterEngine (zoomedSession 1000 0 1000) 250 500 (-1)) 1000 ∧
    (StoredWindowValid (onMouseUp counterEngine (draggingSession 1000 0 1000 100 200) 500) 1000 ∧
      2 ≤ (onMouseUp counterEngine (draggingSession 1000 0 1000 100 200) 500).tlZoomEnd -
        (onMouseUp counterEngine (draggingSession 1000 0 1000 100 200) 500).tlZoomStart) :=
  ⟨(zoom_containment counterEngine (zoomedSession 1000 0 1000) 1000
      (zoomedSession_reachable 1000) rfl (by decide)).1,
   (zoom_containment counterEngine (zoomedSession 1000 0 1000) 1000
      (zoomedSession_reachable 1000) rfl (by decide)).2.1 250 500 (-1) (by norm_num),
   (zoom_containment counterEngine (draggingSession 1000 0 1000 100 200) 1000
      (Reachable.other _ _ (zoomedSession_reachable 1000) rfl rfl) rfl (by decide)).2.2 500
      (by norm_num) rfl (by norm_num [draggingSession]) (by norm_num [draggingSession])
      (by norm_num [draggingSession]) (by norm_num [draggingSession])
      (by norm_num [draggingSession])
      (by
        obtain ⟨e1, e2⟩ := dragNew_of_stored counterEngine (draggingSession 1000 0 1000 100 200)
          1000 500 rfl (by decide) (by decide)
        have k1 : ⌊indexOfD (0 : Int) 1000 500 (min 100 200)⌋ = 200 := by
          rw [min_eq_left (by norm_num), indexOfD_spec_left]; norm_num
        have k2 : ⌈indexOfD (0 : Int) 1000 500 (max 100 200)⌉ = 400 := by
          rw [max_eq_right (by norm_num), indexOfD_spec_right]; norm_num
        rw [e1, e2]
        change 1 < ⌈indexOfD (0 : Int) 1000 500 (max 100 200)⌉ -
          ⌊indexOfD (0 : Int) 1000 500 (min 100 200)⌋
        rw [k1, k2]
        decide)⟩

/-! ## Drag-to-zoom -/

/-- The state after pressing at pixel `a` and moving to pixel `b` inside the
display. -/
theorem press_move_eq {ε : Type} (s : UI ε) (emu : ε) (a b w : ℚ)
    (hemu : s.emulator = some emu) (hb0 : 0 ≤ b) (hbw : b ≤ w) :
    onMouseMove (onMouseDown s 0 a) b w =
      { s with tlDragging := true, tlDragStartX := a, tlDragEndX := b } := by
  unfold onMouseMove onMouseDown
  simp [hemu, min_eq_left hbw, max_eq_right hb0]

/-- Pixel 0 is mapped to the left edge of the window, in doubles too. -/
theorem indexOfD_zero (zs ze : Int) (w : ℚ) : indexOfD zs ze w 0 = zs := by
  unfold indexOfD addD mulD divD
  rw [zero_div, toDouble_zero, zero_mul, toDouble_zero, add_zero, toDouble_intCast]

/-- The `mouseup` listener on a press and release at pixel 0 seeks to the left
edge of a stored valid window. -/
theorem release_at_zero {ε : Type} (E : Engine ε) (c : UI ε) (emu : ε) (w : ℚ)
    (hemu : c.emulator = some emu) (hdrag : c.tlDragging = true)
    (hs : c.tlDragStartX = 0) (he : c.tlDragEndX = 0)
    (hv : StoredWindowValid c (E.get_trace_length emu)) :
    (onMouseUp E c w).traceCursor = c.tlZoomStart := by
  obtain ⟨h0, h1, h2⟩ := hv
  have hlen : 1 ≤ E.get_trace_length emu := by omega
  have hd : |subD c.tlDragEndX c.tlDragStartX| < 4 := by
    rw [hs, he]
    unfold subD
    rw [sub_zero, toDouble_zero]
    norm_num
  rw [onMouseUp_click E c emu w hemu hdrag hd,
    seekTrace_traceCursor E { c with tlDragging := false } emu _ hemu hlen]
  have hz := getZoom_of_stored E c emu hemu h1 h2
  have hc : clickTarget E c w = c.tlZoomStart := by
    have e : clickTarget E c w =
        ⌊indexOfD (getZoomStart E c) (getZoomEnd E c) w c.tlDragStartX⌋ := rfl
    rw [e, hz.1, hz.2, hs, indexOfD_zero]
    simp
  rw [hc]
  omega

/-- A click at pixel 0 seeks to the left edge of a stored valid window. -/
theorem click_at_zero {ε : Type} (E : Engine ε) (t : UI ε) (emu : ε) (w : ℚ)
    (hemu : t.emulator = some emu) (hv : StoredWindowValid t (E.get_trace_length emu)) :
    (onMouseUp E (onMouseDown t 0 0) w).traceCursor = t.tlZoomStart := by
  have hd : onMouseDown t 0 0 = { t with tlDragging := true, tlDragStartX := 0, tlDragEndX := 0 } := by
    unfold onMouseDown
    simp [hemu]
  rw [hd]
  exact release_at_zero E { t with tlDragging := true, tlDragStartX := 0, tlDragEndX := 0 } emu w
    hemu rfl rfl rfl hv

/-- The `mouseup` listener at the end of a drag from `a` to `b` over a stored
valid window: the edges computed, in doubles, lie inside the window; they are
stored when their span is at least 2 and dropped otherwise. -/
theorem release_after_drag {ε : Type} (E : Engine ε) (g : UI ε) (emu : ε) (w a b : ℚ)
    (hemu : g.emulator = some emu) (hdrag : g.tlDragging = true)
    (hs : g.tlDragStartX = a) (he : g.tlDragEndX = b)
    (hvalid : StoredWindowValid g (E.get_trace_length emu))
    (hw : 0 < w) (ha : 0 ≤ a) (hab : a < b) (hb : b ≤ w) (htravel : 4 ≤ b - a) :
    (2 ≤ ⌈indexOfD g.tlZoomStart g.tlZoomEnd w b⌉ - ⌊indexOfD g.tlZoomStart g.tlZoomEnd w a⌋ →
      (onMouseUp E g w).emulator = some emu ∧
      (onMouseUp E g w).tlZoomStart = ⌊indexOfD g.tlZoomStart g.tlZoomEnd w a⌋ ∧
      (onMouseUp E g w).tlZoomEnd = ⌈indexOfD g.tlZoomStart g.tlZoomEnd w b⌉ ∧
      StoredWindowValid (onMouseUp E g w) (E.get_trace_length emu)) ∧
    (⌈indexOfD g.tlZoomStart g.tlZoomEnd w b⌉ - ⌊indexOfD g.tlZoomStart g.tlZoomEnd w a⌋ < 2 →
      (onMouseUp E g w).tlZoomStart = g.tlZoomStart ∧
      (onMouseUp E g w).tlZoomEnd = g.tlZoomEnd) := by
  obtain ⟨h0, h1, h2⟩ := hvalid
  have hb0 : 0 ≤ b := ha.trans hab.le
  have hdist : 4 ≤ |g.tlDragEndX - g.tlDragStartX| := by
    rw [hs, he]; exact htravel.trans (le_abs_self _)
  obtain ⟨e1, e2⟩ := dragNew_of_stored E g emu w hemu h1 h2
  rw [hs, he, min_eq_left hab.le] at e1
  rw [hs, he, max_eq_right hab.le] at e2
  have hlo : g.tlZoomStart ≤ ⌊indexOfD g.tlZoomStart g.tlZoomEnd w a⌋ :=
    (inverse_map_bounds g.tlZoomStart g.tlZoomEnd w a h1.le hw ha (hab.le.trans hb)).1
  have hhi : ⌈indexOfD g.tlZoomStart g.tlZoomEnd w b⌉ ≤ g.tlZoomEnd :=
    (inverse_map_bounds g.tlZoomStart g.tlZoomEnd w b h1.le hw hb0 hb).2
  rw [onMouseUp_drag E g emu w hemu hdrag hdist, e1, e2]
  constructor
  · intro hacc
    rw [if_pos (by omega)]
    have hs' : max 0 ⌊indexOfD g.tlZoomStart g.tlZoomEnd w a⌋ =
        ⌊indexOfD g.tlZoomStart g.tlZoomEnd w a⌋ := by omega
    have he' : min (E.get_trace_length emu : Int) ⌈indexOfD g.tlZoomStart g.tlZoomEnd w b⌉ =
        ⌈indexOfD g.tlZoomStart g.tlZoomEnd w b⌉ := by omega
    refine ⟨hemu, hs', he', ?_⟩
    unfold StoredWindowValid
    simp only
    omega
  · intro hrej
    rw [if_neg (by omega)]
    exact ⟨rfl, rfl⟩

/-- The whole gesture of a drag over a stored valid window: press at `a`, move
to `b`, release, and then a click at pixel 0. -/
theorem press_drag_release {ε : Type} (E : Engine ε) (s : UI ε) (emu : ε) (w a b : ℚ)
    (hemu : s.emulator = some emu) (hvalid : StoredWindowValid s (E.get_trace_length emu))
    (hw : 0 < w) (ha : 0 ≤ a) (hab : a < b) (hb : b ≤ w) (htravel : 4 ≤ b - a) :
    (2 ≤ ⌈indexOfD s.tlZoomStart s.tlZoomEnd w b⌉ - ⌊indexOfD s.tlZoomStart s.tlZoomEnd w a⌋ →
      (onMouseUp E (onMouseMove (onMouseDown s 0 a) b w) w).tlZoomStart =
        ⌊indexOfD s.tlZoomStart s.tlZoomEnd w a⌋ ∧
      (onMouseUp E (onMouseMove (onMouseDown s 0 a) b w) w).tlZoomEnd =
        ⌈indexOfD s.tlZoomStart s.tlZoomEnd w b⌉ ∧
      (onMouseUp E (onMouseDown (onMouseUp E (onMouseMove (onMouseDown s 0 a) b w) w) 0 0)
        w).traceCursor = ⌊indexOfD s.tlZoomStart s.tlZoomEnd w a⌋) ∧
    (⌈indexOfD s.tlZoomStart s.tlZoomEnd w b⌉ - ⌊indexOfD s.tlZoomStart s.tlZoomEnd w a⌋ < 2 →
      (onMouseUp E (onMouseMove (onMouseDown s 0 a) b w) w).tlZoomStart = s.tlZoomStart ∧
      (onMouseUp E (onMouseMove (onMouseDown s 0 a) b w) w).tlZoomEnd = s.tlZoomEnd) := by
  have hb0 : 0 ≤ b := ha.trans hab.le
  rw [press_move_eq s emu a b w hemu hb0 hb]
  obtain ⟨hacc, hrej⟩ := release_after_drag E
    { s with tlDragging := true, tlDragStartX := a, tlDragEndX := b } emu w a b hemu rfl rfl rfl
    hvalid hw ha hab hb htravel
  refine ⟨fun h => ?_, hrej⟩
  obtain ⟨k1, k2, k3, k4⟩ := hacc h
  exact ⟨k2, k3, (click_at_zero E _ emu w k1 k4).trans k2⟩

/-- Two numbers less than 1 apart have floors at most 1 apart. -/
theorem floor_near (x y : ℚ) (h : |x - y| < 1) : |⌊x⌋ - ⌊y⌋| ≤ 1 := by
  rw [abs_lt] at h
  have a1 := Int.floor_le x
  have a2 := Int.lt_floor_add_one x
  have b1 := Int.floor_le y
  have b2 := Int.lt_floor_add_one y
  have c1 : ((⌊x⌋ : Int) : ℚ) < ((⌊y⌋ + 2 : Int) : ℚ) := by push_cast; linarith
  have c2 : ((⌊y⌋ : Int) : ℚ) < ((⌊x⌋ + 2 : Int) : ℚ) := by push_cast; linarith
  have d1 : ⌊x⌋ < ⌊y⌋ + 2 := by exact_mod_cast c1
  have d2 : ⌊y⌋ < ⌊x⌋ + 2 := by exact_mod_cast c2
  rw [abs_le]
  constructor <;> omega

/-- Two numbers less than 1 apart have ceilings at most 1 apart. -/
theorem ceil_near (x y : ℚ) (h : |x - y| < 1) : |⌈x⌉ - ⌈y⌉| ≤ 1 := by
  rw [abs_lt] at h
  have a1 := Int.le_ceil x
  have a2 := Int.ceil_lt_add_one x
  have b1 := Int.le_ceil y
  have b2 := Int.ceil_lt_add_one y
  have c1 : ((⌈x⌉ : Int) : ℚ) < ((⌈y⌉ + 2 : Int) : ℚ) := by push_cast; linarith
  have c2 : ((⌈y⌉ : Int) : ℚ) < ((⌈x⌉ + 2 : Int) : ℚ) := by push_cast; linarith
  have d1 : ⌈x⌉ < ⌈y⌉ + 2 := by exact_mod_cast c1
  have d2 : ⌈y⌉ < ⌈x⌉ + 2 := by exact_mod_cast c2
  rw [abs_le]
  constructor <;> omega

/-- C7 as stated fails where the double arithmetic rounds across an integer.  On
a trace of 100 entries with the window `[0, 100)` shown 100 pixels wide, a drag
from pixel 29 to pixel 56 stores `[28, 57)`: in doubles `29 / 100 * 100` is
`28.999999999999996` and `56 / 100 * 100` is `56.00000000000001`, while
`⌊0 + 29/100·100⌋ = 29` and `⌈0 + 56/100·100⌉ = 56`. -/
theorem drag_zoom_rounding_counterexample :
    (onMouseUp counterEngine
      (onMouseMove (onMouseDown (zoomedSession 100 0 100) 0 29) 56 100) 100).tlZoomStart = 28 ∧
    (onMouseUp counterEngine
      (onMouseMove (onMouseDown (zoomedSession 100 0 100) 0 29) 56 100) 100).tlZoomEnd = 57 ∧
    ⌊indexOf 0 100 100 29⌋ = 29 ∧
    ⌈indexOf 0 100 100 56⌉ = 56 := by
  have hlo : ⌊indexOfD (zoomedSession 100 0 100).tlZoomStart
      (zoomedSession 100 0 100).tlZoomEnd 100 29⌋ = 28 := by
    change ⌊indexOfD 0 100 100 29⌋ = 28
    rw [indexOfD_29_of_100, Int.floor_eq_iff]
    norm_num
  have hhi : ⌈indexOfD (zoomedSession 100 0 100).tlZoomStart
      (zoomedSession 100 0 100).tlZoomEnd 100 56⌉ = 57 := by
    change ⌈indexOfD 0 100 100 56⌉ = 57
    rw [indexOfD_56_of_100, Int.ceil_eq_iff]
    norm_num
  have h := (press_drag_release counterEngine (zoomedSession 100 0 100) 100 100 29 56
    rfl ⟨by decide, by decide, by decide⟩ (by norm_num) (by norm_num) (by norm_num)
    (by norm_num) (by norm_num)).1 (by rw [hlo, hhi]; decide)
  rw [hlo, hhi] at h
  refine ⟨h.1, h.2.1, ?_, ?_⟩
  · norm_num [indexOf]
  · norm_num [indexOf]

/-- C7, amended: drag-to-zoom maps both edges of the dragged pixel range through
the inverse mapping as the listener computes it, in doubles.  Over a stored
valid window `[s, e)` on a display of width `w`, pressing at pixel `a` and
releasing at pixel `b` (`0 ≤ a < b ≤ w`, travel at least 4 pixels) computes the
edges `⌊D a⌋` and `⌈D b⌉`, where `D p` is `s + p/w·(e-s)` with the quotient, the
product and the sum each rounded to a double.  When the span of these edges is
at least 2 they become the window, after which a click at pixel 0 seeks to the
new left edge; otherwise the window is left unchanged.  The edges lie inside
`[s, e]`, and on a trace of at most `2 ^ 32` entries `D p` is within `2 ^ (-19)`
of the real `s + p/w·(e-s)`, so each edge is within one index of
`⌊s + a/w·(e-s)⌋` and `⌈s + b/w·(e-s)⌉`. -/
theorem drag_zoom_inverse_maps {ε : Type} (E : Engine ε) (s : UI ε) (emu : ε) (w a b : ℚ)
    (hemu : s.emulator = some emu) (hvalid : StoredWindowValid s (E.get_trace_length emu))
    (hw : 0 < w) (ha : 0 ≤ a) (hab : a < b) (hb : b ≤ w) (htravel : 4 ≤ b - a) :
    (2 ≤ ⌈indexOfD s.tlZoomStart s.tlZoomEnd w b⌉ - ⌊indexOfD s.tlZoomStart s.tlZoomEnd w a⌋ →
      (onMouseUp E (onMouseMove (onMouseDown s 0 a) b w) w).tlZoomStart =
        ⌊indexOfD s.tlZoomStart s.tlZoomEnd w a⌋ ∧
      (onMouseUp E (onMouseMove (onMouseDown s 0 a) b w) w).tlZoomEnd =
        ⌈indexOfD s.tlZoomStart s.tlZoomEnd w b⌉ ∧
      (onMouseUp E (onMouseDown (onMouseUp E (onMouseMove (onMouseDown s 0 a) b w) w) 0 0)
        w).traceCursor = ⌊indexOfD s.tlZoomStart s.tlZoomEnd w a⌋) ∧
    (⌈indexOfD s.tlZoomStart s.tlZoomEnd w b⌉ - ⌊indexOfD s.tlZoomStart s.tlZoomEnd w a⌋ < 2 →
      (onMouseUp E (onMouseMove (onMouseDown s 0 a) b w) w).tlZoomStart = s.tlZoomStart ∧
      (onMouseUp E (onMouseMove (onMouseDown s 0 a) b w) w).tlZoomEnd = s.tlZoomEnd) ∧
    (s.tlZoomStart ≤ ⌊indexOfD s.tlZoomStart s.tlZoomEnd w a⌋ ∧
      ⌈indexOfD s.tlZoomStart s.tlZoomEnd w b⌉ ≤ s.tlZoomEnd) ∧
    (E.get_trace_length emu ≤ 2 ^ 32 →
      |indexOfD s.tlZoomStart s.tlZoomEnd w a - indexOf s.tlZoomStart s.tlZoomEnd w a| ≤
        1 / 2 ^ 19 ∧
      |indexOfD s.tlZoomStart s.tlZoomEnd w b - indexOf s.tlZoomStart s.tlZoomEnd w b| ≤
        1 / 2 ^ 19 ∧
      |⌊indexOfD s.tlZoomStart s.tlZoomEnd w a⌋ - ⌊indexOf s.tlZoomStart s.tlZoomEnd w a⌋| ≤ 1 ∧
      |⌈indexOfD s.tlZoomStart s.tlZoomEnd w b⌉ - ⌈indexOf s.tlZoomStart s.tlZoomEnd w b⌉| ≤ 1) := by
  obtain ⟨hacc, hrej⟩ := press_drag_release E s emu w a b hemu hvalid hw ha hab hb htravel
  obtain ⟨h0, h1, h2⟩ := hvalid
  have hb0 : 0 ≤ b := ha.trans hab.le
  have haw : a ≤ w := hab.le.trans hb
  refine ⟨hacc, hrej, ⟨(inverse_map_bounds _ _ w a h1.le hw ha haw).1,
    (inverse_map_bounds _ _ w b h1.le hw hb0 hb).2⟩, fun hmax => ?_⟩
  have hL : s.tlZoomEnd ≤ 2 ^ 32 := by
    have : ((E.get_trace_length emu : Nat) : Int) ≤ 2 ^ 32 := by exact_mod_cast hmax
    omega
  have na := indexOfD_near s.tlZoomStart s.tlZoomEnd w a h0 h1.le hL hw ha haw
  have nb := indexOfD_near s.tlZoomStart s.tlZoomEnd w b h0 h1.le hL hw hb0 hb
  have small : (1 : ℚ) / 2 ^ 19 < 1 := by norm_num
  exact ⟨na, nb, floor_near _ _ (lt_of_le_of_lt na small),
    ceil_near _ _ (lt_of_le_of_lt nb small)⟩

/-- Instance of C7, amended: on a trace of 1000 entries with the window
`[0, 1000)` shown 500 pixels wide, a drag from pixel 100 to pixel 200 sets the
window to `[200, 400)`, and a following click at pixel 0 seeks to index 200. -/
theorem drag_zoom_inverse_maps_witness :
    (onMouseUp counterEngine
      (onMouseMove (onMouseDown (zoomedSession 1000 0 1000) 0 100) 200 500) 500).tlZoomStart = 200 ∧
    (onMouseUp counterEngine
      (onMouseMove (onMouseDown (zoomedSession 1000 0 1000) 0 100) 200 500) 500).tlZoomEnd = 400 ∧
    (onMouseUp counterEngine (onMouseDown (onMouseUp counterEngine
      (onMouseMove (onMouseDown (zoomedSession 1000 0 1000) 0 100) 200 500) 500) 0 0)
        500).traceCursor = 200 := by
  have hlo : ⌊indexOfD (zoomedSession 1000 0 1000).tlZoomStart
      (zoomedSession 1000 0 1000).tlZoomEnd 500 100⌋ = 200 := by
    change ⌊indexOfD 0 1000 500 100⌋ = 200
    rw [indexOfD_spec_left]
    norm_num
  have hhi : ⌈indexOfD (zoomedSession 1000 0 1000).tlZoomStart
      (zoomedSession 1000 0 1000).tlZoomEnd 500 200⌉ = 400 := by
    change ⌈indexOfD 0 1000 500 200⌉ = 400
    rw [indexOfD_spec_right]
    norm_num
  have h := (drag_zoom_inverse_maps counterEngine (zoomedSession 1000 0 1000) 1000 500 100 200
    rfl ⟨by decide, by decide, by decide⟩ (by norm_num) (by norm_num) (by norm_num)
    (by norm_num) (by norm_num)).1 (by rw [hlo, hhi]; decide)
  rw [hlo, hhi] at h
  exact h

/-! ## Scroll-to-zoom -/

/-- The literal `1.3` as a double. -/
theorem toDouble_thirteen_tenths :
    toDouble (13 / 10) = 5854679515581645 / 4503599627370496 :=
  toDouble_eq _ _ 0 (-52) 5854679515581645 (by norm_num [abs_of_pos]) (by norm_num [abs_of_pos])
    (by decide) (by norm_num [abs_lt]) (by norm_num)

/-- The quotient `1 / 1.3` as a double. -/
theorem divD_one_thirteen_tenths :
    divD 1 (5854679515581645 / 4503599627370496) = 866076851417403 / 1125899906842624 :=
  toDouble_eq _ _ (-1) (-53) 6928614811339224 (by norm_num [abs_of_pos])
    (by norm_num [abs_of_pos]) (by decide) (by norm_num [abs_lt]) (by norm_num)

/-- Below `2 ^ 52` every half-integer is a double: rounding does not cross one
below. -/
theorem half_le_toDouble (x : ℚ) (n : Int) (hx : |x| < 2 ^ 52) (h : (n : ℚ) / 2 ≤ x) :
    (n : ℚ) / 2 ≤ toDouble x := by
  have hq : quantumExp x ≤ -1 := by
    unfold quantumExp
    by_cases h0 : x = 0
    · subst h0
      have : Int.log 2 |(0 : ℚ)| = 0 := Int.log_of_right_le_zero 2 (by simp)
      rw [this]
      decide
    · have hpos : 0 < |x| := abs_pos.mpr h0
      have hl : Int.log 2 |x| < 52 :=
        (Int.lt_zpow_iff_log_lt (by norm_num) hpos).mp (by exact_mod_cast hx)
      omega
  unfold toDouble
  rw [two_zpow_nonpos _ (quantumExp_nonpos x)]
  obtain ⟨j, hj⟩ : ∃ j : Nat, (-quantumExp x).toNat = j + 1 := ⟨(-quantumExp x).toNat - 1, by omega⟩
  rw [hj]
  set M : Int := ((2 ^ j : Nat) : Int) with hM
  have hN : (((2 ^ (j + 1) : Nat) : Int) : ℚ) = 2 * (M : ℚ) := by
    rw [hM]; push_cast; ring
  rw [hN]
  have hpos : (0 : ℚ) < (M : ℚ) := by
    have : (0 : Int) < M := by rw [hM]; positivity
    exact_mod_cast this
  have h1 : ((n * M : Int) : ℚ) ≤ x / (1 / (2 * (M : ℚ))) := by
    rw [div_div_eq_mul_div, div_one]; push_cast
    have := mul_le_mul_of_nonneg_right h (by linarith : (0 : ℚ) ≤ 2 * (M : ℚ))
    calc (n : ℚ) * M = (n : ℚ) / 2 * (2 * (M : ℚ)) := by ring
      _ ≤ _ := this
  have h2 := le_roundEven _ _ h1
  have h3 : ((n * M : Int) : ℚ) ≤ ((roundEven (x / (1 / (2 * (M : ℚ)))) : Int) : ℚ) := by
    exact_mod_cast h2
  rw [mul_one_div, le_div_iff₀ (by linarith)]
  push_cast at h3
  calc (n : ℚ) / 2 * (2 * (M : ℚ)) = (n : ℚ) * M := by ring
    _ ≤ _ := h3

/-- Zooming out: the double product `zSpan * 1.3` rounds to the same integer as
the real `zSpan * 13/10`. -/
theorem jsRound_mulD_out (z : Int) (h0 : 0 ≤ z) (h1 : z ≤ 2 ^ 32) :
    jsRound (mulD z (5854679515581645 / 4503599627370496)) = jsRound ((z : ℚ) * (13 / 10)) := by
  have hz0 : (0 : ℚ) ≤ (z : ℚ) := by exact_mod_cast h0
  have hz1 : (z : ℚ) ≤ 2 ^ 32 := by exact_mod_cast h1
  have hk1 := Int.floor_le ((z : ℚ) * (13 / 10) + 1 / 2)
  have hk2 := Int.lt_floor_add_one ((z : ℚ) * (13 / 10) + 1 / 2)
  unfold jsRound
  generalize ⌊(z : ℚ) * (13 / 10) + 1 / 2⌋ = k at hk1 hk2 ⊢
  have i1 : ((13 * z + 5 : Int) : ℚ) < ((10 * k + 10 : Int) : ℚ) := by push_cast; linarith
  have i2 : 13 * z + 5 < 10 * k + 10 := by exact_mod_cast i1
  have i3 : 13 * z + 5 ≤ 10 * k + 9 := by omega
  have i4 : ((13 * z + 5 : Int) : ℚ) ≤ ((10 * k + 9 : Int) : ℚ) := by exact_mod_cast i3
  push_cast at i4
  have hx : |(z : ℚ) * (5854679515581645 / 4503599627370496)| < 2 ^ 52 := by
    rw [abs_of_nonneg (by positivity)]
    have : (z : ℚ) * (5854679515581645 / 4503599627370496) ≤
        2 ^ 32 * (5854679515581645 / 4503599627370496) :=
      mul_le_mul_of_nonneg_right hz1 (by norm_num)
    refine lt_of_le_of_lt this ?_
    norm_num
  have lo := half_le_toDouble ((z : ℚ) * (5854679515581645 / 4503599627370496)) (2 * k - 1) hx
    (by push_cast; linarith)
  have up := toDouble_near_of_le ((z : ℚ) * (5854679515581645 / 4503599627370496)) (2 ^ 33) (by
    rw [abs_of_nonneg (by positivity)]
    have : (z : ℚ) * (5854679515581645 / 4503599627370496) ≤
        2 ^ 32 * (5854679515581645 / 4503599627370496) :=
      mul_le_mul_of_nonneg_right hz1 (by norm_num)
    refine this.trans ?_
    norm_num)
  rw [abs_le] at up
  rw [Int.floor_eq_iff]
  unfold mulD
  push_cast at lo
  constructor
  · linarith
  · linarith [up.2]

/-- Zooming in: the double product `zSpan * (1 / 1.3)` rounds to the same integer
as the real `zSpan * 10/13`. -/
theorem jsRound_mulD_in (z : Int) (h0 : 0 ≤ z) (h1 : z ≤ 2 ^ 32) :
    jsRound (mulD z (866076851417403 / 1125899906842624)) =
      jsRound ((z : ℚ) * (1 / (13 / 10))) := by
  have hz0 : (0 : ℚ) ≤ (z : ℚ) := by exact_mod_cast h0
  have hz1 : (z : ℚ) ≤ 2 ^ 32 := by exact_mod_cast h1
  have hk1 := Int.floor_le ((z : ℚ) * (1 / (13 / 10)) + 1 / 2)
  have hk2 := Int.lt_floor_add_one ((z : ℚ) * (1 / (13 / 10)) + 1 / 2)
  unfold jsRound
  generalize ⌊(z : ℚ) * (1 / (13 / 10)) + 1 / 2⌋ = k at hk1 hk2 ⊢
  have i1 : ((20 * z + 13 : Int) : ℚ) < ((26 * k + 26 : Int) : ℚ) := by push_cast; linarith
  have i2 : 20 * z + 13 < 26 * k + 26 := by exact_mod_cast i1
  have j1 : ((26 * k : Int) : ℚ) ≤ ((20 * z + 13 : Int) : ℚ) := by push_cast; linarith
  have j2 : 26 * k ≤ 20 * z + 13 := by exact_mod_cast j1
  have i3 : 20 * z + 13 ≤ 26 * k + 25 := by omega
  have j3 : 26 * k + 1 ≤ 20 * z + 13 := by omega
  have i4 : ((20 * z + 13 : Int) : ℚ) ≤ ((26 * k + 25 : Int) : ℚ) := by exact_mod_cast i3
  have j4 : ((26 * k + 1 : Int) : ℚ) ≤ ((20 * z + 13 : Int) : ℚ) := by exact_mod_cast j3
  push_cast at i4 j4
  have up := toDouble_near_of_le ((z : ℚ) * (866076851417403 / 1125899906842624)) (2 ^ 33) (by
    rw [abs_of_nonneg (by positivity)]
    have : (z : ℚ) * (866076851417403 / 1125899906842624) ≤
        2 ^ 32 * (866076851417403 / 1125899906842624) :=
      mul_le_mul_of_nonneg_right hz1 (by norm_num)
    refine this.trans ?_
    norm_num)
  rw [abs_le] at up
  rw [Int.floor_eq_iff]
  unfold mulD
  constructor
  · linarith [up.1]
  · linarith [up.2]

/-- The span the wheel listener computes in doubles is the span computed with
the exact factors, for every span from 0 to `2 ^ 32`. -/
theorem wheelSpanD_eq (len zSpan : Int) (deltaY : ℚ) (h0 : 0 ≤ zSpan) (h1 : zSpan ≤ 2 ^ 32) :
    wheelSpanD len zSpan deltaY = wheelSpan len zSpan deltaY := by
  unfold wheelSpanD wheelSpan zoomFactorD zoomFactor
  rw [toDouble_thirteen_tenths, divD_one_thirteen_tenths]
  by_cases hd : deltaY > 0
  · rw [if_pos hd, if_pos hd, jsRound_mulD_out zSpan h0 h1]
  · rw [if_neg hd, if_neg hd, jsRound_mulD_in zSpan h0 h1]

/-- The span read by the wheel listener lies between 0 and the trace length, so
on a trace of at most `2 ^ 32` entries the span it computes in doubles is
`wheelSpan`. -/
theorem wheelSpan_is_double {ε : Type} (E : Engine ε) (s : UI ε) (emu : ε) (deltaY : ℚ)
    (hemu : s.emulator = some emu) (hlen : 1 ≤ E.get_trace_length emu)
    (hmax : E.get_trace_length emu ≤ 2 ^ 32) (h0 : 0 ≤ s.tlZoomStart) :
    wheelSpanD (E.get_trace_length emu) (getZoomEnd E s - getZoomStart E s) deltaY =
      wheelSpan (E.get_trace_length emu) (getZoomEnd E s - getZoomStart E s) deltaY := by
  obtain ⟨v0, v1, v2⟩ := readWindow_valid E s emu hemu hlen h0
  have hL : ((E.get_trace_length emu : Nat) : Int) ≤ 2 ^ 32 := by exact_mod_cast hmax
  exact wheelSpanD_eq _ _ deltaY (by omega) (by omega)

/-- The wheel listener's `center` over a stored window that is read back as it
is: the inverse mapping of the pointer's pixel, in doubles. -/
theorem wheelCenter_of_stored {ε : Type} (E : Engine ε) (s : UI ε) (emu : ε) (x w : ℚ)
    (hemu : s.emulator = some emu) (h1 : s.tlZoomStart < s.tlZoomEnd)
    (h2 : s.tlZoomEnd ≤ E.get_trace_length emu) :
    wheelCenter E s x w = indexOfD s.tlZoomStart s.tlZoomEnd w x := by
  obtain ⟨e1, e2⟩ := getZoom_of_stored E s emu hemu h1 h2
  unfold wheelCenter indexOfD
  simp only [e1, e2]

/-- The wheel listener's first `newStart` over a stored window that is read back
as it is. -/
theorem wheelStart_of_stored {ε : Type} (E : Engine ε) (s : UI ε) (emu : ε) (len : Int)
    (x w deltaY : ℚ) (hemu : s.emulator = some emu) (h1 : s.tlZoomStart < s.tlZoomEnd)
    (h2 : s.tlZoomEnd ≤ E.get_trace_length emu) :
    wheelStart E s len x w deltaY =
      jsRound (subD (indexOfD s.tlZoomStart s.tlZoomEnd w x)
        (mulD (divD x w) ((wheelSpan len (s.tlZoomEnd - s.tlZoomStart) deltaY : Int) : ℚ))) := by
  obtain ⟨e1, e2⟩ := getZoom_of_stored E s emu hemu h1 h2
  unfold wheelStart wheelCenter indexOfD
  simp only [e1, e2]

/-- The window the `wheel` listener stores on a trace of at least 10 entries:
the re-centred window, shifted into the trace with its span kept. -/
theorem onWheel_long_trace {ε : Type} (E : Engine ε) (s : UI ε) (emu : ε) (x w deltaY : ℚ)
    (hemu : s.emulator = some emu) (hlen : 10 ≤ E.get_trace_length emu) :
    (onWheel E s x w deltaY).tlZoomStart =
      max 0 (min (wheelStart E s (E.get_trace_length emu) x w deltaY)
        ((E.get_trace_length emu : Int) -
          wheelSpan (E.get_trace_length emu) (getZoomEnd E s - getZoomStart E s) deltaY)) ∧
    (onWheel E s x w deltaY).tlZoomEnd =
      (onWheel E s x w deltaY).tlZoomStart +
        wheelSpan (E.get_trace_length emu) (getZoomEnd E s - getZoomStart E s) deltaY := by
  have hle := wheelSpan_le (E.get_trace_length emu) (getZoomEnd E s - getZoomStart E s) deltaY
    (by omega)
  obtain ⟨e1, e2⟩ := clampToBounds_spec (E.get_trace_length emu)
    (wheelStart E s (E.get_trace_length emu) x w deltaY)
    (wheelSpan (E.get_trace_length emu) (getZoomEnd E s - getZoomStart E s) deltaY)
  rw [min_eq_right hle] at e1 e2
  rw [onWheel_eq E s emu x w deltaY hemu (by omega)]
  exact ⟨e1, e2⟩

/-- The window the `wheel` listener stores on a trace of fewer than 10 entries:
the full range. -/
theorem onWheel_short_trace {ε : Type} (E : Engine ε) (s : UI ε) (emu : ε) (x w deltaY : ℚ)
    (hemu : s.emulator = some emu) (hlen : 1 ≤ E.get_trace_length emu)
    (hshort : E.get_trace_length emu < 10) :
    (onWheel E s x w deltaY).tlZoomStart = 0 ∧
    (onWheel E s x w deltaY).tlZoomEnd = E.get_trace_length emu := by
  have hge := wheelSpan_ge (E.get_trace_length emu) (getZoomEnd E s - getZoomStart E s) deltaY
  obtain ⟨e1, e2⟩ := clampToBounds_spec (E.get_trace_length emu)
    (wheelStart E s (E.get_trace_length emu) x w deltaY)
    (wheelSpan (E.get_trace_length emu) (getZoomEnd E s - getZoomStart E s) deltaY)
  rw [onWheel_eq E s emu x w deltaY hemu hlen]
  simp only
  rw [e2, e1]
  omega

/-- C9 as stated fails on a short trace.  On a trace of 5 entries with the
window `[0, 5)`, a zoom-in at pixel 0 computes the span
`max(10, min(5, round(5 / 1.3))) = 10` and the re-centred window `[0, 10)`; it
runs off the right edge and the window stored is `[0, 5)`: its span 5 is neither
the computed span nor at least 10, the window was cut down and not shifted. -/
theorem wheel_span_short_trace_counterexample :
    wheelSpan 5 (getZoomEnd counterEngine (zoomedSession 5 0 5) -
      getZoomStart counterEngine (zoomedSession 5 0 5)) (-1) = 10 ∧
    wheelStart counterEngine (zoomedSession 5 0 5) 5 0 100 (-1) = 0 ∧
    (onWheel counterEngine (zoomedSession 5 0 5) 0 100 (-1)).tlZoomStart = 0 ∧
    (onWheel counterEngine (zoomedSession 5 0 5) 0 100 (-1)).tlZoomEnd = 5 ∧
    ¬ (10 ≤ (onWheel counterEngine (zoomedSession 5 0 5) 0 100 (-1)).tlZoomEnd -
        (onWheel counterEngine (zoomedSession 5 0 5) 0 100 (-1)).tlZoomStart) := by
  have hz := getZoom_of_stored counterEngine (zoomedSession 5 0 5) 5 rfl (by decide) (by decide)
  have hr : jsRound (((5 : Int) : ℚ) * zoomFactor (-1)) = 4 := by
    unfold jsRound zoomFactor
    rw [Int.floor_eq_iff]
    norm_num
  have hsp : wheelSpan 5 (getZoomEnd counterEngine (zoomedSession 5 0 5) -
      getZoomStart counterEngine (zoomedSession 5 0 5)) (-1) = 10 := by
    rw [hz.1, hz.2]
    unfold wheelSpan
    change max 10 (min 5 (jsRound (((5 : Int) : ℚ) * zoomFactor (-1)))) = 10
    rw [hr]
    decide
  obtain ⟨e1, e2⟩ := onWheel_short_trace counterEngine (zoomedSession 5 0 5) 5 0 100 (-1) rfl
    (by decide) (by decide)
  refine ⟨hsp, ?_, e1, e2, ?_⟩
  · rw [wheelStart_of_stored counterEngine (zoomedSession 5 0 5) 5 5 0 100 (-1) rfl (by decide)
      (by decide), indexOfD_zero]
    unfold subD mulD divD
    rw [zero_div, toDouble_zero, zero_mul, toDouble_zero, sub_zero, toDouble_intCast]
    norm_num [jsRound, zoomedSession, liveSession]
  · rw [e1, e2]
    decide

/-- C9, amended: after a scroll-to-zoom on a trace of length `len ≥ 1` the
window stays within `[0, len]`.  The span computed is the old span times the
factor (13/10 to zoom out, 10/13 to zoom in), rounded, then `max(10, min(len, ·))`.
For `len ≥ 10` the stored window has exactly that span, and when the re-centred
window `[r, r + span)` runs off an edge it is shifted back inside with the span
kept: to `[0, span)` when `r < 0`, to `[len - span, len)` when `r + span > len`,
and it is `[r, r + span)` otherwise.  For `len < 10` the computed span is 10,
longer than the trace, and the stored window is the full range `[0, len)`. -/
theorem wheel_zoom_span {ε : Type} (E : Engine ε) (s : UI ε) (emu : ε) (x w deltaY : ℚ)
    (hemu : s.emulator = some emu) (hlen : 1 ≤ E.get_trace_length emu) (_hw : 0 < w) :
    wheelSpan (E.get_trace_length emu) (getZoomEnd E s - getZoomStart E s) deltaY =
      max 10 (min (E.get_trace_length emu : Int)
        ⌊((getZoomEnd E s - getZoomStart E s : Int) : ℚ) *
          (if 0 < deltaY then 13 / 10 else 10 / 13) + 1 / 2⌋) ∧
    (0 ≤ (onWheel E s x w deltaY).tlZoomStart ∧
      (onWheel E s x w deltaY).tlZoomEnd ≤ E.get_trace_length emu) ∧
    (10 ≤ E.get_trace_length emu →
      (onWheel E s x w deltaY).tlZoomEnd - (onWheel E s x w deltaY).tlZoomStart =
        wheelSpan (E.get_trace_length emu) (getZoomEnd E s - getZoomStart E s) deltaY ∧
      (wheelStart E s (E.get_trace_length emu) x w deltaY < 0 →
        (onWheel E s x w deltaY).tlZoomStart = 0) ∧
      ((E.get_trace_length emu : Int) < wheelStart E s (E.get_trace_length emu) x w deltaY +
          wheelSpan (E.get_trace_length emu) (getZoomEnd E s - getZoomStart E s) deltaY →
        (onWheel E s x w deltaY).tlZoomEnd = E.get_trace_length emu) ∧
      (0 ≤ wheelStart E s (E.get_trace_length emu) x w deltaY →
        wheelStart E s (E.get_trace_length emu) x w deltaY +
          wheelSpan (E.get_trace_length emu) (getZoomEnd E s - getZoomStart E s) deltaY ≤
            E.get_trace_length emu →
        (onWheel E s x w deltaY).tlZoomStart =
          wheelStart E s (E.get_trace_length emu) x w deltaY)) ∧
    (E.get_trace_length emu < 10 →
      (onWheel E s x w deltaY).tlZoomStart = 0 ∧
      (onWheel E s x w deltaY).tlZoomEnd = E.get_trace_length emu) := by
  refine ⟨?_, ?_, ?_, ?_⟩
  · unfold wheelSpan jsRound zoomFactor
    by_cases hd : 0 < deltaY
    · simp only [gt_iff_lt, hd, if_true]
    · simp only [gt_iff_lt, hd, if_false]
      norm_num
  · by_cases h10 : 10 ≤ E.get_trace_length emu
    · obtain ⟨e1, e2⟩ := onWheel_long_trace E s emu x w deltaY hemu h10
      have hle := wheelSpan_le (E.get_trace_length emu) (getZoomEnd E s - getZoomStart E s)
        deltaY (by omega)
      have hge := wheelSpan_ge (E.get_trace_length emu) (getZoomEnd E s - getZoomStart E s)
        deltaY
      rw [e2, e1]
      omega
    · obtain ⟨e1, e2⟩ := onWheel_short_trace E s emu x w deltaY hemu hlen (by omega)
      rw [e1, e2]
      omega
  · intro h10
    obtain ⟨e1, e2⟩ := onWheel_long_trace E s emu x w deltaY hemu h10
    have hle := wheelSpan_le (E.get_trace_length emu) (getZoomEnd E s - getZoomStart E s)
      deltaY (by omega)
    have hge := wheelSpan_ge (E.get_trace_length emu) (getZoomEnd E s - getZoomStart E s)
      deltaY
    refine ⟨by omega, fun h => ?_, fun h => ?_, fun h h' => ?_⟩
    · rw [e1]; omega
    · rw [e2, e1]; omega
    · rw [e1]; omega
  · intro hshort
    exact onWheel_short_trace E s emu x w deltaY hemu hlen hshort

/-- Instance of C9: on a trace of 1000 entries with the window `[0, 1000)` shown
500 pixels wide, a zoom-in at pixel 250 stores a window of span
`round(1000 / 1.3) = 769`, and a zoom-out leaves the full range. -/
theorem wheel_zoom_span_witness :
    (onWheel counterEngine (zoomedSession 1000 0 1000) 250 500 (-1)).tlZoomEnd -
      (onWheel counterEngine (zoomedSession 1000 0 1000) 250 500 (-1)).tlZoomStart = 769 ∧
    (onWheel counterEngine (zoomedSession 1000 0 1000) 250 500 1).tlZoomEnd -
      (onWheel counterEngine (zoomedSession 1000 0 1000) 250 500 1).tlZoomStart = 1000 := by
  have hz := getZoom_of_stored counterEngine (zoomedSession 1000 0 1000) 1000 rfl
    (by decide) (by decide)
  have hin := wheel_zoom_span counterEngine (zoomedSession 1000 0 1000) 1000 250 500 (-1) rfl
    (by decide) (by norm_num)
  have hout := wheel_zoom_span counterEngine (zoomedSession 1000 0 1000) 1000 250 500 1 rfl
    (by decide) (by norm_num)
  have f1 : ⌊((getZoomEnd counterEngine (zoomedSession 1000 0 1000) -
      getZoomStart counterEngine (zoomedSession 1000 0 1000) : Int) : ℚ) *
        (if (0 : ℚ) < -1 then 13 / 10 else 10 / 13) + 1 / 2⌋ = 769 := by
    rw [hz.1, hz.2, Int.floor_eq_iff]
    norm_num [zoomedSession, liveSession]
  have f2 : ⌊((getZoomEnd counterEngine (zoomedSession 1000 0 1000) -
      getZoomStart counterEngine (zoomedSession 1000 0 1000) : Int) : ℚ) *
        (if (0 : ℚ) < 1 then 13 / 10 else 10 / 13) + 1 / 2⌋ = 1300 := by
    rw [hz.1, hz.2, Int.floor_eq_iff]
    norm_num [zoomedSession, liveSession]
  constructor
  · rw [(hin.2.2.1 (by decide)).1, hin.1, f1]
    decide
  · rw [(hout.2.2.1 (by decide)).1, hout.1, f2]
    decide

/-! ## Scroll-zoom anchoring -/

/-- C8 as stated fails where the window is shifted at an edge.  On a trace of
100 entries with the window `[0, 50)` shown 100 pixels wide, a zoom-out with the
pointer at pixel 50 has trace position 25 under the pointer; the re-centred
window `[-7, 58)` is shifted to `[0, 65)`, under which position 25 is at pixel
`500/13`, more than 11 columns away from pixel 50.  Every intermediate value is
a double here, so no rounding is involved. -/
theorem scroll_anchor_counterexample :
    wheelCenter counterEngine (zoomedSession 100 0 50) 50 100 = 25 ∧
    wheelStart counterEngine (zoomedSession 100 0 50) 100 50 100 1 = -7 ∧
    (onWheel counterEngine (zoomedSession 100 0 50) 50 100 1).tlZoomStart = 0 ∧
    (onWheel counterEngine (zoomedSession 100 0 50) 50 100 1).tlZoomEnd = 65 ∧
    ¬ ScrollAnchored counterEngine (zoomedSession 100 0 50) 50 100 1 := by
  have hz := getZoom_of_stored counterEngine (zoomedSession 100 0 50) 100 rfl
    (by decide) (by decide)
  have hc : wheelCenter counterEngine (zoomedSession 100 0 50) 50 100 = 25 := by
    rw [wheelCenter_of_stored counterEngine (zoomedSession 100 0 50) 100 50 100 rfl (by decide)
      (by decide)]
    exact indexOfD_half_of_50
  have hsp : wheelSpan 100 (getZoomEnd counterEngine (zoomedSession 100 0 50) -
      getZoomStart counterEngine (zoomedSession 100 0 50)) 1 = 65 := by
    rw [hz.1, hz.2]
    have hr : jsRound (((50 : Int) : ℚ) * zoomFactor 1) = 65 := by
      unfold jsRound zoomFactor
      rw [Int.floor_eq_iff]
      norm_num
    unfold wheelSpan
    change max 10 (min 100 (jsRound (((50 : Int) : ℚ) * zoomFactor 1))) = 65
    rw [hr]
    decide
  have hst : wheelStart counterEngine (zoomedSession 100 0 50) 100 50 100 1 = -7 := by
    rw [wheelStart_of_stored counterEngine (zoomedSession 100 0 50) 100 100 50 100 1 rfl
      (by decide) (by decide)]
    rw [hz.1, hz.2] at hsp
    rw [hsp]
    change jsRound (subD (indexOfD 0 50 100 50) (mulD (divD 50 100) ((65 : Int) : ℚ))) = -7
    rw [wheel_recentre_half_of_50]
    unfold jsRound
    rw [Int.floor_eq_iff]
    norm_num
  obtain ⟨e1, e2⟩ := onWheel_long_trace counterEngine (zoomedSession 100 0 50) 100 50 100 1 rfl
    (by decide)
  change _ = max 0 (min (wheelStart counterEngine (zoomedSession 100 0 50) 100 50 100 1)
    (100 - wheelSpan 100 (getZoomEnd counterEngine (zoomedSession 100 0 50) -
      getZoomStart counterEngine (zoomedSession 100 0 50)) 1)) at e1
  change _ = _ + wheelSpan 100 (getZoomEnd counterEngine (zoomedSession 100 0 50) -
      getZoomStart counterEngine (zoomedSession 100 0 50)) 1 at e2
  rw [hst, hsp] at e1
  rw [hsp] at e2
  have e1' : (onWheel counterEngine (zoomedSession 100 0 50) 50 100 1).tlZoomStart = 0 :=
    e1.trans (by decide)
  have e2' : (onWheel counterEngine (zoomedSession 100 0 50) 50 100 1).tlZoomEnd = 65 := by
    rw [e2, e1']; decide
  refine ⟨hc, hst, e1', e2', ?_⟩
  unfold ScrollAnchored
  rw [e1', e2', hz.1, hz.2]
  norm_num [pixelOf, indexOf, zoomedSession, liveSession, abs_le]

/-- On a non-empty trace the window read through the getters is never empty,
whatever is stored. -/
theorem readWindow_span_pos {ε : Type} (E : Engine ε) (s : UI ε) (emu : ε)
    (hemu : s.emulator = some emu) (hlen : 1 ≤ E.get_trace_length emu) :
    getZoomStart E s < getZoomEnd E s := by
  unfold getZoomStart getZoomEnd
  simp only [hemu]
  split_ifs with hc
  · exact hc.1
  · omega

/-- The trace position under the pointer, by the inverse mapping, is the one
drawn at the pointer's pixel before the event. -/
theorem pixelOf_indexOf (zs ze : Int) (x w : ℚ) (hspan : zs < ze) (hw : 0 < w) :
    pixelOf zs ze w (indexOf zs ze w x) = x := by
  have hD : ((ze : ℚ) - zs) ≠ 0 := by
    have : ((zs : Int) : ℚ) < ze := by exact_mod_cast hspan
    linarith
  have hw' : w ≠ 0 := hw.ne'
  unfold pixelOf indexOf
  push_cast
  field_simp
  ring

/-- Rounding to the nearest integer moves a rational by at most one half. -/
theorem jsRound_near (y : ℚ) : |y - jsRound y| ≤ 1 / 2 := by
  unfold jsRound
  have h1 := Int.floor_le (y + 1 / 2)
  have h2 := Int.lt_floor_add_one (y + 1 / 2)
  rw [abs_le]
  constructor <;> linarith

/-- The error of the re-centred start, from the errors of its steps. -/
theorem recentre_chain (r d c h i f q n a b k : ℚ) (h1 : |d - r| ≤ 1 / 2)
    (h2 : |d - (c - h)| ≤ a) (h3 : |c - i| ≤ b) (h4 : |h - f * n| ≤ a)
    (h5 : |(f - q) * n| ≤ k) :
    |r - (i - q * n)| ≤ 1 / 2 + 2 * a + k + b := by
  rw [abs_le] at h1 h2 h3 h4 h5 ⊢
  constructor <;> linarith [h1.1, h1.2, h2.1, h2.2, h3.1, h3.2, h4.1, h4.2, h5.1, h5.2]

/-- On a trace of at most `2 ^ 32` entries, with the pointer inside the display
and a new span no longer than the trace, the start the wheel listener rounds to
is within `1/2 + 2 ^ (-18)` of the real `center - fraction * newSpan`. -/
theorem wheelStart_near {ε : Type} (E : Engine ε) (s : UI ε) (emu : ε) (x w deltaY : ℚ)
    (hemu : s.emulator = some emu) (hlen : 1 ≤ E.get_trace_length emu)
    (hmax : E.get_trace_length emu ≤ 2 ^ 32) (h0 : 0 ≤ s.tlZoomStart)
    (hw : 0 < w) (hx0 : 0 ≤ x) (hxw : x ≤ w)
    (hN : wheelSpan (E.get_trace_length emu) (getZoomEnd E s - getZoomStart E s) deltaY ≤
      E.get_trace_length emu) :
    |(wheelStart E s (E.get_trace_length emu) x w deltaY : ℚ) -
      (indexOf (getZoomStart E s) (getZoomEnd E s) w x - x / w *
        (wheelSpan (E.get_trace_length emu) (getZoomEnd E s - getZoomStart E s) deltaY : ℚ))| ≤
      1 / 2 + 1 / 2 ^ 18 := by
  obtain ⟨v0, v1, v2⟩ := readWindow_valid E s emu hemu hlen h0
  have hge := wheelSpan_ge (E.get_trace_length emu) (getZoomEnd E s - getZoomStart E s) deltaY
  have hL : ((E.get_trace_length emu : Nat) : Int) ≤ 2 ^ 32 := by exact_mod_cast hmax
  have hws : wheelStart E s (E.get_trace_length emu) x w deltaY =
      jsRound (subD (indexOfD (getZoomStart E s) (getZoomEnd E s) w x)
        (mulD (divD x w) ((wheelSpan (E.get_trace_length emu)
          (getZoomEnd E s - getZoomStart E s) deltaY : Int) : ℚ))) := rfl
  rw [hws]
  generalize wheelSpan (E.get_trace_length emu) (getZoomEnd E s - getZoomStart E s) deltaY = N
    at hN hge ⊢
  generalize getZoomStart E s = zs at v0 v1 v2 ⊢
  generalize getZoomEnd E s = ze at v1 v2 ⊢
  have hze : ze ≤ 2 ^ 32 := by omega
  obtain ⟨c0, c1⟩ := indexOfD_mem zs ze w x v1.le hw hx0 hxw
  have cn := indexOfD_near zs ze w x v0 v1.le hze hw hx0 hxw
  obtain ⟨f0, f1⟩ := divD_unit x w hw hx0 hxw
  obtain ⟨g0, g1⟩ := mulD_unit (divD x w) N f0 f1 (by omega)
  have hzs' : (0 : ℚ) ≤ (zs : ℚ) := by exact_mod_cast v0
  have hze' : (ze : ℚ) ≤ 2 ^ 32 := by exact_mod_cast hze
  have hN0 : (0 : ℚ) ≤ (N : ℚ) := by
    have : (0 : Int) ≤ N := by omega
    exact_mod_cast this
  have hN1 : (N : ℚ) ≤ 2 ^ 32 := by
    have : N ≤ 2 ^ 32 := by omega
    exact_mod_cast this
  have r0 : 0 ≤ x / w := div_nonneg hx0 hw.le
  have r1 : x / w ≤ 1 := (div_le_one hw).2 hxw
  have e1 : |divD x w - x / w| ≤ 1 / 2 ^ 53 + 1 / 2 ^ 60 :=
    toDouble_near_of_le (x / w) 1 (by rw [abs_of_nonneg r0]; exact r1)
  have e2 : |mulD (divD x w) (N : ℚ) - divD x w * (N : ℚ)| ≤ 2 ^ 32 / 2 ^ 53 + 1 / 2 ^ 60 :=
    toDouble_near_of_le (divD x w * (N : ℚ)) (2 ^ 32) (by
      rw [abs_of_nonneg (mul_nonneg f0 hN0)]
      exact (mul_le_of_le_one_left hN0 f1).trans hN1)
  have e3 : |subD (indexOfD zs ze w x) (mulD (divD x w) (N : ℚ)) -
      (indexOfD zs ze w x - mulD (divD x w) (N : ℚ))| ≤ 2 ^ 32 / 2 ^ 53 + 1 / 2 ^ 60 :=
    toDouble_near_of_le (indexOfD zs ze w x - mulD (divD x w) (N : ℚ)) (2 ^ 32) (by
      rw [abs_le]
      constructor <;> linarith)
  have e4 : |(divD x w - x / w) * (N : ℚ)| ≤ (1 / 2 ^ 53 + 1 / 2 ^ 60) * 2 ^ 32 := by
    rw [abs_mul, abs_of_nonneg hN0]
    exact mul_le_mul e1 hN1 hN0 (by positivity)
  have jr := jsRound_near (subD (indexOfD zs ze w x) (mulD (divD x w) (N : ℚ)))
  have hch := recentre_chain
    ((jsRound (subD (indexOfD zs ze w x) (mulD (divD x w) (N : ℚ))) : Int) : ℚ)
    (subD (indexOfD zs ze w x) (mulD (divD x w) (N : ℚ)))
    (indexOfD zs ze w x) (mulD (divD x w) (N : ℚ)) (indexOf zs ze w x) (divD x w) (x / w) (N : ℚ)
    (2 ^ 32 / 2 ^ 53 + 1 / 2 ^ 60) (1 / 2 ^ 19) ((1 / 2 ^ 53 + 1 / 2 ^ 60) * 2 ^ 32)
    jr e3 cn e2 e4
  refine hch.trans ?_
  norm_num

/-- The wheel listener rounds in doubles: on a trace of 1000 entries with the
window `[10, 75)` shown 800 pixels wide, a zoom-out at pixel 220 (new span 85)
computes `27.875 - 0.275 * 85` as `4.4999999999999964` and starts the re-centred
window at 4, while the real value `4.5` rounds to 5. -/
theorem wheelStart_rounding_example :
    wheelSpan 1000 (getZoomEnd counterEngine (zoomedSession 1000 10 75) -
      getZoomStart counterEngine (zoomedSession 1000 10 75)) 1 = 85 ∧
    wheelStart counterEngine (zoomedSession 1000 10 75) 1000 220 800 1 = 4 ∧
    jsRound (indexOf 10 75 800 220 - 220 / 800 * 85) = 5 := by
  have hz := getZoom_of_stored counterEngine (zoomedSession 1000 10 75) 1000 rfl
    (by decide) (by decide)
  have hsp : wheelSpan 1000 (getZoomEnd counterEngine (zoomedSession 1000 10 75) -
      getZoomStart counterEngine (zoomedSession 1000 10 75)) 1 = 85 := by
    rw [hz.1, hz.2]
    have hr : jsRound (((65 : Int) : ℚ) * zoomFactor 1) = 85 := by
      unfold jsRound zoomFactor
      rw [Int.floor_eq_iff]
      norm_num
    unfold wheelSpan
    change max 10 (min 1000 (jsRound (((65 : Int) : ℚ) * zoomFactor 1))) = 85
    rw [hr]
    decide
  refine ⟨hsp, ?_, ?_⟩
  · rw [wheelStart_of_stored counterEngine (zoomedSession 1000 10 75) 1000 1000 220 800 1 rfl
      (by decide) (by decide)]
    rw [hz.1, hz.2] at hsp
    rw [hsp]
    change jsRound (subD (indexOfD 10 75 800 220) (mulD (divD 220 800) ((85 : Int) : ℚ))) = 4
    rw [wheel_recentre_220_of_800]
    unfold jsRound
    rw [Int.floor_eq_iff]
    norm_num
  · unfold jsRound indexOf
    rw [Int.floor_eq_iff]
    norm_num

/-- C8, amended: on a trace of at most `2 ^ 32` entries, with the pointer inside
the display, when the re-centred window needs no shift at either edge (`0 ≤ r`
and `r + span ≤ len` for the rounded start `r` and the new span), the trace
position under the pointer before a scroll-zoom maps, under the window stored
after it, to a pixel within `(1/2 + 2 ^ (-18))·w / span` of its pixel before the
event: half the width one trace entry then has on screen, for the rounding of
the start to a whole index, and a margin for the rounding of the double
arithmetic.  This is within one column whenever the new span is at least
`(1/2 + 2 ^ (-18))·w`. -/
theorem scroll_anchor_unshifted {ε : Type} (E : Engine ε) (s : UI ε) (emu : ε) (x w deltaY : ℚ)
    (hemu : s.emulator = some emu) (hlen : 1 ≤ E.get_trace_length emu)
    (hmax : E.get_trace_length emu ≤ 2 ^ 32) (h0 : 0 ≤ s.tlZoomStart)
    (hw : 0 < w) (hx0 : 0 ≤ x) (hxw : x ≤ w)
    (hlo : 0 ≤ wheelStart E s (E.get_trace_length emu) x w deltaY)
    (hhi : wheelStart E s (E.get_trace_length emu) x w deltaY +
      wheelSpan (E.get_trace_length emu) (getZoomEnd E s - getZoomStart E s) deltaY ≤
        E.get_trace_length emu) :
    pixelOf (getZoomStart E s) (getZoomEnd E s) w
      (indexOf (getZoomStart E s) (getZoomEnd E s) w x) = x ∧
    |pixelOf (onWheel E s x w deltaY).tlZoomStart (onWheel E s x w deltaY).tlZoomEnd w
        (indexOf (getZoomStart E s) (getZoomEnd E s) w x) -
      pixelOf (getZoomStart E s) (getZoomEnd E s) w
        (indexOf (getZoomStart E s) (getZoomEnd E s) w x)| ≤
      (1 / 2 + 1 / 2 ^ 18) * (w / (wheelSpan (E.get_trace_length emu)
        (getZoomEnd E s - getZoomStart E s) deltaY : ℚ)) ∧
    ((1 / 2 + 1 / 2 ^ 18) * w ≤ (wheelSpan (E.get_trace_length emu)
        (getZoomEnd E s - getZoomStart E s) deltaY : ℚ) → ScrollAnchored E s x w deltaY) := by
  have hpre := pixelOf_indexOf (getZoomStart E s) (getZoomEnd E s) x w
    (readWindow_span_pos E s emu hemu hlen) hw
  have hge := wheelSpan_ge (E.get_trace_length emu) (getZoomEnd E s - getZoomStart E s) deltaY
  obtain ⟨e1, e2⟩ := onWheel_long_trace E s emu x w deltaY hemu (by omega)
  have es : (onWheel E s x w deltaY).tlZoomStart =
      wheelStart E s (E.get_trace_length emu) x w deltaY := by rw [e1]; omega
  have hnear := wheelStart_near E s emu x w deltaY hemu hlen hmax h0 hw hx0 hxw (by omega)
  have hN : (0 : ℚ) < (wheelSpan (E.get_trace_length emu) (getZoomEnd E s - getZoomStart E s)
      deltaY : ℚ) := by
    have : (0 : Int) < wheelSpan (E.get_trace_length emu) (getZoomEnd E s - getZoomStart E s)
      deltaY := by omega
    exact_mod_cast this
  have hbound : |pixelOf (onWheel E s x w deltaY).tlZoomStart (onWheel E s x w deltaY).tlZoomEnd w
        (indexOf (getZoomStart E s) (getZoomEnd E s) w x) -
      pixelOf (getZoomStart E s) (getZoomEnd E s) w
        (indexOf (getZoomStart E s) (getZoomEnd E s) w x)| ≤
      (1 / 2 + 1 / 2 ^ 18) * (w / (wheelSpan (E.get_trace_length emu)
        (getZoomEnd E s - getZoomStart E s) deltaY : ℚ)) := by
    rw [hpre, e2, es]
    generalize wheelSpan (E.get_trace_length emu) (getZoomEnd E s - getZoomStart E s) deltaY = N
      at hN hnear ⊢
    generalize wheelStart E s (E.get_trace_length emu) x w deltaY = r at hnear ⊢
    generalize indexOf (getZoomStart E s) (getZoomEnd E s) w x = c at hnear ⊢
    have hw' : w ≠ 0 := hw.ne'
    have hN' : (N : ℚ) ≠ 0 := hN.ne'
    have key : pixelOf r (r + N) w c - x = -((r : ℚ) - (c - x / w * (N : ℚ))) * (w / N) := by
      unfold pixelOf
      push_cast
      field_simp
      ring
    rw [key, abs_mul, abs_neg, abs_of_pos (div_pos hw hN)]
    exact mul_le_mul_of_nonneg_right hnear (div_pos hw hN).le
  refine ⟨hpre, hbound, fun hcol => ?_⟩
  unfold ScrollAnchored
  refine hbound.trans ?_
  rw [← mul_div_assoc, div_le_one hN]
  exact hcol

/-- Instance of C8, amended: on a trace of 1000 entries with the window
`[0, 1000)` shown 500 pixels wide, a zoom-in at pixel 250 re-centres to
`[116, 885)` without a shift, and position 500 stays within one column of
pixel 250. -/
theorem scroll_anchor_unshifted_witness :
    wheelStart counterEngine (zoomedSession 1000 0 1000) 1000 250 500 (-1) = 116 ∧
    wheelSpan 1000 (getZoomEnd counterEngine (zoomedSession 1000 0 1000) -
      getZoomStart counterEngine (zoomedSession 1000 0 1000)) (-1) = 769 ∧
    ScrollAnchored counterEngine (zoomedSession 1000 0 1000) 250 500 (-1) := by
  have hz := getZoom_of_stored counterEngine (zoomedSession 1000 0 1000) 1000 rfl
    (by decide) (by decide)
  have hsp : wheelSpan 1000 (getZoomEnd counterEngine (zoomedSession 1000 0 1000) -
      getZoomStart counterEngine (zoomedSession 1000 0 1000)) (-1) = 769 := by
    rw [hz.1, hz.2]
    have hr : jsRound (((1000 : Int) : ℚ) * zoomFactor (-1)) = 769 := by
      unfold jsRound zoomFactor
      rw [Int.floor_eq_iff]
      norm_num
    unfold wheelSpan
    change max 10 (min 1000 (jsRound (((1000 : Int) : ℚ) * zoomFactor (-1)))) = 769
    rw [hr]
    decide
  have hst : wheelStart counterEngine (zoomedSession 1000 0 1000) 1000 250 500 (-1) = 116 := by
    rw [wheelStart_of_stored counterEngine (zoomedSession 1000 0 1000) 1000 1000 250 500 (-1) rfl
      (by decide) (by decide)]
    have hsp' := hsp
    rw [hz.1, hz.2] at hsp'
    rw [hsp']
    change jsRound (subD (indexOfD 0 1000 500 250) (mulD (divD 250 500) ((769 : Int) : ℚ))) = 116
    rw [wheel_recentre_half_of_1000]
    unfold jsRound
    rw [Int.floor_eq_iff]
    norm_num
  refine ⟨hst, hsp, ?_⟩
  refine (scroll_anchor_unshifted counterEngine (zoomedSession 1000 0 1000) 1000 250 500 (-1) rfl
    (by decide) (by decide) (by decide) (by norm_num) (by norm_num) (by norm_num) ?_ ?_).2.2 ?_
  · change 0 ≤ wheelStart counterEngine (zoomedSession 1000 0 1000) 1000 250 500 (-1)
    rw [hst]
    decide
  · change wheelStart counterEngine (zoomedSession 1000 0 1000) 1000 250 500 (-1) +
      wheelSpan 1000 (getZoomEnd counterEngine (zoomedSession 1000 0 1000) -
        getZoomStart counterEngine (zoomedSession 1000 0 1000)) (-1) ≤ 1000
    rw [hst, hsp]
    decide
  · change (1 / 2 + 1 / 2 ^ 18) * (500 : ℚ) ≤
      ((wheelSpan 1000 (getZoomEnd counterEngine (zoomedSession 1000 0 1000) -
        getZoomStart counterEngine (zoomedSession 1000 0 1000)) (-1) : Int) : ℚ)
    rw [hsp]
    norm_num

/-! ## Stale window end after trace growth -/

/-- C11 as stated fails when the trace grows by more than one entry.  In live
mode with recording on, a stored full range `[0, 10)` and a trace grown to 20
entries: `updateFullUI` leaves `tlZoomEnd = 10` (it is neither `≤ 0` nor
`≥ 19`), and the window read afterwards is `[0, 10)`, not `[0, 20)`. -/
theorem stale_end_counterexample :
    (zoomedSession 20 0 10).traceMode = false ∧ (zoomedSession 20 0 10).traceToggle = true ∧
    (updateFullUI counterEngine (zoomedSession 20 0 10)).tlZoomEnd = 10 ∧
    getZoomStart counterEngine (updateFullUI counterEngine (zoomedSession 20 0 10)) = 0 ∧
    getZoomEnd counterEngine (updateFullUI counterEngine (zoomedSession 20 0 10)) = 10 ∧
    getZoomEnd counterEngine (updateFullUI counterEngine (zoomedSession 20 0 10)) ≠
      (counterEngine.get_trace_length 20 : Int) := by
  decide

/-- The window `updateFullUI` leaves in live mode with recording on, for a
non-empty trace. -/
theorem updateFullUI_live_zoom {ε : Type} (E : Engine ε) (s : UI ε) (emu : ε)
    (hemu : s.emulator = some emu) (hlive : s.traceMode = false) (htog : s.traceToggle = true)
    (hlen : 1 ≤ E.get_trace_length emu) :
    updateFullUI E s =
      if s.tlZoomEnd ≤ 0 ∨ s.tlZoomEnd ≥ (E.get_trace_length emu : Int) - 1 then
        { s with tlZoomEnd := E.get_trace_length emu }
      else s := by
  have h1 : ((E.get_trace_length emu : Nat) : Int) > 0 := by omega
  unfold updateFullUI
  simp only [hemu, hlive, htog, h1, if_true, Bool.false_eq_true, if_false]

/-- C11, amended: let the stored window be the full range `[0, n)` of a trace
that has since grown to length `m > n`, and let `updateFullUI` run in live mode
with trace recording on.  If the trace grew by one entry (`m = n + 1`) or was
empty (`n = 0`), the window read afterwards is the full range `[0, m)`.  If
`n ≥ 1` and `m > n + 1`, the stored end is kept and the window read is still
`[0, n)`. -/
theorem stale_end_followed_by_one {ε : Type} (E : Engine ε) (s : UI ε) (emu : ε) (n : Nat)
    (hemu : s.emulator = some emu) (hlive : s.traceMode = false) (htog : s.traceToggle = true)
    (hs : s.tlZoomStart = 0) (he : s.tlZoomEnd = n) (hgrow : n < E.get_trace_length emu) :
    (E.get_trace_length emu = n + 1 ∨ n = 0 →
      getZoomStart E (updateFullUI E s) = 0 ∧
      getZoomEnd E (updateFullUI E s) = E.get_trace_length emu) ∧
    (1 ≤ n → n + 1 < E.get_trace_length emu →
      getZoomStart E (updateFullUI E s) = 0 ∧ getZoomEnd E (updateFullUI E s) = n) := by
  rw [updateFullUI_live_zoom E s emu hemu hlive htog (by omega)]
  constructor
  · intro h
    rw [if_pos (by omega)]
    unfold getZoomStart getZoomEnd
    simp only [hemu, hs]
    split_ifs <;> exact ⟨rfl, rfl⟩
  · intro h1 h2
    rw [if_neg (by omega)]
    unfold getZoomStart getZoomEnd
    simp only [hemu, hs, he]
    have hc : (n : Int) > 0 ∧ (n : Int) ≤ (E.get_trace_length emu : Int) := ⟨by omega, by omega⟩
    simp only [hc, and_self, if_true]

/-- Instance of C11, amended: a full range `[0, 10)` is followed to `[0, 11)`
after one more entry, and read as `[0, 10)` after ten more. -/
theorem stale_end_followed_by_one_witness :
    (getZoomStart counterEngine (updateFullUI counterEngine (zoomedSession 11 0 10)) = 0 ∧
      getZoomEnd counterEngine (updateFullUI counterEngine (zoomedSession 11 0 10)) = 11) ∧
    (getZoomStart counterEngine (updateFullUI counterEngine (zoomedSession 20 0 10)) = 0 ∧
      getZoomEnd counterEngine (updateFullUI counterEngine (zoomedSession 20 0 10)) = 10) :=
  ⟨(stale_end_followed_by_one counterEngine (zoomedSession 11 0 10) 11 10 rfl rfl rfl rfl rfl
      (by decide)).1 (Or.inl rfl),
   (stale_end_followed_by_one counterEngine (zoomedSession 20 0 10) 20 10 rfl rfl rfl rfl rfl
      (by decide)).2 (by decide) (by decide)⟩

/-! ## Click-to-seek -/

/-- The `mouseup` listener on a travel below 4 pixels seeks to the index under
the press position, computed in doubles and clamped to the trace. -/
theorem release_after_click {ε : Type} (E : Engine ε) (g : UI ε) (emu : ε) (w : ℚ)
    (hemu : g.emulator = some emu) (hlen : 1 ≤ E.get_trace_length emu)
    (hdrag : g.tlDragging = true) (hdist : |subD g.tlDragEndX g.tlDragStartX| < 4) :
    (onMouseUp E g w).traceCursor =
      max 0 (min ⌊indexOfD (getZoomStart E g) (getZoomEnd E g) w g.tlDragStartX⌋
        ((E.get_trace_length emu : Int) - 1)) := by
  rw [onMouseUp_click E g emu w hemu hdrag hdist,
    seekTrace_traceCursor E { g with tlDragging := false } emu _ hemu hlen]
  rfl

/-- A press and a release at the same pixel have travel 0. -/
theorem subD_self (a : ℚ) : subD a a = 0 := by
  unfold subD
  rw [sub_self, toDouble_zero]

/-- The travel from pixel 100 to pixel 103 is 3, exactly. -/
theorem subD_103_100 : subD 103 100 = 3 := by
  unfold subD
  rw [show (103 : ℚ) - 100 = ((3 : Nat) : ℚ) by norm_num, toDouble_ofNat]
  norm_num

/-- A click, with or without a move below the threshold, seeks to the index
under the press position. -/
theorem click_gesture {ε : Type} (E : Engine ε) (s : UI ε) (emu : ε) (w a b : ℚ)
    (hemu : s.emulator = some emu) (hlen : 1 ≤ E.get_trace_length emu)
    (hb0 : 0 ≤ b) (hbw : b ≤ w) (htravel : |subD b a| < 4) :
    (onMouseUp E (onMouseDown s 0 a) w).traceCursor =
      max 0 (min ⌊indexOfD (getZoomStart E s) (getZoomEnd E s) w a⌋
        ((E.get_trace_length emu : Int) - 1)) ∧
    (onMouseUp E (onMouseMove (onMouseDown s 0 a) b w) w).traceCursor =
      max 0 (min ⌊indexOfD (getZoomStart E s) (getZoomEnd E s) w a⌋
        ((E.get_trace_length emu : Int) - 1)) := by
  have hd : onMouseDown s 0 a = { s with tlDragging := true, tlDragStartX := a, tlDragEndX := a } := by
    unfold onMouseDown
    simp [hemu]
  constructor
  · rw [hd]
    exact release_after_click E { s with tlDragging := true, tlDragStartX := a, tlDragEndX := a }
      emu w hemu hlen rfl (by simp [subD_self])
  · rw [press_move_eq s emu a b w hemu hb0 hbw]
    exact release_after_click E { s with tlDragging := true, tlDragStartX := a, tlDragEndX := b }
      emu w hemu hlen rfl htravel

/-- C12 as stated fails when the pointer moves between press and release.  With
the window `[0, 1000)` shown 500 pixels wide, a press at pixel 100 and a release
at pixel 103 (travel 3) seeks to index 200, the index under the press position;
the release position maps to exactly 206. -/
theorem click_seek_counterexample :
    indexOf 0 1000 500 103 = 206 ∧
    (onMouseUp counterEngine
      (onMouseMove (onMouseDown (zoomedSession 1000 0 1000) 0 100) 103 500) 500).traceCursor =
        200 ∧
    (onMouseUp counterEngine
      (onMouseMove (onMouseDown (zoomedSession 1000 0 1000) 0 100) 103 500) 500).traceCursor ≠
        max 0 (min ⌊indexOf 0 1000 500 103⌋ (1000 - 1)) := by
  have hi : indexOf 0 1000 500 103 = 206 := by norm_num [indexOf]
  have hz := getZoom_of_stored counterEngine (zoomedSession 1000 0 1000) 1000 rfl
    (by decide) (by decide)
  have hc := (click_gesture counterEngine (zoomedSession 1000 0 1000) 1000 500 100 103
    rfl (by decide) (by norm_num) (by norm_num) (by rw [subD_103_100]; norm_num)).2
  rw [hz.1, hz.2] at hc
  have hp : ⌊indexOfD (zoomedSession 1000 0 1000).tlZoomStart
      (zoomedSession 1000 0 1000).tlZoomEnd 500 100⌋ = 200 := by
    change ⌊indexOfD 0 1000 500 100⌋ = 200
    rw [indexOfD_spec_left]
    norm_num
  have hcur : (onMouseUp counterEngine
      (onMouseMove (onMouseDown (zoomedSession 1000 0 1000) 0 100) 103 500) 500).traceCursor =
        200 := by
    rw [hc, hp]
    decide
  refine ⟨hi, hcur, ?_⟩
  rw [hcur, hi]
  norm_num

/-- The index a click seeks to is computed in doubles.  With the window
`[0, 100)` shown 100 pixels wide, a click at pixel 29 seeks to index 28:
`29 / 100 * 100` is `28.999999999999996` in doubles, while
`⌊0 + 29/100·100⌋ = 29`. -/
theorem click_seek_rounding_example :
    (onMouseUp counterEngine (onMouseDown (zoomedSession 100 0 100) 0 29) 100).traceCursor =
      28 ∧
    ⌊indexOf 0 100 100 29⌋ = 29 := by
  have hz := getZoom_of_stored counterEngine (zoomedSession 100 0 100) 100 rfl
    (by decide) (by decide)
  have hc := (click_gesture counterEngine (zoomedSession 100 0 100) 100 100 29 29
    rfl (by decide) (by norm_num) (by norm_num) (by simp [subD_self])).1
  rw [hz.1, hz.2] at hc
  have hp : ⌊indexOfD (zoomedSession 100 0 100).tlZoomStart
      (zoomedSession 100 0 100).tlZoomEnd 100 29⌋ = 28 := by
    change ⌊indexOfD 0 100 100 29⌋ = 28
    rw [indexOfD_29_of_100, Int.floor_eq_iff]
    norm_num
  constructor
  · rw [hc, hp]
    decide
  · norm_num [indexOf]

/-- C12, amended: for a pointer press at pixel `a` inside a display of positive
width and a release whose travel is below 4 pixels (no move at all, or a move
to a pixel `b` inside the display whose distance from `a`, as the double
difference the listener takes, is below 4), the cursor seeks to the index under
the press position, `⌊D a⌋` clamped to `[0, traceLength - 1]`, where `D a` is
`start + (a / width)·(end - start)` for the window `[start, end)` read through
the getters, with the quotient, the product and the sum each rounded to a
double.  On a trace of at most `2 ^ 32` entries whose stored left edge is not
negative, `D a` is within `2 ^ (-19)` of the real value and `⌊D a⌋` within one
index of `⌊start + (a / width)·(end - start)⌋`. -/
theorem click_seeks_press_position {ε : Type} (E : Engine ε) (s : UI ε) (emu : ε) (w a b : ℚ)
    (hemu : s.emulator = some emu) (hlen : 1 ≤ E.get_trace_length emu) (hw : 0 < w)
    (ha : 0 ≤ a) (haw : a ≤ w) (hb0 : 0 ≤ b) (hbw : b ≤ w) (htravel : |subD b a| < 4) :
    (onMouseUp E (onMouseDown s 0 a) w).traceCursor =
      max 0 (min ⌊indexOfD (getZoomStart E s) (getZoomEnd E s) w a⌋
        ((E.get_trace_length emu : Int) - 1)) ∧
    (onMouseUp E (onMouseMove (onMouseDown s 0 a) b w) w).traceCursor =
      max 0 (min ⌊indexOfD (getZoomStart E s) (getZoomEnd E s) w a⌋
        ((E.get_trace_length emu : Int) - 1)) ∧
    (0 ≤ s.tlZoomStart → E.get_trace_length emu ≤ 2 ^ 32 →
      |indexOfD (getZoomStart E s) (getZoomEnd E s) w a -
        indexOf (getZoomStart E s) (getZoomEnd E s) w a| ≤ 1 / 2 ^ 19 ∧
      |⌊indexOfD (getZoomStart E s) (getZoomEnd E s) w a⌋ -
        ⌊indexOf (getZoomStart E s) (getZoomEnd E s) w a⌋| ≤ 1) := by
  obtain ⟨k1, k2⟩ := click_gesture E s emu w a b hemu hlen hb0 hbw htravel
  refine ⟨k1, k2, fun h0 hmax => ?_⟩
  obtain ⟨v0, v1, v2⟩ := readWindow_valid E s emu hemu hlen h0
  have hL : getZoomEnd E s ≤ 2 ^ 32 := by
    have : ((E.get_trace_length emu : Nat) : Int) ≤ 2 ^ 32 := by exact_mod_cast hmax
    omega
  have na := indexOfD_near (getZoomStart E s) (getZoomEnd E s) w a v0 v1.le hL hw ha haw
  exact ⟨na, floor_near _ _ (lt_of_le_of_lt na (by norm_num))⟩

/-- Instance of C12, amended: with the window `[0, 1000)` shown 500 pixels wide,
a click at pixel 100 and a press at 100 released at 103 both seek to 200. -/
theorem click_seeks_press_position_witness :
    (onMouseUp counterEngine (onMouseDown (zoomedSession 1000 0 1000) 0 100) 500).traceCursor =
      200 ∧
    (onMouseUp counterEngine
      (onMouseMove (onMouseDown (zoomedSession 1000 0 1000) 0 100) 103 500) 500).traceCursor =
        200 := by
  have hz := getZoom_of_stored counterEngine (zoomedSession 1000 0 1000) 1000 rfl
    (by decide) (by decide)
  have hp : ⌊indexOfD (zoomedSession 1000 0 1000).tlZoomStart
      (zoomedSession 1000 0 1000).tlZoomEnd 500 100⌋ = 200 := by
    change ⌊indexOfD 0 1000 500 100⌋ = 200
    rw [indexOfD_spec_left]
    norm_num
  have h := click_seeks_press_position counterEngine (zoomedSession 1000 0 1000) 1000 500 100 103
    rfl (by decide) (by norm_num) (by norm_num) (by norm_num) (by norm_num) (by norm_num)
    (by rw [subD_103_100]; norm_num)
  rw [hz.1, hz.2] at h
  have hv : max (0 : Int) (min ⌊indexOfD (zoomedSession 1000 0 1000).tlZoomStart
      (zoomedSession 1000 0 1000).tlZoomEnd 500 100⌋
      (((counterEngine.get_trace_length 1000 : Nat) : Int) - 1)) = 200 := by
    rw [hp]; decide
  exact ⟨h.1.trans hv, h.2.1.trans hv⟩

/-! ## Watch list -/

/-- The result of `_removeWatch(i)` for an index inside the list. -/
theorem removeWatch_of_lt (s : WatchState) (i : Nat) (e : WatchEntry)
    (he : s.watchList[i]? = some e) :
    removeWatch s i =
      match s.daddr with
      | some d =>
        if d.1 = e.addr then { daddr := none, watchList := s.watchList.eraseIdx i }
        else { s with watchList := s.watchList.eraseIdx i }
      | none => { s with watchList := s.watchList.eraseIdx i } := by
  have hi : i < s.watchList.length := by
    rcases Nat.lt_or_ge i s.watchList.length with h | h
    · exact h
    · rw [List.getElem?_eq_none h] at he; exact absurd he (by simp)
  have hst : spliceStart s.watchList.length (i : Int) = i := by
    unfold spliceStart
    have : ¬ ((i : Int) < 0) := by omega
    simp only [this, if_false, Int.toNat_ofNat]
    omega
  unfold removeWatch
  simp only [hst, he]
  cases hd : s.daddr with
  | none => rfl
  | some d => by_cases hc : d.1 = e.addr <;> simp [hc, clearDaddr]

/-- C13: removing a watch entry that equals the current daddr clears the daddr.
For every watch list, every valid index `i` and a daddr with the address and
the size of `watchList[i]`, after `_removeWatch(i)` the daddr is `null` and the
list is the old one without its entry `i`. -/
theorem removeWatch_clears_equal_daddr (s : WatchState) (i : Nat) (e : WatchEntry)
    (he : s.watchList[i]? = some e) (hd : s.daddr = some (e.addr, e.size)) :
    (removeWatch s i).daddr = none ∧
    (removeWatch s i).watchList = s.watchList.take i ++ s.watchList.drop (i + 1) ∧
    (removeWatch s i).watchList.length + 1 = s.watchList.length := by
  have hi : i < s.watchList.length := by
    rcases Nat.lt_or_ge i s.watchList.length with h | h
    · exact h
    · rw [List.getElem?_eq_none h] at he; exact absurd he (by simp)
  have hr : removeWatch s i = { daddr := none, watchList := s.watchList.eraseIdx i } := by
    rw [removeWatch_of_lt s i e he, hd]
    simp
  rw [hr]
  refine ⟨rfl, List.eraseIdx_eq_take_drop_succ _ _, ?_⟩
  simp only
  rw [List.length_eraseIdx, if_pos hi]
  omega

/-- Instance of C13: with the daddr on `0x1000` (4 bytes) and that range second
in the watch list, removing entry 1 clears the daddr and keeps the other
entry. -/
theorem removeWatch_clears_equal_daddr_witness :
    (removeWatch ⟨some (4096, 4), [⟨8192, 8, []⟩, ⟨4096, 4, []⟩]⟩ 1).daddr = none ∧
    (removeWatch ⟨some (4096, 4), [⟨8192, 8, []⟩, ⟨4096, 4, []⟩]⟩ 1).watchList =
      [⟨8192, 8, []⟩] :=
  ⟨(removeWatch_clears_equal_daddr ⟨some (4096, 4), [⟨8192, 8, []⟩, ⟨4096, 4, []⟩]⟩ 1
      ⟨4096, 4, []⟩ rfl rfl).1,
   (removeWatch_clears_equal_daddr ⟨some (4096, 4), [⟨8192, 8, []⟩, ⟨4096, 4, []⟩]⟩ 1
      ⟨4096, 4, []⟩ rfl rfl).2.1⟩

/-! ## Strings: splitting and trimming -/

theorem splitWsAux_append_token (tok : JsString) (htok : ∀ c ∈ tok, isWs c = false)
    (cur rest : JsString) :
    splitWsAux cur (tok ++ rest) = splitWsAux (tok.reverse ++ cur) rest := by
  induction tok generalizing cur with
  | nil => rfl
  | cons c tok ih =>
    have hc : isWs c = false := htok c (List.mem_cons_self _ _)
    have ht : ∀ d ∈ tok, isWs d = false := fun d hd => htok d (List.mem_cons_of_mem _ hd)
    rw [List.cons_append, splitWsAux]
    simp only [hc, Bool.false_eq_true, if_false]
    rw [ih ht (c :: cur)]
    simp

/-- A token followed by a space is split off. -/
theorem splitWsAux_token_space (tok : JsString) (hne : tok ≠ [])
    (htok : ∀ c ∈ tok, isWs c = false) (rest : JsString) :
    splitWsAux [] (tok ++ 32 :: rest) = tok :: splitWsAux [] rest := by
  rw [splitWsAux_append_token tok htok, splitWsAux]
  have h32 : isWs 32 = true := by decide
  have hr : tok.reverse ++ [] ≠ [] := by simpa using hne
  simp only [h32, if_true, hr, if_false]
  simp

/-- A token alone is the only token. -/
theorem splitWsAux_token (tok : JsString) (hne : tok ≠ [])
    (htok : ∀ c ∈ tok, isWs c = false) :
    splitWsAux [] tok = [tok] := by
  have := splitWsAux_append_token tok htok [] []
  rw [List.append_nil] at this
  rw [this, splitWsAux]
  have hr : tok.reverse ++ [] ≠ [] := by simpa using hne
  simp only [hr, if_false]
  simp

/-- Tokens joined by single spaces are split back into the same tokens. -/
theorem splitWs_intercalate (toks : List JsString)
    (h : ∀ tok ∈ toks, tok ≠ [] ∧ ∀ c ∈ tok, isWs c = false) :
    splitWs (List.intercalate [32] toks) = toks := by
  unfold splitWs
  induction toks with
  | nil => rfl
  | cons tok toks ih =>
    obtain ⟨hne, hws⟩ := h tok (List.mem_cons_self _ _)
    have hrest : ∀ t ∈ toks, t ≠ [] ∧ ∀ c ∈ t, isWs c = false :=
      fun t ht => h t (List.mem_cons_of_mem _ ht)
    cases toks with
    | nil =>
      simp only [List.intercalate, List.intersperse, List.flatten, List.append_nil]
      exact splitWsAux_token tok hne hws
    | cons tok2 toks2 =>
      have e : List.intercalate [32] (tok :: tok2 :: toks2) =
          tok ++ 32 :: List.intercalate [32] (tok2 :: toks2) := by
        simp [List.intercalate, List.intersperse, List.flatten]
      rw [e, splitWsAux_token_space tok hne hws, ih hrest]

/-- A string that neither starts nor ends with white space is its own trim. -/
theorem jsTrim_eq_self (s : JsString) (hhead : ∀ c, s.head? = some c → isWs c = false)
    (hlast : ∀ c, s.getLast? = some c → isWs c = false) : jsTrim s = s := by
  unfold jsTrim
  have h1 : s.dropWhile isWs = s := by
    cases s with
    | nil => rfl
    | cons a r =>
      have := hhead a rfl
      simp [List.dropWhile, this]
  rw [h1]
  rw [List.rdropWhile_eq_self_iff]
  intro hl
  have := hlast (s.getLast hl) (List.getLast?_eq_getLast _ hl)
  simp [this]

/-! ## Hex queries -/

theorem hexDigitCode_props (upper : Bool) (n : Nat) (h : n < 16) :
    isHexDigit (hexDigitCode upper n) = true ∧ isWs (hexDigitCode upper n) = false ∧
      hexDigitCode upper n ≠ 120 ∧ hexDigitCode upper n ≠ 88 := by
  interval_cases n <;> cases upper <;> decide

/-- `parseInt` reads the two digits of a byte back as the byte. -/
theorem parseInt16_hexByte (upper : Bool) (b : Nat) (h : b < 256) :
    parseInt16 (hexByte upper b) = some (b : Int) := by
  unfold hexByte
  have h1 : b / 16 < 16 := by omega
  have h2 : b % 16 < 16 := by omega
  have hb : b = 16 * (b / 16) + b % 16 := by omega
  generalize b / 16 = hi at h1 hb
  generalize b % 16 = lo at h2 hb
  subst hb
  interval_cases hi <;> interval_cases lo <;> cases upper <;> rfl

theorem mapOpt_eq_some_map {α β : Type} (f : α → Option β) (g : α → β) (l : List α)
    (h : ∀ a ∈ l, f a = some (g a)) : mapOpt f l = some (l.map g) := by
  induction l with
  | nil => rfl
  | cons a l ih =>
    have ha := h a (List.mem_cons_self _ _)
    have hl := ih (fun x hx => h x (List.mem_cons_of_mem _ hx))
    simp [mapOpt, ha, hl]

theorem startsWith0x_false (c1 c2 : Nat) (r : JsString) (h1 : c2 ≠ 120) (h2 : c2 ≠ 88) :
    startsWith0x (c1 :: c2 :: r) = false := by
  unfold startsWith0x
  split
  · next heq =>
    injection heq with _ h
    injection h with h _
    subst h
    simp [h1, h2]
  · rfl

theorem lowByte_of_lt (b : Nat) (h : b < 256) : lowByte (b : Int) = b := by
  unfold lowByte
  omega

theorem parseHexToken_hexByte (upper : Bool) (b : Nat) (h : b < 256) :
    parseHexToken (hexByte upper b) = some [b] := by
  have hp := hexDigitCode_props upper (b % 16) (by omega)
  have h0 : startsWith0x (hexByte upper b) = false :=
    startsWith0x_false _ _ _ hp.2.2.1 hp.2.2.2
  unfold parseHexToken
  simp only [h0, Bool.false_eq_true, if_false]
  rw [if_pos (by rfl), parseInt16_hexByte upper b h]
  simp [lowByte_of_lt b h]

theorem parseHexToken_prefixed (upper : Bool) (b : Nat) (h : b < 256) :
    parseHexToken (48 :: 120 :: hexByte upper b) = some [b] := by
  have h0 : startsWith0x (48 :: 120 :: hexByte upper b) = true := by
    simp [startsWith0x]
  unfold parseHexToken
  simp only [h0, if_true, List.drop_succ_cons, List.drop_zero]
  rw [if_pos (by rfl), parseInt16_hexByte upper b h]
  simp [lowByte_of_lt b h]

theorem pairs_hexRun (upper : Bool) (bs : List Nat) :
    pairs (hexRun upper bs) = bs.map (hexByte upper) := by
  unfold hexRun
  induction bs with
  | nil => rfl
  | cons b bs ih =>
    simp only [List.map_cons, List.flatten_cons]
    change pairs (hexDigitCode upper (b / 16) :: hexDigitCode upper (b % 16) ::
      (bs.map (hexByte upper)).flatten) = _
    rw [pairs, ih]
    rfl

theorem length_hexRun (upper : Bool) (bs : List Nat) :
    (hexRun upper bs).length = 2 * bs.length := by
  unfold hexRun
  induction bs with
  | nil => rfl
  | cons b bs ih =>
    simp only [List.map_cons, List.flatten_cons, List.length_append, ih, List.length_cons]
    simp [hexByte]
    omega

theorem parseHexToken_hexRun (upper : Bool) (bs : List Nat) (hne : bs ≠ [])
    (h : ∀ b ∈ bs, b < 256) : parseHexToken (hexRun upper bs) = some bs := by
  cases bs with
  | nil => exact absurd rfl hne
  | cons b bs =>
    cases bs with
    | nil =>
      have : hexRun upper [b] = hexByte upper b := by simp [hexRun]
      rw [this]
      exact parseHexToken_hexByte upper b (h b (List.mem_cons_self _ _))
    | cons b2 bs =>
      have hp := hexDigitCode_props upper (b % 16) (by omega)
      have hshape : hexRun upper (b :: b2 :: bs) =
          hexDigitCode upper (b / 16) :: hexDigitCode upper (b % 16) ::
            hexRun upper (b2 :: bs) := rfl
      have h0 : startsWith0x (hexRun upper (b :: b2 :: bs)) = false := by
        rw [hshape]
        exact startsWith0x_false _ _ _ hp.2.2.1 hp.2.2.2
      have hlen := length_hexRun upper (b :: b2 :: bs)
      simp only [List.length_cons] at hlen
      unfold parseHexToken
      simp only [h0, Bool.false_eq_true, if_false]
      rw [if_neg (by omega), if_pos (by omega), pairs_hexRun]
      rw [mapOpt_eq_some_map _ (fun p => lowByte ((parseInt16 p).getD 0)) _ ?_]
      · congr 1
        rw [List.map_map]
        have : ∀ x ∈ b :: b2 :: bs,
            ((fun p => lowByte ((parseInt16 p).getD 0)) ∘ hexByte upper) x = id x := by
          intro x hx
          simp [parseInt16_hexByte upper x (h x hx), lowByte_of_lt x (h x hx)]
        rw [List.map_congr_left this, List.map_id]
      · intro p hp'
        obtain ⟨x, hx, rfl⟩ := List.mem_map.1 hp'
        simp [parseInt16_hexByte upper x (h x hx)]

theorem splitWsAux_dropWhile (s : JsString) :
    splitWsAux [] (s.dropWhile isWs) = splitWsAux [] s := by
  induction s with
  | nil => rfl
  | cons c s ih =>
    by_cases hc : isWs c = true
    · rw [List.dropWhile_cons_of_pos hc, ih, splitWsAux.eq_2]
      simp [hc]
    · rw [List.dropWhile_cons_of_neg hc]

theorem splitWsAux_concat_ws (x : Nat) (hx : isWs x = true) (cur s : JsString) :
    splitWsAux cur (s ++ [x]) = splitWsAux cur s := by
  induction s generalizing cur with
  | nil =>
    simp only [List.nil_append]
    rw [splitWsAux.eq_2]
    simp only [hx, if_true]
    by_cases hc : cur = [] <;> simp [hc, splitWsAux]
  | cons c s ih =>
    rw [List.cons_append, splitWsAux.eq_2, splitWsAux.eq_2]
    simp only [ih]

theorem splitWsAux_rdropWhile (cur s : JsString) :
    splitWsAux cur (s.rdropWhile isWs) = splitWsAux cur s := by
  induction s using List.reverseRecOn with
  | nil => rfl
  | append_singleton l x ih =>
    by_cases hx : isWs x = true
    · rw [List.rdropWhile_concat_pos _ _ _ hx, ih, splitWsAux_concat_ws x hx]
    · rw [List.rdropWhile_concat_neg _ _ _ hx]

/-- Trimming does not change the tokens. -/
theorem splitWs_jsTrim (s : JsString) : splitWs (jsTrim s) = splitWs s := by
  unfold splitWs jsTrim
  rw [splitWsAux_rdropWhile, splitWsAux_dropWhile]

theorem jsTrim_jsTrim (s : JsString) : jsTrim (jsTrim s) = jsTrim s := by
  apply jsTrim_eq_self
  · intro c hc
    unfold jsTrim at hc
    by_contra hw
    have hw' : isWs c = true := by simpa using hw
    cases hd : s.dropWhile isWs with
    | nil => rw [hd] at hc; simp at hc
    | cons a r =>
      have ha : isWs a = false := by
        have := List.head_dropWhile_not isWs s (by rw [hd]; simp)
        simpa [hd] using this
      rw [hd] at hc
      have hpre : (a :: r).rdropWhile isWs <+: a :: r := List.rdropWhile_prefix _ _
      cases hr : (a :: r).rdropWhile isWs with
      | nil => rw [hr] at hc; simp at hc
      | cons a2 r2 =>
        rw [hr] at hc hpre
        have : a2 = a := by
          obtain ⟨u, hu⟩ := hpre
          simp at hu
          exact hu.1
        simp at hc
        rw [← hc, this, ha] at hw'
        exact absurd hw' (by simp)
  · intro c hc
    unfold jsTrim at hc
    by_contra hw
    have hw' : isWs c = true := by simpa using hw
    have hne : (s.dropWhile isWs).rdropWhile isWs ≠ [] := by
      intro h; rw [h] at hc; simp at hc
    have := List.rdropWhile_last_not (p := isWs) (l := s.dropWhile isWs) hne
    rw [List.getLast?_eq_getLast _ hne] at hc
    simp at hc
    rw [hc] at this
    exact this hw'

/-- `parseHexQuery` depends on its argument through the tokens only. -/
theorem parseHexQuery_eq_bytesOfTokens (s : JsString) :
    parseHexQuery s = bytesOfTokens (splitWs s) := by
  unfold parseHexQuery
  simp only
  by_cases h : jsTrim s = []
  · have : splitWs s = [] := by rw [← splitWs_jsTrim, h]; rfl
    rw [if_pos h, this]
    rfl
  · rw [if_neg h, splitWs_jsTrim]
    rfl

theorem mapOpt_map_eq_some {α β γ : Type} (f : β → Option γ) (e : α → β) (k : α → γ)
    (l : List α) (h : ∀ a ∈ l, f (e a) = some (k a)) :
    mapOpt f (l.map e) = some (l.map k) := by
  induction l with
  | nil => rfl
  | cons a l ih =>
    have ha := h a (List.mem_cons_self _ _)
    have hl := ih (fun x hx => h x (List.mem_cons_of_mem _ hx))
    simp [mapOpt, ha, hl]

theorem flatten_map_singleton (bs : List Nat) : (bs.map (fun b => [b])).flatten = bs := by
  induction bs with
  | nil => rfl
  | cons b bs ih => simp [ih]

/-- The tokens of a list of byte encodings, each parsed back to its byte, give
the bytes. -/
theorem bytesOfTokens_map (enc : Nat → JsString) (bs : List Nat) (hne : bs ≠ [])
    (h : ∀ b ∈ bs, parseHexToken (enc b) = some [b]) :
    bytesOfTokens (bs.map enc) = some bs := by
  unfold bytesOfTokens
  rw [mapOpt_map_eq_some parseHexToken enc (fun b => [b]) bs h]
  simp only [flatten_map_singleton]
  rw [if_neg hne]

theorem hexByte_token (upper : Bool) (b : Nat) (h : b < 256) :
    hexByte upper b ≠ [] ∧ ∀ c ∈ hexByte upper b, isWs c = false := by
  refine ⟨by simp [hexByte], ?_⟩
  intro c hc
  simp only [hexByte, List.mem_cons, List.mem_singleton, List.not_mem_nil, or_false] at hc
  rcases hc with rfl | rfl
  · exact (hexDigitCode_props upper (b / 16) (by omega)).2.1
  · exact (hexDigitCode_props upper (b % 16) (by omega)).2.1

theorem parseHexQuery_hexSpaced (upper : Bool) (bs : List Nat) (hne : bs ≠ [])
    (h : ∀ b ∈ bs, b < 256) : parseHexQuery (hexSpaced upper bs) = some bs := by
  rw [parseHexQuery_eq_bytesOfTokens]
  unfold hexSpaced
  rw [splitWs_intercalate]
  · exact bytesOfTokens_map _ bs hne (fun b hb => parseHexToken_hexByte upper b (h b hb))
  · intro tok htok
    obtain ⟨b, hb, rfl⟩ := List.mem_map.1 htok
    exact hexByte_token upper b (h b hb)

theorem parseHexQuery_hexPrefixed (upper : Bool) (bs : List Nat) (hne : bs ≠ [])
    (h : ∀ b ∈ bs, b < 256) : parseHexQuery (hexPrefixed upper bs) = some bs := by
  rw [parseHexQuery_eq_bytesOfTokens]
  unfold hexPrefixed
  rw [splitWs_intercalate]
  · exact bytesOfTokens_map _ bs hne (fun b hb => parseHexToken_prefixed upper b (h b hb))
  · intro tok htok
    obtain ⟨b, hb, rfl⟩ := List.mem_map.1 htok
    refine ⟨by simp, ?_⟩
    intro c hc
    simp only [List.mem_cons] at hc
    rcases hc with rfl | rfl | hc
    · decide
    · decide
    · exact (hexByte_token upper b (h b hb)).2 c hc

theorem parseHexQuery_hexRun (upper : Bool) (bs : List Nat) (hne : bs ≠ [])
    (h : ∀ b ∈ bs, b < 256) : parseHexQuery (hexRun upper bs) = some bs := by
  rw [parseHexQuery_eq_bytesOfTokens]
  have htok : splitWs (hexRun upper bs) = [hexRun upper bs] := by
    unfold splitWs
    apply splitWsAux_token
    · intro h0
      have := length_hexRun upper bs
      rw [h0] at this
      cases bs with
      | nil => exact hne rfl
      | cons b r => simp at this
    · intro c hc
      unfold hexRun at hc
      obtain ⟨l, hl, hcl⟩ := List.mem_flatten.1 hc
      obtain ⟨b, hb, rfl⟩ := List.mem_map.1 hl
      exact (hexByte_token upper b (h b hb)).2 c hcl
  rw [htok]
  unfold bytesOfTokens
  simp only [mapOpt, parseHexToken_hexRun upper bs hne h, Option.map_some', List.flatten_cons,
    List.flatten_nil, List.append_nil]
  rw [if_neg hne]

/-- C16: `parseHexQuery` tokenizes well-formed hex queries into their byte
values.  For every non-empty list `bs` of bytes, parsing the hex encoding of
`bs` (digits in either case) written as 2-digit groups separated by a space, as
`0x`-prefixed groups, or as one run of digits returns exactly `bs`. -/
theorem parseHexQuery_encodings (upper : Bool) (bs : List Nat) (hne : bs ≠ [])
    (h : ∀ b ∈ bs, b < 256) :
    parseHexQuery (hexSpaced upper bs) = some bs ∧
    parseHexQuery (hexPrefixed upper bs) = some bs ∧
    parseHexQuery (hexRun upper bs) = some bs :=
  ⟨parseHexQuery_hexSpaced upper bs hne h, parseHexQuery_hexPrefixed upper bs hne h,
   parseHexQuery_hexRun upper bs hne h⟩

/-- Instance of C16: `"41 42"`, `"0x41 0x42"` and `"4142"` all parse to the
bytes `0x41 0x42`. -/
theorem parseHexQuery_encodings_witness :
    parseHexQuery (str "41 42") = some [65, 66] ∧
    parseHexQuery (str "0x41 0x42") = some [65, 66] ∧
    parseHexQuery (str "4142") = some [65, 66] :=
  parseHexQuery_encodings false [65, 66] (by decide) (by decide)

/-- C17 fails on the code: malformed tokens that do not invalidate the query.
A one-digit token is skipped (`"41 4"` parses to the byte `0x41`), an odd run
is read with a one-digit last group (`"414"` parses to `0x41 0x04`), and
`parseInt` ignores what follows a digit (`"4g"` parses to `0x04`); so
`runMemorySearch` in hex mode returns matches for them.  A token that starts
with a non-digit does give `null`. -/
theorem parseHexQuery_malformed_accepted :
    parseHexQuery (str "41 4") = some [65] ∧
    parseHexQuery (str "414") = some [65, 4] ∧
    parseHexQuery (str "4g") = some [4] ∧
    parseHexQuery (str "41 0x") = some [65] ∧
    parseHexQuery (str "41 zz") = none ∧
    runMemorySearch asciiEnv [65, 0, 65] (str "41 4") SearchMode.hex = [(0, 1), (2, 3)] := by
  decide

/-! ## The byte scan -/

/-- The inner loop finds the needle at `i` exactly when the needle is a prefix
of the bytes from `i` on. -/
theorem foundAt_iff (bytes needle : List Nat) (i : Nat) :
    foundAt bytes needle i = true ↔ needle <+: bytes.drop i := by
  unfold foundAt
  rw [List.all_eq_true, List.prefix_iff_eq_take]
  constructor
  · intro h
    apply List.ext_getElem?
    intro j
    by_cases hj : j < needle.length
    · have := h j (List.mem_range.2 hj)
      rw [List.getElem?_take_of_lt hj, List.getElem?_drop]
      exact (of_decide_eq_true this).symm
    · have hj' : needle.length ≤ j := not_lt.1 hj
      rw [List.getElem?_eq_none hj', List.getElem?_eq_none]
      exact (List.length_take_le _ _).trans hj'
  · intro h j hj
    have hj' : j < needle.length := List.mem_range.1 hj
    have e : needle[j]? = (List.take needle.length (bytes.drop i))[j]? := by rw [← h]
    rw [List.getElem?_take_of_lt hj', List.getElem?_drop] at e
    simp [e]

theorem scanBytes_pairwise (bytes needle : List Nat) :
    (scanBytes bytes needle).Pairwise (fun a b => a.1 < b.1) := by
  unfold scanBytes
  rw [List.pairwise_map]
  exact (List.pairwise_lt_range _).filter _

theorem mem_scanBytes (bytes needle : List Nat) (hne : needle ≠ []) (i e : Nat) :
    (i, e) ∈ scanBytes bytes needle ↔ e = i + needle.length ∧ needle <+: bytes.drop i := by
  have hn : 1 ≤ needle.length := by
    cases needle with
    | nil => exact absurd rfl hne
    | cons a r => simp
  unfold scanBytes
  simp only [List.mem_map, List.mem_filter, List.mem_range, Prod.mk.injEq, foundAt_iff]
  constructor
  · rintro ⟨a, ⟨-, hp⟩, rfl, rfl⟩
    exact ⟨rfl, hp⟩
  · rintro ⟨rfl, hp⟩
    refine ⟨i, ⟨?_, hp⟩, rfl, rfl⟩
    have := hp.length_le
    rw [List.length_drop] at this
    omega

theorem parseHexQuery_jsTrim (s : JsString) : parseHexQuery (jsTrim s) = parseHexQuery s := by
  rw [parseHexQuery_eq_bytesOfTokens, parseHexQuery_eq_bytesOfTokens, splitWs_jsTrim]

theorem parseHexQuery_some_ne_nil (s : JsString) (needle : List Nat)
    (h : parseHexQuery s = some needle) : needle ≠ [] ∧ jsTrim s ≠ [] := by
  unfold parseHexQuery at h
  simp only at h
  by_cases h0 : jsTrim s = []
  · rw [if_pos h0] at h; exact absurd h (by simp)
  · refine ⟨?_, h0⟩
    rw [if_neg h0] at h
    cases hm : mapOpt parseHexToken (splitWs (jsTrim s)) with
    | none => rw [hm] at h; exact absurd h (by simp)
    | some outs =>
      rw [hm] at h
      simp only at h
      by_cases hf : outs.flatten = []
      · rw [if_pos hf] at h; exact absurd h (by simp)
      · rw [if_neg hf] at h
        injection h with h
        rw [← h]; exact hf

/-- In hex mode `runMemorySearch` is the byte scan for the parsed needle. -/
theorem runMemorySearch_hex_eq {ρ : Type} (env : JsEnv ρ) (bytes : List Nat) (query : JsString)
    (needle : List Nat) (h : parseHexQuery query = some needle) :
    runMemorySearch env bytes query SearchMode.hex = scanBytes bytes needle := by
  obtain ⟨hne, hq⟩ := parseHexQuery_some_ne_nil query needle h
  have hlen : needle.length ≠ 0 := by
    cases needle with
    | nil => exact absurd rfl hne
    | cons a r => simp
  unfold runMemorySearch
  simp only [hq, if_false, effectiveMode, parseHexQuery_jsTrim, h, hlen]
  rfl

/-- C18: in hex mode `runMemorySearch` is an exact, overlap-permitting,
left-to-right scan.  For every byte array and every query that parses to a
needle (which then has `n ≥ 1` bytes), the matches come in strictly ascending
order of `start`, and `(i, e)` is a match exactly when `e = i + n` and the `n`
needle bytes occur at offset `i` (which puts `i` in `0 .. bytes.length - n`);
overlapping occurrences are all reported. -/
theorem runMemorySearch_hex_scan {ρ : Type} (env : JsEnv ρ) (bytes : List Nat)
    (query : JsString) (needle : List Nat) (h : parseHexQuery query = some needle) :
    1 ≤ needle.length ∧
    (runMemorySearch env bytes query SearchMode.hex).Pairwise (fun a b => a.1 < b.1) ∧
    (∀ i e, (i, e) ∈ runMemorySearch env bytes query SearchMode.hex ↔
      e = i + needle.length ∧ needle <+: bytes.drop i) ∧
    (∀ i, needle <+: bytes.drop i → i + needle.length ≤ bytes.length) := by
  obtain ⟨hne, -⟩ := parseHexQuery_some_ne_nil query needle h
  rw [runMemorySearch_hex_eq env bytes query needle h]
  refine ⟨?_, scanBytes_pairwise bytes needle, mem_scanBytes bytes needle hne, ?_⟩
  · cases needle with
    | nil => exact absurd rfl hne
    | cons a r => simp
  · intro i hp
    have := hp.length_le
    rw [List.length_drop] at this
    have hn : 1 ≤ needle.length := by
      cases needle with
      | nil => exact absurd rfl hne
      | cons a r => simp
    omega

/-- Instance of C18: the needle `01 01` occurs three times, overlapping, in
`01 01 01 01`. -/
theorem runMemorySearch_hex_scan_witness :
    runMemorySearch asciiEnv [1, 1, 1, 1] (str "0101") SearchMode.hex =
      [(0, 2), (1, 3), (2, 4)] ∧
    ((1, 3) ∈ runMemorySearch asciiEnv [1, 1, 1, 1] (str "0101") SearchMode.hex ↔
      3 = 1 + [1, 1].length ∧ [1, 1] <+: [1, 1, 1, 1].drop 1) :=
  ⟨by decide,
   (runMemorySearch_hex_scan asciiEnv [1, 1, 1, 1] (str "0101") [1, 1] (by decide)).2.2.1 1 3⟩

/-! ## Hex and string mode on ASCII text -/

theorem effectiveMode_of_ne_auto (q : JsString) (mode : SearchMode)
    (h : mode ≠ SearchMode.auto) : effectiveMode q mode = mode := by
  unfold effectiveMode
  rw [if_neg h]

theorem straceEffectiveMode_of_ne_auto (q : JsString) (mode : SearchMode)
    (h : mode ≠ SearchMode.auto) : straceEffectiveMode q mode = mode := by
  unfold straceEffectiveMode
  rw [if_neg h]

theorem textEncode_ascii (q : JsString) (h : ∀ c ∈ q, c < 128) : textEncode q = q := by
  induction q using textEncode.induct with
  | case1 => rfl
  | case2 c =>
    have hc := h c (List.mem_cons_self _ _)
    simp [textEncode, encodeUnit, hc]
  | case3 c d r hs ih =>
    have hc := h c (List.mem_cons_self _ _)
    exact absurd hs.1.1 (by omega)
  | case4 c d r hs ih =>
    have hc := h c (List.mem_cons_self _ _)
    have := ih (fun x hx => h x (List.mem_cons_of_mem _ hx))
    rw [textEncode, if_neg hs, this]
    simp [encodeUnit, hc]

theorem mem_of_mem_jsTrim (s : JsString) (c : Nat) (h : c ∈ jsTrim s) : c ∈ s := by
  unfold jsTrim at h
  have h1 := (List.rdropWhile_prefix isWs (l := s.dropWhile isWs)).subset h
  exact (List.dropWhile_suffix isWs).subset h1

/-- In string mode `runMemorySearch` is the byte scan for the UTF-8 bytes of
the trimmed query. -/
theorem runMemorySearch_string_eq {ρ : Type} (env : JsEnv ρ) (bytes : List Nat)
    (query : JsString) :
    runMemorySearch env bytes query SearchMode.string =
      if jsTrim query = [] then [] else scanBytes bytes (textEncode (jsTrim query)) := by
  have e := fun q => effectiveMode_of_ne_auto q SearchMode.string (by decide)
  unfold runMemorySearch
  simp only [e]

/-- C19 as stated fails for a query with white space at an end, which string
mode trims.  On the bytes `20 41`, the query `" A"` in string mode is searched
as `"A"` and matches at offset 1, and the hex encoding `"20 41"` of its bytes
matches at offset 0. -/
theorem hex_string_counterexample :
    hexSpaced false (textEncode (str " A")) = str "20 41" ∧
    runMemorySearch asciiEnv [32, 65] (str " A") SearchMode.string = [(1, 2)] ∧
    runMemorySearch asciiEnv [32, 65] (hexSpaced false (textEncode (str " A")))
      SearchMode.hex = [(0, 2)] ∧
    (runMemorySearch asciiEnv [32, 65] (str " A") SearchMode.string).map Prod.fst ≠
      (runMemorySearch asciiEnv [32, 65] (hexSpaced false (textEncode (str " A")))
        SearchMode.hex).map Prod.fst := by
  decide

/-- C19, amended: for every byte haystack and every ASCII query,
`runMemorySearch` in string mode with the query and in hex mode with the hex
encoding (2-digit groups separated by a space, either case) of the bytes of the
trimmed query return the same list of matches. -/
theorem hex_string_equivalence {ρ : Type} (env : JsEnv ρ) (bytes : List Nat) (query : JsString)
    (upper : Bool) (hascii : ∀ c ∈ query, c < 128) :
    runMemorySearch env bytes query SearchMode.string =
      runMemorySearch env bytes (hexSpaced upper (textEncode (jsTrim query))) SearchMode.hex := by
  have ht : ∀ c ∈ jsTrim query, c < 128 := fun c hc => hascii c (mem_of_mem_jsTrim query c hc)
  rw [runMemorySearch_string_eq, textEncode_ascii (jsTrim query) ht]
  by_cases h0 : jsTrim query = []
  · rw [if_pos h0, h0]
    rfl
  · rw [if_neg h0]
    exact (runMemorySearch_hex_eq env bytes _ (jsTrim query)
      (parseHexQuery_hexSpaced upper (jsTrim query) h0 (fun b hb => by have := ht b hb; omega))).symm

/-- Instance of C19, amended: on the bytes `41 42 43`, `"ABC"` in string mode
and `"41 42 43"` in hex mode both return the one match at offset 0. -/
theorem hex_string_equivalence_witness :
    runMemorySearch asciiEnv [65, 66, 67] (str "ABC") SearchMode.string =
      runMemorySearch asciiEnv [65, 66, 67] (str "41 42 43") SearchMode.hex ∧
    runMemorySearch asciiEnv [65, 66, 67] (str "41 42 43") SearchMode.hex = [(0, 3)] :=
  ⟨hex_string_equivalence asciiEnv [65, 66, 67] (str "ABC") false (by decide), by decide⟩

/-! ## String mode on lines -/

theorem mem_matchingIndices {α : Type} (lines : List α) (p : α → Bool) (i : Nat) :
    i ∈ matchingIndices lines p ↔ ∃ line, lines[i]? = some line ∧ p line = true := by
  unfold matchingIndices
  simp only [List.mem_filter, List.mem_range, decide_eq_true_eq, Option.map_eq_some']
  constructor
  · rintro ⟨-, line, h1, h2⟩
    exact ⟨line, h1, h2⟩
  · rintro ⟨line, h1, h2⟩
    refine ⟨?_, line, h1, h2⟩
    by_contra hge
    rw [List.getElem?_eq_none (not_lt.1 hge)] at h1
    exact absurd h1 (by simp)

theorem matchingIndices_pairwise {α : Type} (lines : List α) (p : α → Bool) :
    (matchingIndices lines p).Pairwise (fun a b => a < b) :=
  (List.pairwise_lt_range _).filter _

theorem runDisasmSearch_string_eq {ρ : Type} (env : JsEnv ρ) (lines : List DisasmLine)
    (query : JsString) (h : jsTrim query ≠ []) :
    runDisasmSearch env lines query SearchMode.string =
      matchingIndices lines (fun line =>
        jsIncludes (env.toLowerCase line.full) (env.toLowerCase (jsTrim query))) := by
  have e := fun q => effectiveMode_of_ne_auto q SearchMode.string (by decide)
  unfold runDisasmSearch
  simp only [e, h, if_false]

theorem runStraceSearch_string_eq {ρ : Type} (env : JsEnv ρ) (lines : List JsString)
    (query : JsString) (h : jsTrim query ≠ []) :
    runStraceSearch env lines query SearchMode.string =
      matchingIndices lines (fun line =>
        jsIncludes (env.toLowerCase line) (env.toLowerCase (jsTrim query))) := by
  have e := fun q => straceEffectiveMode_of_ne_auto q SearchMode.string (by decide)
  unfold runStraceSearch
  simp only [e, h, if_false]

/-- C20 as stated fails: the match is not case-sensitive.  The query `"MOV"`
does not occur in the line `"0x1000 mov rax, rbx"`, nor `"READ"` in
`"read(3)"`, and both searches return the line. -/
theorem string_mode_case_counterexample :
    runDisasmSearch asciiEnv [⟨str "0x1000", str "mov rax, rbx"⟩] (str "MOV")
      SearchMode.string = [0] ∧
    ¬ (str "MOV" <:+: (DisasmLine.mk (str "0x1000") (str "mov rax, rbx")).full) ∧
    runStraceSearch asciiEnv [str "read(3)"] (str "READ") SearchMode.string = [0] ∧
    ¬ (str "READ" <:+: str "read(3)") := by
  decide

/-- C20, amended: in string mode `runDisasmSearch` and `runStraceSearch` return,
in ascending order, exactly the indices of the lines in which the trimmed query
occurs as a literal substring after both have been lower-cased
(`address + ' ' + text` for the disassembly, the line text for the syscall
log): the match is case-insensitive and has no wildcards.  An empty trimmed
query returns nothing. -/
theorem string_mode_lines {ρ : Type} (env : JsEnv ρ) (dlines : List DisasmLine)
    (slines : List JsString) (query : JsString) :
    (jsTrim query ≠ [] →
      (∀ i, i ∈ runDisasmSearch env dlines query SearchMode.string ↔
        ∃ line, dlines[i]? = some line ∧
          env.toLowerCase (jsTrim query) <:+: env.toLowerCase line.full) ∧
      (∀ i, i ∈ runStraceSearch env slines query SearchMode.string ↔
        ∃ line, slines[i]? = some line ∧
          env.toLowerCase (jsTrim query) <:+: env.toLowerCase line)) ∧
    (runDisasmSearch env dlines query SearchMode.string).Pairwise (fun a b => a < b) ∧
    (runStraceSearch env slines query SearchMode.string).Pairwise (fun a b => a < b) ∧
    (jsTrim query = [] →
      runDisasmSearch env dlines query SearchMode.string = [] ∧
      runStraceSearch env slines query SearchMode.string = []) := by
  by_cases h : jsTrim query = []
  · have hd : runDisasmSearch env dlines query SearchMode.string = [] := by
      unfold runDisasmSearch
      simp only [h, if_true]
    have hs : runStraceSearch env slines query SearchMode.string = [] := by
      unfold runStraceSearch
      simp only [h, if_true]
    refine ⟨fun hne => absurd h hne, ?_, ?_, fun _ => ⟨hd, hs⟩⟩
    · rw [hd]; exact List.Pairwise.nil
    · rw [hs]; exact List.Pairwise.nil
  · rw [runDisasmSearch_string_eq env dlines query h, runStraceSearch_string_eq env slines query h]
    refine ⟨fun _ => ⟨fun i => ?_, fun i => ?_⟩, matchingIndices_pairwise _ _,
      matchingIndices_pairwise _ _, fun h0 => absurd h0 h⟩
    · rw [mem_matchingIndices]
      simp only [jsIncludes, decide_eq_true_eq]
    · rw [mem_matchingIndices]
      simp only [jsIncludes, decide_eq_true_eq]

/-- Instance of C20, amended: `"MOV"` finds the line `"0x1000 mov rax, rbx"`
because `"mov"` occurs in its lower-cased text. -/
theorem string_mode_lines_witness :
    0 ∈ runDisasmSearch asciiEnv [⟨str "0x1000", str "mov rax, rbx"⟩] (str "MOV")
      SearchMode.string :=
  ((string_mode_lines asciiEnv [⟨str "0x1000", str "mov rax, rbx"⟩] [] (str "MOV")).1
    (by decide)).1 0 |>.2 ⟨⟨str "0x1000", str "mov rax, rbx"⟩, rfl, by decide⟩

/-! ## Mode inference -/

/-- Every character of a token comes from the text being split. -/
theorem mem_of_mem_splitWsAux (cur s tok : JsString) (h : tok ∈ splitWsAux cur s) (c : Nat)
    (hc : c ∈ tok) : c ∈ cur ∨ c ∈ s := by
  induction s generalizing cur with
  | nil =>
    rw [splitWsAux.eq_1] at h
    by_cases h0 : cur = []
    · simp [h0] at h
    · simp only [h0, if_false, List.mem_singleton] at h
      subst h
      exact Or.inl (List.mem_reverse.1 hc)
  | cons d s ih =>
    rw [splitWsAux.eq_2] at h
    by_cases hd : isWs d = true
    · simp only [hd, if_true] at h
      by_cases h0 : cur = []
      · simp only [h0, if_true] at h
        rcases ih [] h with h1 | h1
        · exact absurd h1 (by simp)
        · exact Or.inr (List.mem_cons_of_mem _ h1)
      · simp only [h0, if_false, List.mem_cons] at h
        rcases h with h | h
        · subst h
          exact Or.inl (List.mem_reverse.1 hc)
        · rcases ih [] h with h1 | h1
          · exact absurd h1 (by simp)
          · exact Or.inr (List.mem_cons_of_mem _ h1)
    · simp only [hd, Bool.false_eq_true, if_false] at h
      rcases ih (d :: cur) h with h1 | h1
      · rcases List.mem_cons.1 h1 with rfl | h2
        · exact Or.inr (List.mem_cons_self _ _)
        · exact Or.inl h2
      · exact Or.inr (List.mem_cons_of_mem _ h1)

/-- Every character of the text is white space or lies in a token. -/
theorem mem_splitWsAux_of_mem (cur s : JsString) (c : Nat) (hc : c ∈ cur ∨ c ∈ s) :
    isWs c = true ∨ ∃ tok ∈ splitWsAux cur s, c ∈ tok := by
  induction s generalizing cur with
  | nil =>
    rcases hc with hc | hc
    · right
      have h0 : cur ≠ [] := List.ne_nil_of_mem hc
      refine ⟨cur.reverse, ?_, List.mem_reverse.2 hc⟩
      rw [splitWsAux.eq_1]
      simp [h0]
    · exact absurd hc (by simp)
  | cons d s ih =>
    rw [splitWsAux.eq_2]
    by_cases hd : isWs d = true
    · simp only [hd, if_true]
      by_cases h0 : cur = []
      · simp only [h0, if_true]
        rcases hc with hc | hc
        · rw [h0] at hc; exact absurd hc (by simp)
        · rcases List.mem_cons.1 hc with rfl | h2
          · exact Or.inl hd
          · exact ih [] (Or.inr h2)
      · simp only [h0, if_false]
        rcases hc with hc | hc
        · exact Or.inr ⟨cur.reverse, List.mem_cons_self _ _, List.mem_reverse.2 hc⟩
        · rcases List.mem_cons.1 hc with rfl | h2
          · exact Or.inl hd
          · rcases ih [] (Or.inr h2) with h3 | ⟨tok, ht, hct⟩
            · exact Or.inl h3
            · exact Or.inr ⟨tok, List.mem_cons_of_mem _ ht, hct⟩
    · simp only [hd, Bool.false_eq_true, if_false]
      apply ih (d :: cur)
      rcases hc with hc | hc
      · exact Or.inl (List.mem_cons_of_mem _ hc)
      · rcases List.mem_cons.1 hc with rfl | h2
        · exact Or.inl (List.mem_cons_self _ _)
        · exact Or.inr h2

/-- A spec hex token consists of hex digits and the letter `x`, and holds a hex
digit. -/
theorem isSpecHexToken_chars (tok : JsString) (h : isSpecHexToken tok = true) :
    (∀ c ∈ tok, isHexDigit c = true ∨ c = 120) ∧ ∃ c ∈ tok, isHexDigit c = true := by
  unfold isSpecHexToken at h
  split at h
  · next d =>
    simp only [ne_eq, Bool.decide_and, Bool.and_eq_true, decide_eq_true_eq,
      List.all_eq_true, decide_not, Bool.not_eq_true'] at h
    obtain ⟨hne, hall⟩ := h
    constructor
    · intro c hc
      simp only [List.mem_cons] at hc
      rcases hc with rfl | rfl | hc
      · exact Or.inl (by decide)
      · exact Or.inr rfl
      · exact Or.inl (hall c hc)
    · cases d with
      | nil => simp at hne
      | cons a r =>
        exact ⟨a, by simp, hall a (List.mem_cons_self _ _)⟩
  · simp only [ne_eq, Bool.decide_and, Bool.and_eq_true, decide_eq_true_eq,
      List.all_eq_true, decide_not, Bool.not_eq_true'] at h
    obtain ⟨hne, hall⟩ := h
    constructor
    · intro c hc
      exact Or.inl (hall c hc)
    · cases tok with
      | nil => simp at hne
      | cons a r =>
        exact ⟨a, List.mem_cons_self _ _, hall a (List.mem_cons_self _ _)⟩

theorem matchesHexClass_iff (q : JsString) :
    matchesHexClass q = true ↔ q ≠ [] ∧
      (∀ c ∈ q, isHexDigit c = true ∨ c = 120 ∨ isWs c = true) ∧
      ∃ c ∈ q, isHexDigit c = true := by
  unfold matchesHexClass
  simp only [ne_eq, Bool.decide_and, Bool.and_eq_true, decide_eq_true_eq, decide_not,
    Bool.not_eq_true', List.all_eq_true, List.any_eq_true, Bool.or_eq_true,
    Bool.decide_or, Bool.decide_eq_true, and_assoc, decide_eq_false_iff_not]

/-- Every spec hex query passes the character-class test of
`detectSearchMode`. -/
theorem matchesHexClass_of_spec (q : JsString) (h : SpecHexQuery q = true) :
    matchesHexClass q = true := by
  unfold SpecHexQuery at h
  simp only [ne_eq, Bool.decide_and, Bool.and_eq_true, decide_eq_true_eq, decide_not,
    Bool.not_eq_true', List.all_eq_true] at h
  obtain ⟨hne, hall⟩ := h
  have hdig : ∃ c ∈ q, isHexDigit c = true := by
    cases hs : splitWs q with
    | nil => simp [hs] at hne
    | cons tok r =>
      have htok : tok ∈ splitWs q := by rw [hs]; exact List.mem_cons_self _ _
      obtain ⟨c, hc, hd⟩ := (isSpecHexToken_chars tok (hall tok htok)).2
      rcases mem_of_mem_splitWsAux [] q tok htok c hc with h1 | h1
      · exact absurd h1 (by simp)
      · exact ⟨c, h1, hd⟩
  have hcls : ∀ c ∈ q, isHexDigit c = true ∨ c = 120 ∨ isWs c = true := by
    intro c hc
    rcases mem_splitWsAux_of_mem [] q c (Or.inr hc) with h1 | ⟨tok, ht, hct⟩
    · exact Or.inr (Or.inr h1)
    · rcases (isSpecHexToken_chars tok (hall tok ht)).1 c hct with h2 | h2
      · exact Or.inl h2
      · exact Or.inr (Or.inl h2)
  obtain ⟨c0, hc0, hd0⟩ := hdig
  rw [matchesHexClass_iff]
  exact ⟨List.ne_nil_of_mem hc0, hcls, c0, hc0, hd0⟩

/-- C14 as stated fails on a stray `x`.  The query `"x1"` does not consist of
hex digits, `0x` prefixes and white space, so the spec's wording makes it a
`String` query; `detectSearchMode` returns `'hex'` for it (and `parseHexQuery`
then rejects it). -/
theorem detect_mode_counterexample :
    detectSearchMode (str "x1") = SearchMode.hex ∧
    SpecHexQuery (jsTrim (str "x1")) = false ∧
    specSearchMode (str "x1") = SearchMode.string ∧
    parseHexQuery (str "x1") = none := by
  decide

/-- C14, amended: `detectSearchMode(q)` returns `'regex'` when the trimmed query
is framed as `/pattern/flags`; otherwise `'hex'` exactly when the trimmed query
is not empty, consists solely of hex digits, the letter `x` (anywhere) and
white space, and holds at least one hex digit, which covers every query of hex
digits, optional `0x` prefixes and white space; and `'string'` for every other
query. -/
theorem detect_mode_cases (query : JsString) :
    (matchesRegexFrame (jsTrim query) = true → detectSearchMode query = SearchMode.regex) ∧
    (matchesRegexFrame (jsTrim query) = false → SpecHexQuery (jsTrim query) = true →
      detectSearchMode query = SearchMode.hex) ∧
    (detectSearchMode query = SearchMode.hex ↔
      matchesRegexFrame (jsTrim query) = false ∧ jsTrim query ≠ [] ∧
        (∀ c ∈ jsTrim query, isHexDigit c = true ∨ c = 120 ∨ isWs c = true) ∧
        ∃ c ∈ jsTrim query, isHexDigit c = true) ∧
    (detectSearchMode query = SearchMode.string ↔
      matchesRegexFrame (jsTrim query) = false ∧ matchesHexClass (jsTrim query) = false) := by
  have hcls := matchesHexClass_iff (jsTrim query)
  unfold detectSearchMode
  simp only
  cases hr : matchesRegexFrame (jsTrim query) <;> cases hh : matchesHexClass (jsTrim query)
  · refine ⟨by simp, fun _ hs => ?_, ?_, by simp⟩
    · rw [matchesHexClass_of_spec _ hs] at hh; exact absurd hh (by simp)
    · rw [← hcls, hh]; simp
  · refine ⟨by simp, by simp, ?_, by simp⟩
    rw [← hcls, hh]; simp
  · refine ⟨by simp, by simp, by simp, by simp⟩
  · refine ⟨by simp, by simp, by simp, by simp⟩

/-- Instance of C14, amended: `"/ab/gi"` is a regex query, `"0x41 42"` a hex
query. -/
theorem detect_mode_cases_witness :
    detectSearchMode (str "/ab/gi") = SearchMode.regex ∧
    detectSearchMode (str "0x41 42") = SearchMode.hex :=
  ⟨(detect_mode_cases (str "/ab/gi")).1 (by decide),
   (detect_mode_cases (str "0x41 42")).2.1 (by decide) (by decide)⟩

/-! ## Auto mode in the three domains -/

theorem lastIndexOfSlash_ge (s : JsString) (i : Nat) (h : s[i]? = some 47) :
    (i : Int) ≤ lastIndexOfSlash s := by
  induction s generalizing i with
  | nil => simp at h
  | cons c r ih =>
    rw [lastIndexOfSlash]
    cases i with
    | zero =>
      simp only [List.getElem?_cons_zero, Option.some.injEq] at h
      split_ifs <;> omega
    | succ j =>
      simp only [List.getElem?_cons_succ] at h
      have := ih j h
      rw [if_pos (by omega)]
      omega

/-- A query framed as `/pattern/flags` starts with a slash and has a later
one. -/
theorem slash_form_of_regexFrame (q : JsString) (h : matchesRegexFrame q = true) :
    startsWithSlash q = true ∧ lastIndexOfSlash q > 0 := by
  unfold matchesRegexFrame at h
  split at h
  · next rest =>
    simp only [List.any_eq_true, List.mem_range, Bool.decide_and, Bool.and_eq_true,
      decide_eq_true_eq] at h
    obtain ⟨i, -, hi, -⟩ := h
    refine ⟨by simp [startsWithSlash], ?_⟩
    have := lastIndexOfSlash_ge (47 :: rest) (i + 1) (by simpa using hi)
    omega
  · exact absurd h (by simp)

/-- A query that passes the hex character-class test does not start with a
slash. -/
theorem not_startsWithSlash_of_hexClass (q : JsString) (h : matchesHexClass q = true) :
    startsWithSlash q = false := by
  rw [matchesHexClass_iff] at h
  obtain ⟨hne, hall, -⟩ := h
  cases q with
  | nil => exact absurd rfl hne
  | cons c r =>
    have hc := hall c (List.mem_cons_self _ _)
    unfold startsWithSlash
    simp only [List.head?_cons, Option.some.injEq, decide_eq_false_iff_not]
    rintro rfl
    revert hc
    decide

theorem detectSearchMode_jsTrim (query : JsString) :
    detectSearchMode (jsTrim query) = detectSearchMode query := by
  unfold detectSearchMode
  rw [jsTrim_jsTrim]

/-- C15 as stated fails: the syscall log has no hex mode and its own test for a
regex.  For the query `"41"` `runMemorySearch` and `runDisasmSearch` resolve
`'auto'` to `'hex'` and `runStraceSearch` to `'string'`; for `"/a/z"` they
resolve `'string'` and `runStraceSearch` `'regex'`. -/
theorem auto_mode_counterexample :
    effectiveMode (jsTrim (str "41")) SearchMode.auto = SearchMode.hex ∧
    straceEffectiveMode (jsTrim (str "41")) SearchMode.auto = SearchMode.string ∧
    effectiveMode (jsTrim (str "/a/z")) SearchMode.auto = SearchMode.string ∧
    straceEffectiveMode (jsTrim (str "/a/z")) SearchMode.auto = SearchMode.regex ∧
    straceEffectiveMode (jsTrim (str "41")) SearchMode.auto ≠
      effectiveMode (jsTrim (str "41")) SearchMode.auto := by
  decide

/-- C15, amended: `runMemorySearch` and `runDisasmSearch` resolve `'auto'` to
`detectSearchMode` of the trimmed query.  `runStraceSearch` resolves `'auto'` to
`'regex'` when the trimmed query starts with a slash and has a later slash and
to `'string'` otherwise, never to `'hex'`.  It agrees with the other two when
they resolve `'regex'`; when they resolve `'hex'` it resolves `'string'`; when
they resolve `'string'` it agrees unless the query has that slash form. -/
theorem auto_mode_domains (query : JsString) :
    effectiveMode (jsTrim query) SearchMode.auto = detectSearchMode query ∧
    straceEffectiveMode (jsTrim query) SearchMode.auto ≠ SearchMode.hex ∧
    (detectSearchMode query = SearchMode.regex →
      straceEffectiveMode (jsTrim query) SearchMode.auto = SearchMode.regex) ∧
    (detectSearchMode query = SearchMode.hex →
      straceEffectiveMode (jsTrim query) SearchMode.auto = SearchMode.string) ∧
    (detectSearchMode query = SearchMode.string →
      (straceEffectiveMode (jsTrim query) SearchMode.auto = SearchMode.string ↔
        ¬ (startsWithSlash (jsTrim query) = true ∧ lastIndexOfSlash (jsTrim query) > 0))) := by
  have he : effectiveMode (jsTrim query) SearchMode.auto = detectSearchMode query := by
    unfold effectiveMode
    rw [if_pos rfl, detectSearchMode_jsTrim]
  have hs : straceEffectiveMode (jsTrim query) SearchMode.auto =
      if startsWithSlash (jsTrim query) = true ∧ lastIndexOfSlash (jsTrim query) > 0 then
        SearchMode.regex else SearchMode.string := by
    unfold straceEffectiveMode
    rw [if_pos rfl]
  refine ⟨he, ?_, ?_, ?_, ?_⟩
  · rw [hs]; split_ifs <;> decide
  · intro hd
    have hf : matchesRegexFrame (jsTrim query) = true := by
      unfold detectSearchMode at hd
      simp only at hd
      by_contra hno
      rw [if_neg hno] at hd
      split_ifs at hd
    rw [hs, if_pos (slash_form_of_regexFrame _ hf)]
  · intro hd
    have hc : matchesHexClass (jsTrim query) = true := by
      unfold detectSearchMode at hd
      simp only at hd
      by_contra hno
      split_ifs at hd
    have := not_startsWithSlash_of_hexClass _ hc
    rw [hs, if_neg (by simp [this])]
  · intro _
    rw [hs]
    split_ifs with hc
    · simp [hc]
    · simp [hc]

/-- Instance of C15, amended: for `"/ab/gi"` the three domains resolve `'regex'`,
and for `"41 42"` the syscall log resolves `'string'`. -/
theorem auto_mode_domains_witness :
    straceEffectiveMode (jsTrim (str "/ab/gi")) SearchMode.auto = SearchMode.regex ∧
    straceEffectiveMode (jsTrim (str "41 42")) SearchMode.auto = SearchMode.string :=
  ⟨(auto_mode_domains (str "/ab/gi")).2.2.1 (by decide),
   (auto_mode_domains (str "41 42")).2.2.2.1 (by decide)⟩

/-! ## Regex mode: malformed queries -/

theorem runMemorySearch_regex_eq {ρ : Type} (env : JsEnv ρ) (bytes : List Nat)
    (query : JsString) :
    runMemorySearch env bytes query SearchMode.regex =
      if jsTrim query = [] then []
      else if startsWithSlash (jsTrim query) = true ∧ lastIndexOfSlash (jsTrim query) > 0 then
        (env.newRegExp (jsSlice (jsTrim query) 1 (lastIndexOfSlash (jsTrim query)).toNat)
            (withGlobalFlag ((jsTrim query).drop ((lastIndexOfSlash (jsTrim query)).toNat + 1)))).elim
          [] (fun re => env.execAll re (asciiView bytes))
      else [] := by
  have e := fun q => effectiveMode_of_ne_auto q SearchMode.regex (by decide)
  unfold runMemorySearch
  simp only [e]
  split_ifs
  · rfl
  · cases env.newRegExp _ _ <;> rfl
  · rfl

theorem runDisasmSearch_regex_eq {ρ : Type} (env : JsEnv ρ) (lines : List DisasmLine)
    (query : JsString) (mode : SearchMode)
    (hm : effectiveMode (jsTrim query) mode = SearchMode.regex) :
    runDisasmSearch env lines query mode =
      if jsTrim query = [] then []
      else if startsWithSlash (jsTrim query) = true ∧ lastIndexOfSlash (jsTrim query) > 0 then
        (env.newRegExp (jsSlice (jsTrim query) 1 (lastIndexOfSlash (jsTrim query)).toNat)
            (lineRegexFlags ((jsTrim query).drop ((lastIndexOfSlash (jsTrim query)).toNat + 1)))).elim
          [] (fun re => matchingIndices lines (fun line => env.test re line.full))
      else [] := by
  unfold runDisasmSearch
  simp only [hm]
  split_ifs
  · rfl
  · cases env.newRegExp _ _ <;> rfl
  · rfl

theorem runStraceSearch_regex_eq {ρ : Type} (env : JsEnv ρ) (lines : List JsString)
    (query : JsString) (mode : SearchMode)
    (hm : straceEffectiveMode (jsTrim query) mode = SearchMode.regex) :
    runStraceSearch env lines query mode =
      if jsTrim query = [] then []
      else if startsWithSlash (jsTrim query) = true ∧ lastIndexOfSlash (jsTrim query) > 0 then
        (env.newRegExp (jsSlice (jsTrim query) 1 (lastIndexOfSlash (jsTrim query)).toNat)
            (lineRegexFlags ((jsTrim query).drop ((lastIndexOfSlash (jsTrim query)).toNat + 1)))).elim
          [] (fun re => matchingIndices lines (fun line => env.test re line))
      else [] := by
  unfold runStraceSearch
  simp only [hm]
  split_ifs
  · rfl
  · cases env.newRegExp _ _ <;> rfl
  · rfl

/-- C21: in regex mode a query that is not delimited as `/pattern/flags` (it
does not start with a slash or has no later slash) gives an empty match list in
`runMemorySearch`, `runDisasmSearch` and `runStraceSearch`; so does a query for
which `new RegExp` throws on the pattern and the flags the function hands to it
(the `catch` returns `[]`).  The three functions are total: nothing is thrown
out of them. -/
theorem regex_mode_malformed_empty {ρ : Type} (env : JsEnv ρ) (bytes : List Nat)
    (dlines : List DisasmLine) (slines : List JsString) (query : JsString) :
    (¬ (startsWithSlash (jsTrim query) = true ∧ lastIndexOfSlash (jsTrim query) > 0) →
      runMemorySearch env bytes query SearchMode.regex = [] ∧
      runDisasmSearch env dlines query SearchMode.regex = [] ∧
      runStraceSearch env slines query SearchMode.regex = []) ∧
    (env.newRegExp (jsSlice (jsTrim query) 1 (lastIndexOfSlash (jsTrim query)).toNat)
        (withGlobalFlag ((jsTrim query).drop ((lastIndexOfSlash (jsTrim query)).toNat + 1))) = none →
      runMemorySearch env bytes query SearchMode.regex = []) ∧
    (env.newRegExp (jsSlice (jsTrim query) 1 (lastIndexOfSlash (jsTrim query)).toNat)
        (lineRegexFlags ((jsTrim query).drop ((lastIndexOfSlash (jsTrim query)).toNat + 1))) = none →
      runDisasmSearch env dlines query SearchMode.regex = [] ∧
      runStraceSearch env slines query SearchMode.regex = []) := by
  rw [runMemorySearch_regex_eq,
    runDisasmSearch_regex_eq env dlines query SearchMode.regex
      (effectiveMode_of_ne_auto _ _ (by decide)),
    runStraceSearch_regex_eq env slines query SearchMode.regex
      (straceEffectiveMode_of_ne_auto _ _ (by decide))]
  refine ⟨fun h => ?_, fun h => ?_, fun h => ?_⟩
  · simp only [if_neg h, ite_self, and_self]
  · rw [h]
    split_ifs <;> rfl
  · rw [h]
    constructor <;> split_ifs <;> rfl

/-- Instance of C21: in regex mode `"mov"` is not delimited and the pattern of
`"/(/"` does not compile; both give no match in the three domains, on lines and
bytes where the delimited query `"/mov/"` finds `mov`. -/
theorem regex_mode_malformed_empty_witness :
    (runMemorySearch literalEnv (str "a mov b") (str "mov") SearchMode.regex = [] ∧
      runDisasmSearch literalEnv [⟨str "0x1000", str "mov rax, rbx"⟩] (str "mov")
        SearchMode.regex = [] ∧
      runStraceSearch literalEnv [str "mov"] (str "mov") SearchMode.regex = []) ∧
    runMemorySearch literalEnv (str "a mov b") (str "/(/") SearchMode.regex = [] ∧
    (runDisasmSearch literalEnv [⟨str "0x1000", str "mov rax, rbx"⟩] (str "/(/")
        SearchMode.regex = [] ∧
      runStraceSearch literalEnv [str "mov"] (str "/(/") SearchMode.regex = []) ∧
    runMemorySearch literalEnv (str "a mov b") (str "/mov/") SearchMode.regex = [(2, 5)] ∧
    runDisasmSearch literalEnv [⟨str "0x1000", str "mov rax, rbx"⟩] (str "/mov/")
      SearchMode.regex = [0] :=
  ⟨(regex_mode_malformed_empty literalEnv (str "a mov b") [⟨str "0x1000", str "mov rax, rbx"⟩]
      [str "mov"] (str "mov")).1 (by decide),
   (regex_mode_malformed_empty literalEnv (str "a mov b") [⟨str "0x1000", str "mov rax, rbx"⟩]
      [str "mov"] (str "/(/")).2.1 (by decide),
   (regex_mode_malformed_empty literalEnv (str "a mov b") [⟨str "0x1000", str "mov rax, rbx"⟩]
      [str "mov"] (str "/(/")).2.2 (by decide),
   by decide, by decide⟩

/-! ## Search sessions: recomputation -/

theorem runDisasmSearch_blank {ρ : Type} (env : JsEnv ρ) (lines : List DisasmLine)
    (query : JsString) (mode : SearchMode) (h : jsTrim query = []) :
    runDisasmSearch env lines query mode = [] := by
  unfold runDisasmSearch
  simp only [h, if_true]

theorem runStraceSearch_blank {ρ : Type} (env : JsEnv ρ) (lines : List JsString)
    (query : JsString) (mode : SearchMode) (h : jsTrim query = []) :
    runStraceSearch env lines query mode = [] := by
  unfold runStraceSearch
  simp only [h, if_true]

/-- The search block leaves the text box and the mode selector alone. -/
theorem searchBlock_frame (search : JsString → SearchMode → List Nat) (s : SearchSession Nat) :
    (searchBlock search s).searchQuery = s.searchQuery ∧
    (searchBlock search s).searchInput = s.searchInput ∧
    (searchBlock search s).searchMode = s.searchMode := by
  unfold searchBlock
  dsimp only
  split_ifs <;> exact ⟨rfl, rfl, rfl⟩

/-- The match list the search block stores, for a search that finds nothing for
a blank query. -/
theorem searchBlock_matches (search : JsString → SearchMode → List Nat)
    (hblank : ∀ q m, jsTrim q = [] → search q m = []) (s : SearchSession Nat) :
    (searchBlock search s).searchMatches = search s.searchQuery s.searchMode := by
  unfold searchBlock
  dsimp only
  split_ifs with h1 h2 h3
  · rfl
  · rfl
  · rfl
  · rw [hblank _ _ (not_not.mp h1)]

/-- The index the search block stores: the old one when it points into the new
list, else `0` for a non-empty list and `-1` for an empty one. -/
theorem searchBlock_index (search : JsString → SearchMode → List Nat) (s : SearchSession Nat) :
    (searchBlock search s).searchCurrentIndex =
      if (searchBlock search s).searchMatches = [] then -1
      else if 0 ≤ s.searchCurrentIndex ∧
          s.searchCurrentIndex < (searchBlock search s).searchMatches.length then
        s.searchCurrentIndex
      else 0 := by
  unfold searchBlock
  dsimp only
  split_ifs <;> first | (simp_all; done) | (simp_all; omega)

theorem searchBlock_after_input (search : JsString → SearchMode → List Nat)
    (hblank : ∀ q m, jsTrim q = [] → search q m = []) (v : JsString) (s : SearchSession Nat) :
    (onLineSearchInput (searchBlock search) v s).searchQuery = v ∧
    (onLineSearchInput (searchBlock search) v s).searchMatches = search v s.searchMode ∧
    (onLineSearchInput (searchBlock search) v s).searchCurrentIndex =
      if search v s.searchMode = [] then -1 else 0 := by
  unfold onLineSearchInput
  refine ⟨(searchBlock_frame _ _).1, searchBlock_matches search hblank _, ?_⟩
  rw [searchBlock_index, searchBlock_matches search hblank]
  simp

theorem refreshMemory_of_query (shown : Bool) (s : SearchSession (Int × Int))
    (h : jsTrim s.searchQuery ≠ []) : refreshMemory shown s = s := by
  unfold refreshMemory
  simp only [h, if_false, ite_self]

theorem refreshMemory_cleared (shown : Bool) (s : SearchSession (Int × Int))
    (hm : s.searchMatches = []) (hi : s.searchCurrentIndex = -1) : refreshMemory shown s = s := by
  unfold refreshMemory
  split_ifs
  · rfl
  · rcases s with ⟨q, m, i, v, md⟩
    simp only at hm hi
    subst hm hi
    rfl
  · rfl

/-- C22 as stated fails for the memory session and for a change of mode.
Typing `"A"` in the memory search box leaves `memSearchMatches` empty although
the engine finds a match for `"A"`; the search runs only on Enter, on the
search-all button or on the first next / prev.  The mode selectors have no
listener: after `"0x41"` was searched in the disassembly in `'auto'` mode,
choosing `'string'` leaves the match list `[0]`, while a string search for
`"0x41"` on the same lines finds nothing. -/
theorem eager_recompute_counterexample :
    (onMemSearchInput true (str "A")
      (SearchSession.initial (Int × Int) SearchMode.auto)).searchMatches = [] ∧
    searchAllMemory (some (fun _ _ => some [(4096, 1)])) (str "A") SearchMode.auto =
      [(4096, 1)] ∧
    (onSearchModeChange
      (onDisasmSearchInput asciiEnv (some [⟨str "0x1000", str "mov al, 41h"⟩]) (str "0x41")
        (SearchSession.initial Nat SearchMode.auto)) SearchMode.string).searchMatches = [0] ∧
    runDisasmSearch asciiEnv [⟨str "0x1000", str "mov al, 41h"⟩] (str "0x41")
      SearchMode.string = [] := by
  decide

/-- C22, amended: in the disassembly and the syscall log session a change of
the query recomputes the matches eagerly, provided the render reaches its
search block: when the `input` listener returns, the match list is the full
result of searching the lines shown with the new query and the selected mode,
and `currentIndex` is `0` if the list is non-empty and `-1` otherwise.  In the
memory session the `input` listener empties the match list and sets
`currentIndex` to `-1`; the full result is installed, with `currentIndex` `0`
or `-1`, by the callback of the search-all button and of Enter (for a
non-blank query in the box).  A change of the mode recomputes nothing in any
session. -/
theorem query_change_recompute {ρ : Type} (env : JsEnv ρ) (dlines : List DisasmLine)
    (slines : List JsString) (emu : Option MemSearcher) (shown : Bool) (v q : JsString)
    (m : SearchMode) (d t : SearchSession Nat) (s : SearchSession (Int × Int)) :
    ((onDisasmSearchInput env (some dlines) v d).searchQuery = v ∧
      (onDisasmSearchInput env (some dlines) v d).searchMatches =
        runDisasmSearch env dlines v d.searchMode ∧
      (onDisasmSearchInput env (some dlines) v d).searchCurrentIndex =
        if runDisasmSearch env dlines v d.searchMode = [] then -1 else 0) ∧
    ((onStraceSearchInput env (some slines) v t).searchQuery = v ∧
      (onStraceSearchInput env (some slines) v t).searchMatches =
        runStraceSearch env slines v t.searchMode ∧
      (onStraceSearchInput env (some slines) v t).searchCurrentIndex =
        if runStraceSearch env slines v t.searchMode = [] then -1 else 0) ∧
    ((onMemSearchInput shown v s).searchQuery = v ∧
      (onMemSearchInput shown v s).searchMatches = [] ∧
      (onMemSearchInput shown v s).searchCurrentIndex = -1) ∧
    (jsTrim s.searchQuery ≠ [] →
      (memSearchDone emu shown q m s).searchMatches = searchAllMemory emu q m ∧
      (memSearchDone emu shown q m s).searchCurrentIndex =
        if searchAllMemory emu q m = [] then -1 else 0) ∧
    ((onSearchModeChange d m).searchMatches = d.searchMatches ∧
      (onSearchModeChange d m).searchCurrentIndex = d.searchCurrentIndex ∧
      (onSearchModeChange d m).searchQuery = d.searchQuery ∧
      (onSearchModeChange s m).searchMatches = s.searchMatches ∧
      (onSearchModeChange s m).searchCurrentIndex = s.searchCurrentIndex) := by
  refine ⟨?_, ?_, ?_, ?_, ⟨rfl, rfl, rfl, rfl, rfl⟩⟩
  · exact searchBlock_after_input (runDisasmSearch env dlines)
      (fun q m h => runDisasmSearch_blank env dlines q m h) v d
  · exact searchBlock_after_input (runStraceSearch env slines)
      (fun q m h => runStraceSearch_blank env slines q m h) v t
  · unfold onMemSearchInput
    rw [refreshMemory_cleared shown _ rfl rfl]
    exact ⟨rfl, rfl, rfl⟩
  · intro hq
    unfold memSearchDone
    dsimp only
    rw [refreshMemory_of_query shown
      { s with
        searchMatches := searchAllMemory emu q m
        searchCurrentIndex := if (searchAllMemory emu q m).length > 0 then 0 else -1 } hq]
    refine ⟨rfl, ?_⟩
    dsimp only
    cases searchAllMemory emu q m <;> simp

/-- Instance of C22, amended: typing `"mov"` in the disassembly search box
selects the first of the two lines found; in the memory session the match found
by the engine is installed by the callback of Enter. -/
theorem query_change_recompute_witness :
    (onDisasmSearchInput asciiEnv
      (some [⟨str "0x1000", str "mov rax, rbx"⟩, ⟨str "0x1003", str "ret"⟩,
        ⟨str "0x1004", str "mov rcx, rax"⟩]) (str "mov")
      (SearchSession.initial Nat SearchMode.auto)).searchMatches = [0, 2] ∧
    (memSearchDone (some (fun _ _ => some [(4096, 1)])) true (str "A") SearchMode.auto
      (onMemSearchInput true (str "A")
        (SearchSession.initial (Int × Int) SearchMode.auto))).searchMatches = [(4096, 1)] :=
  ⟨((query_change_recompute asciiEnv
      [⟨str "0x1000", str "mov rax, rbx"⟩, ⟨str "0x1003", str "ret"⟩,
        ⟨str "0x1004", str "mov rcx, rax"⟩] [] none true (str "mov") [] SearchMode.auto
      (SearchSession.initial Nat SearchMode.auto) (SearchSession.initial Nat SearchMode.auto)
      (SearchSession.initial (Int × Int) SearchMode.auto)).1.2.1).trans (by decide),
   ((query_change_recompute asciiEnv [] [] (some (fun _ _ => some [(4096, 1)])) true [] (str "A")
      SearchMode.auto (SearchSession.initial Nat SearchMode.auto)
      (SearchSession.initial Nat SearchMode.auto)
      (onMemSearchInput true (str "A")
        (SearchSession.initial (Int × Int) SearchMode.auto))).2.2.2.1 (by decide)).1.trans
      (by decide)⟩

/-! ## Search sessions: next and prev -/

theorem stepIndex_next (i n : Int) (hi : -1 ≤ i) (hn : 0 < n) :
    stepIndex "next" i n = (i + 1) % n := by
  unfold stepIndex jsRem
  rw [if_pos rfl]
  exact Int.tmod_eq_emod (by omega) (by omega)

theorem stepIndex_prev (d : String) (hd : d ≠ "next") (i n : Int) (hi : 0 ≤ i) (hn : 0 < n) :
    stepIndex d i n = (i - 1 + n) % n := by
  unfold stepIndex jsRem
  rw [if_neg hd]
  exact Int.tmod_eq_emod (by omega) (by omega)

/-- The index assigned by next or prev points into the match list. -/
theorem stepIndex_range (d : String) (i n : Int) (hi : -1 ≤ i) (hn : 0 < n) :
    0 ≤ stepIndex d i n ∧ stepIndex d i n < n := by
  unfold stepIndex jsRem
  split_ifs
  · rw [Int.tmod_eq_emod (by omega) (by omega)]
    exact ⟨Int.emod_nonneg _ (by omega), Int.emod_lt_of_pos _ hn⟩
  · rcases eq_or_lt_of_le hi with h | h
    · rcases eq_or_lt_of_le (show (1 : Int) ≤ n by omega) with h1 | h1
      · subst h h1
        decide
      · rw [Int.tmod_eq_emod (by omega) (by omega)]
        exact ⟨Int.emod_nonneg _ (by omega), Int.emod_lt_of_pos _ hn⟩
    · rw [Int.tmod_eq_emod (by omega) (by omega)]
      exact ⟨Int.emod_nonneg _ (by omega), Int.emod_lt_of_pos _ hn⟩

/-- The search block changes nothing in a state whose match list is the result
of the search and whose index points into it. -/
theorem searchBlock_fixed (search : JsString → SearchMode → List Nat) (s : SearchSession Nat)
    (hq : jsTrim s.searchQuery ≠ []) (hf : search s.searchQuery s.searchMode = s.searchMatches)
    (h0 : 0 ≤ s.searchCurrentIndex) (h1 : s.searchCurrentIndex < s.searchMatches.length) :
    searchBlock search s = s := by
  unfold searchBlock
  dsimp only
  rw [if_pos hq, hf]
  have hlen : s.searchMatches.length ≠ 0 := by
    intro h
    rw [h] at h1
    simp at h1
    omega
  rw [if_neg (by omega), if_neg hlen]

/-- Next and prev in a line session whose render leaves the states with a
selected match as they are. -/
theorem goToLine_selected (render : SearchSession Nat → SearchSession Nat) (d : String)
    (s : SearchSession Nat) (hq : jsTrim s.searchInput ≠ [])
    (hr : ∀ i : Int, 0 ≤ i → i < s.searchMatches.length →
      render { s with searchQuery := s.searchInput, searchCurrentIndex := i } =
        { s with searchQuery := s.searchInput, searchCurrentIndex := i })
    (h0 : 0 ≤ s.searchCurrentIndex) (h1 : s.searchCurrentIndex < s.searchMatches.length) :
    goToLineSearchMatch render d s =
      { s with
        searchQuery := s.searchInput
        searchCurrentIndex := stepIndex d s.searchCurrentIndex s.searchMatches.length } := by
  have hlen : s.searchMatches.length ≠ 0 := by
    intro h
    rw [h] at h1
    simp at h1
    omega
  have hs := stepIndex_range d s.searchCurrentIndex s.searchMatches.length (by omega) (by omega)
  unfold goToLineSearchMatch
  dsimp only
  rw [if_neg hq]
  have e : ({ s with searchQuery := s.searchInput } : SearchSession Nat) =
      { s with searchQuery := s.searchInput, searchCurrentIndex := s.searchCurrentIndex } := rfl
  rw [e, hr _ h0 h1]
  dsimp only
  rw [if_neg hlen]
  exact hr _ hs.1 hs.2

/-- Next and prev in the memory session with a selected match. -/
theorem goToMem_selected (emu : Option MemSearcher) (shown : Bool) (d : String)
    (s : SearchSession (Int × Int)) (hq : jsTrim s.searchInput ≠ [])
    (h1 : s.searchCurrentIndex < s.searchMatches.length) (h0 : 0 ≤ s.searchCurrentIndex) :
    goToMemSearchMatch emu shown d s =
      { s with
        searchQuery := s.searchInput
        searchCurrentIndex := stepIndex d s.searchCurrentIndex s.searchMatches.length } := by
  have hlen : s.searchMatches.length ≠ 0 := by
    intro h
    rw [h] at h1
    simp at h1
    omega
  unfold goToMemSearchMatch
  dsimp only
  rw [if_neg hq, if_neg hlen]
  dsimp only
  rw [if_neg hlen]
  exact refreshMemory_of_query shown _ hq

/-- A handler that moves the index by `step` along a family of states, `k`
times. -/
theorem iterate_along {α : Type} (f : α → α) (S : Int → α) (n : Int) (step : Int → Int)
    (hstep : ∀ i, 0 ≤ i → i < n → f (S i) = S (step i))
    (hrange : ∀ i, 0 ≤ i → i < n → 0 ≤ step i ∧ step i < n)
    (k : Nat) (i : Int) (h0 : 0 ≤ i) (h1 : i < n) :
    f^[k] (S i) = S (step^[k] i) ∧ 0 ≤ step^[k] i ∧ step^[k] i < n := by
  induction k with
  | zero => exact ⟨rfl, h0, h1⟩
  | succ k ih =>
    rw [Function.iterate_succ_apply', Function.iterate_succ_apply', ih.1, hstep _ ih.2.1 ih.2.2]
    exact ⟨rfl, hrange _ ih.2.1 ih.2.2⟩

theorem iterate_succ_mod (n : Int) (k : Nat) (i : Int) :
    (fun j : Int => (j + 1) % n)^[k] (i % n) = (i + k) % n := by
  induction k with
  | zero => simp
  | succ k ih =>
    rw [Function.iterate_succ_apply', ih]
    push_cast
    rw [Int.emod_add_emod, add_assoc]

theorem iterate_pred_mod (n : Int) (k : Nat) (i : Int) :
    (fun j : Int => (j - 1 + n) % n)^[k] (i % n) = (i - k) % n := by
  induction k with
  | zero => simp
  | succ k ih =>
    rw [Function.iterate_succ_apply', ih]
    push_cast
    rw [Int.add_emod_self, sub_eq_add_neg ((i - k) % n), Int.emod_add_emod]
    congr 1
    ring

/-- Next and prev cycle through the matches along any family of states on which
they move the index by one step. -/
theorem cyclic_of_steps {μ : Type} (next prev : SearchSession μ → SearchSession μ)
    (s : SearchSession μ) (S : Int → SearchSession μ)
    (hS : ∀ i, (S i).searchMatches = s.searchMatches ∧ (S i).searchCurrentIndex = i)
    (h0 : 0 ≤ s.searchCurrentIndex) (h1 : s.searchCurrentIndex < s.searchMatches.length)
    (hn0 : next s = S ((s.searchCurrentIndex + 1) % (s.searchMatches.length : Int)))
    (hp0 : prev s =
      S ((s.searchCurrentIndex - 1 + s.searchMatches.length) % (s.searchMatches.length : Int)))
    (hn : ∀ i : Int, 0 ≤ i → i < s.searchMatches.length →
      next (S i) = S ((i + 1) % (s.searchMatches.length : Int)))
    (hp : ∀ i : Int, 0 ≤ i → i < s.searchMatches.length →
      prev (S i) = S ((i - 1 + s.searchMatches.length) % (s.searchMatches.length : Int))) :
    CyclicNavigation next prev s := by
  have hpos : (0 : Int) < s.searchMatches.length := by omega
  have hlen : 1 ≤ s.searchMatches.length := by omega
  have hself : s.searchCurrentIndex % (s.searchMatches.length : Int) = s.searchCurrentIndex :=
    Int.emod_eq_of_lt h0 h1
  have hr : ∀ j : Int, 0 ≤ j % (s.searchMatches.length : Int) ∧
      j % (s.searchMatches.length : Int) < s.searchMatches.length :=
    fun j => ⟨Int.emod_nonneg _ (by omega), Int.emod_lt_of_pos _ hpos⟩
  refine ⟨?_, ?_, ?_, ?_, ?_, ?_⟩
  · rw [hn0]; exact (hS _).1
  · rw [hp0]; exact (hS _).1
  · rw [hn0]; exact (hS _).2
  · rw [hp0]; exact (hS _).2
  · obtain ⟨k, hk⟩ : ∃ k, s.searchMatches.length = k + 1 := ⟨s.searchMatches.length - 1, by omega⟩
    have h := (iterate_along next S s.searchMatches.length
      (fun j => (j + 1) % (s.searchMatches.length : Int)) hn (fun j _ _ => hr _) k
      ((s.searchCurrentIndex + 1) % (s.searchMatches.length : Int)) (hr _).1 (hr _).2).1
    rw [iterate_succ_mod] at h
    conv_lhs => rw [hk, Function.iterate_succ_apply, hn0, h]
    rw [(hS _).2]
    have e : s.searchCurrentIndex + 1 + (k : Int) =
        s.searchCurrentIndex + (s.searchMatches.length : Int) := by
      rw [hk]; push_cast; ring
    rw [e, Int.add_emod_self]
    exact hself
  · obtain ⟨k, hk⟩ : ∃ k, s.searchMatches.length = k + 1 := ⟨s.searchMatches.length - 1, by omega⟩
    have h := (iterate_along prev S s.searchMatches.length
      (fun j => (j - 1 + s.searchMatches.length) % (s.searchMatches.length : Int)) hp
      (fun j _ _ => hr _) k
      ((s.searchCurrentIndex - 1 + s.searchMatches.length) % (s.searchMatches.length : Int))
      (hr _).1 (hr _).2).1
    rw [iterate_pred_mod] at h
    conv_lhs => rw [hk, Function.iterate_succ_apply, hp0, h]
    rw [(hS _).2]
    have e : s.searchCurrentIndex - 1 + (s.searchMatches.length : Int) - (k : Int) =
        s.searchCurrentIndex := by
      rw [hk]; push_cast; ring
    rw [e]
    exact hself

/-- Cyclic navigation in a line session whose render leaves the states with a
selected match as they are. -/
theorem goToLine_cyclic (render : SearchSession Nat → SearchSession Nat) (s : SearchSession Nat)
    (hsel : MatchSelected s)
    (hr : ∀ i : Int, 0 ≤ i → i < s.searchMatches.length →
      render { s with searchQuery := s.searchInput, searchCurrentIndex := i } =
        { s with searchQuery := s.searchInput, searchCurrentIndex := i }) :
    CyclicNavigation (goToLineSearchMatch render "next") (goToLineSearchMatch render "prev")
      s := by
  obtain ⟨hq, h0, h1⟩ := hsel
  have hpos : (0 : Int) < s.searchMatches.length := by omega
  apply cyclic_of_steps _ _ s
    (fun i => { s with searchQuery := s.searchInput, searchCurrentIndex := i })
    (fun i => ⟨rfl, rfl⟩) h0 h1
  · rw [goToLine_selected render "next" s hq hr h0 h1, stepIndex_next _ _ (by omega) hpos]
  · rw [goToLine_selected render "prev" s hq hr h0 h1,
      stepIndex_prev "prev" (by decide) _ _ h0 hpos]
  · intro i hi0 hi1
    have h := goToLine_selected render "next"
      { s with searchQuery := s.searchInput, searchCurrentIndex := i } hq hr hi0 hi1
    rw [h]
    dsimp only
    rw [stepIndex_next _ _ (by omega) hpos]
  · intro i hi0 hi1
    have h := goToLine_selected render "prev"
      { s with searchQuery := s.searchInput, searchCurrentIndex := i } hq hr hi0 hi1
    rw [h]
    dsimp only
    rw [stepIndex_prev "prev" (by decide) _ _ hi0 hpos]

/-- Cyclic navigation in the memory session. -/
theorem goToMem_cyclic (emu : Option MemSearcher) (shown : Bool) (s : SearchSession (Int × Int))
    (hsel : MatchSelected s) :
    CyclicNavigation (goToMemSearchMatch emu shown "next") (goToMemSearchMatch emu shown "prev")
      s := by
  obtain ⟨hq, h0, h1⟩ := hsel
  have hpos : (0 : Int) < s.searchMatches.length := by omega
  apply cyclic_of_steps _ _ s
    (fun i => { s with searchQuery := s.searchInput, searchCurrentIndex := i })
    (fun i => ⟨rfl, rfl⟩) h0 h1
  · rw [goToMem_selected emu shown "next" s hq h1 h0, stepIndex_next _ _ (by omega) hpos]
  · rw [goToMem_selected emu shown "prev" s hq h1 h0,
      stepIndex_prev "prev" (by decide) _ _ h0 hpos]
  · intro i hi0 hi1
    have h := goToMem_selected emu shown "next"
      { s with searchQuery := s.searchInput, searchCurrentIndex := i } hq hi1 hi0
    rw [h]
    dsimp only
    rw [stepIndex_next _ _ (by omega) hpos]
  · intro i hi0 hi1
    have h := goToMem_selected emu shown "prev"
      { s with searchQuery := s.searchInput, searchCurrentIndex := i } hq hi1 hi0
    rw [h]
    dsimp only
    rw [stepIndex_prev "prev" (by decide) _ _ hi0 hpos]

/-- C23: cyclic navigation.  In each search session with a selected match
(a non-blank query in the box, `n > 0` matches and `0 ≤ currentIndex < n`) and
an unchanged haystack (a render that searches finds the stored match list
again), next and prev keep the match list, next sets `currentIndex` to
`(currentIndex + 1) mod n` and prev to `(currentIndex - 1 + n) mod n`, and `n`
calls of next, or of prev, return `currentIndex` to its starting value. -/
theorem search_navigation_cyclic {ρ : Type} (env : JsEnv ρ)
    (dlines : Option (List DisasmLine)) (slines : Option (List JsString))
    (emu : Option MemSearcher) (shown : Bool) (d t : SearchSession Nat)
    (s : SearchSession (Int × Int))
    (hd : MatchSelected d)
    (hdf : ∀ ls, dlines = some ls →
      runDisasmSearch env ls d.searchInput d.searchMode = d.searchMatches)
    (ht : MatchSelected t)
    (htf : ∀ ls, slines = some ls →
      runStraceSearch env ls t.searchInput t.searchMode = t.searchMatches)
    (hs : MatchSelected s) :
    CyclicNavigation (goToDisasmSearchMatch env dlines "next")
      (goToDisasmSearchMatch env dlines "prev") d ∧
    CyclicNavigation (goToStraceSearchMatch env slines "next")
      (goToStraceSearchMatch env slines "prev") t ∧
    CyclicNavigation (goToMemSearchMatch emu shown "next")
      (goToMemSearchMatch emu shown "prev") s := by
  refine ⟨?_, ?_, goToMem_cyclic emu shown s hs⟩
  · apply goToLine_cyclic (renderDisasm env dlines) d hd
    intro i hi0 hi1
    cases dlines with
    | none => rfl
    | some ls => exact searchBlock_fixed _ _ hd.1 (hdf ls rfl) hi0 hi1
  · apply goToLine_cyclic (renderStraceOutput env slines) t ht
    intro i hi0 hi1
    cases slines with
    | none => rfl
    | some ls => exact searchBlock_fixed _ _ ht.1 (htf ls rfl) hi0 hi1

/-- Instance of C23: after `"mov"` was typed, the disassembly session has the
matches `[0, 2]` with the first selected; next selects the second, and two
calls of next, or of prev, come back to the first.  The same holds in the
syscall log session for `"read"` and in the memory session after a search. -/
theorem search_navigation_cyclic_witness :
    ((disasmTyped "mov").searchMatches = [0, 2] ∧
      (goToDisasmSearchMatch asciiEnv (some sampleDisasm) "next"
        (disasmTyped "mov")).searchCurrentIndex = 1) ∧
    CyclicNavigation (goToDisasmSearchMatch asciiEnv (some sampleDisasm) "next")
      (goToDisasmSearchMatch asciiEnv (some sampleDisasm) "prev") (disasmTyped "mov") ∧
    CyclicNavigation (goToStraceSearchMatch asciiEnv (some sampleStrace) "next")
      (goToStraceSearchMatch asciiEnv (some sampleStrace) "prev") (straceTyped "read") ∧
    CyclicNavigation (goToMemSearchMatch (some sampleMemory) true "next")
      (goToMemSearchMatch (some sampleMemory) true "prev") (memSearched "A") :=
  ⟨by decide,
   search_navigation_cyclic asciiEnv (some sampleDisasm) (some sampleStrace) (some sampleMemory)
    true (disasmTyped "mov") (straceTyped "read") (memSearched "A")
    (by unfold MatchSelected; decide)
    (fun ls h => by cases h; decide)
    (by unfold MatchSelected; decide)
    (fun ls h => by cases h; decide)
    (by unfold MatchSelected; decide)⟩

/-! ## Search sessions: next and prev without matches -/

theorem searchAllMemory_blank (emu : Option MemSearcher) (q : JsString) (m : SearchMode)
    (h : jsTrim q = []) : searchAllMemory emu q m = [] := by
  unfold searchAllMemory
  cases emu with
  | none => rfl
  | some f => simp only [h, if_true]

theorem length_pos_cast {α : Type} (l : List α) (h : l ≠ []) : (0 : Int) < l.length := by
  cases l with
  | nil => exact absurd rfl h
  | cons a r => simp only [List.length_cons]; omega

/-- Next and prev in the memory session when no match is stored. -/
theorem goToMem_unmatched (emu : Option MemSearcher) (shown : Bool) (d : String)
    (s : SearchSession (Int × Int)) (hm : s.searchMatches = []) (hi : s.searchCurrentIndex = -1) :
    (searchAllMemory emu s.searchInput s.searchMode = [] →
      (goToMemSearchMatch emu shown d s).searchMatches = [] ∧
      (goToMemSearchMatch emu shown d s).searchCurrentIndex = -1) ∧
    (searchAllMemory emu s.searchInput s.searchMode ≠ [] →
      (goToMemSearchMatch emu shown d s).searchMatches =
        searchAllMemory emu s.searchInput s.searchMode ∧
      (goToMemSearchMatch emu shown d s).searchCurrentIndex =
        stepIndex d 0 (searchAllMemory emu s.searchInput s.searchMode).length) := by
  rcases s with ⟨q, ms, i, v, md⟩
  simp only at hm hi
  subst hm hi
  unfold goToMemSearchMatch
  dsimp only
  by_cases hq : jsTrim v = []
  · rw [if_pos hq]
    exact ⟨fun _ => ⟨rfl, rfl⟩, fun h => absurd (searchAllMemory_blank emu v md hq) h⟩
  · rw [if_neg hq]
    simp only [List.length_nil, if_true]
    constructor
    · intro h
      rw [h]
      exact ⟨rfl, rfl⟩
    · intro h
      have hl : (searchAllMemory emu v md).length ≠ 0 := by
        intro h0
        exact h (List.length_eq_zero.mp h0)
      have hl2 : (searchAllMemory emu v md).length > 0 := by omega
      rw [if_neg hl, if_pos hl2]
      rw [refreshMemory_of_query shown _ hq]
      exact ⟨rfl, rfl⟩

/-- Next and prev in a line session when no match is stored and the render
searches. -/
theorem goToLine_unmatched (search : JsString → SearchMode → List Nat)
    (hblank : ∀ q m, jsTrim q = [] → search q m = []) (d : String) (s : SearchSession Nat)
    (hm : s.searchMatches = []) (hi : s.searchCurrentIndex = -1) :
    (search s.searchInput s.searchMode = [] →
      (goToLineSearchMatch (searchBlock search) d s).searchMatches = [] ∧
      (goToLineSearchMatch (searchBlock search) d s).searchCurrentIndex = -1) ∧
    (search s.searchInput s.searchMode ≠ [] →
      (goToLineSearchMatch (searchBlock search) d s).searchMatches =
        search s.searchInput s.searchMode ∧
      (goToLineSearchMatch (searchBlock search) d s).searchCurrentIndex =
        stepIndex d 0 (search s.searchInput s.searchMode).length) := by
  rcases s with ⟨q, ms, i, v, md⟩
  simp only at hm hi
  subst hm hi
  unfold goToLineSearchMatch
  dsimp only
  by_cases hq : jsTrim v = []
  · rw [if_pos hq]
    exact ⟨fun _ => ⟨rfl, rfl⟩, fun h => absurd (hblank v md hq) h⟩
  · rw [if_neg hq]
    constructor
    · intro h
      have e : searchBlock search ⟨v, [], -1, v, md⟩ = ⟨v, [], -1, v, md⟩ := by
        unfold searchBlock
        dsimp only
        rw [if_pos hq, h]
        simp
      rw [e]
      exact ⟨rfl, rfl⟩
    · intro h
      have hpos := length_pos_cast _ h
      have hl : (search v md).length ≠ 0 := by omega
      have e : searchBlock search ⟨v, [], -1, v, md⟩ = ⟨v, search v md, 0, v, md⟩ := by
        unfold searchBlock
        dsimp only
        rw [if_pos hq, if_pos ⟨by omega, Or.inl (by decide)⟩]
      rw [e]
      dsimp only
      rw [if_neg hl]
      have hr := stepIndex_range d 0 (search v md).length (by decide) hpos
      rw [searchBlock_fixed search _ hq rfl hr.1 hr.2]
      exact ⟨rfl, rfl⟩

/-- Next and prev in a line session whose render returns before its search
block change at most the stored query when no match is stored. -/
theorem goToLine_unrendered (d : String) (s : SearchSession Nat) (hm : s.searchMatches = []) :
    goToLineSearchMatch (fun u => u) d s = { s with searchQuery := s.searchInput } := by
  unfold goToLineSearchMatch
  dsimp only
  rw [hm]
  split_ifs <;> first | rfl | simp at *

/-- C24 as stated fails in the memory session.  After `"A"` was typed the
match list is empty (the `input` listener empties it), and next then runs the
search: it installs the two matches the engine finds and selects the second. -/
theorem goTo_empty_counterexample :
    (memTyped "A").searchMatches = [] ∧ (memTyped "A").searchCurrentIndex = -1 ∧
    (goToMemSearchMatch (some sampleMemory) true "next" (memTyped "A")).searchMatches =
      [(4096, 1), (8192, 1)] ∧
    (goToMemSearchMatch (some sampleMemory) true "next" (memTyped "A")).searchCurrentIndex =
      1 := by
  decide

/-- C24, amended: in a state whose match list is empty (and `currentIndex` is
`-1`), next and prev first search again: `goToMemSearchMatch` calls
`searchAllMemory`, `goToDisasmSearchMatch` and `goToStraceSearchMatch` render.
If that search finds nothing (as it does for a blank query), or the render
returns before its search block, the match list stays empty and `currentIndex`
stays `-1`.  If it finds `n > 0` matches, they become the match list and
`currentIndex` is set from the first match: `1 % n` by next, `n - 1` by
prev. -/
theorem goTo_empty_matches {ρ : Type} (env : JsEnv ρ) (dlines : List DisasmLine)
    (slines : List JsString) (emu : Option MemSearcher) (shown : Bool) (direction : String)
    (d t : SearchSession Nat) (s : SearchSession (Int × Int))
    (hd : d.searchMatches = [] ∧ d.searchCurrentIndex = -1)
    (ht : t.searchMatches = [] ∧ t.searchCurrentIndex = -1)
    (hs : s.searchMatches = [] ∧ s.searchCurrentIndex = -1) :
    ((searchAllMemory emu s.searchInput s.searchMode = [] →
        (goToMemSearchMatch emu shown direction s).searchMatches = [] ∧
        (goToMemSearchMatch emu shown direction s).searchCurrentIndex = -1) ∧
      (searchAllMemory emu s.searchInput s.searchMode ≠ [] →
        (goToMemSearchMatch emu shown direction s).searchMatches =
          searchAllMemory emu s.searchInput s.searchMode ∧
        (goToMemSearchMatch emu shown direction s).searchCurrentIndex =
          stepIndex direction 0 (searchAllMemory emu s.searchInput s.searchMode).length)) ∧
    ((runDisasmSearch env dlines d.searchInput d.searchMode = [] →
        (goToDisasmSearchMatch env (some dlines) direction d).searchMatches = [] ∧
        (goToDisasmSearchMatch env (some dlines) direction d).searchCurrentIndex = -1) ∧
      (runDisasmSearch env dlines d.searchInput d.searchMode ≠ [] →
        (goToDisasmSearchMatch env (some dlines) direction d).searchMatches =
          runDisasmSearch env dlines d.searchInput d.searchMode ∧
        (goToDisasmSearchMatch env (some dlines) direction d).searchCurrentIndex =
          stepIndex direction 0
            (runDisasmSearch env dlines d.searchInput d.searchMode).length)) ∧
    ((runStraceSearch env slines t.searchInput t.searchMode = [] →
        (goToStraceSearchMatch env (some slines) direction t).searchMatches = [] ∧
        (goToStraceSearchMatch env (some slines) direction t).searchCurrentIndex = -1) ∧
      (runStraceSearch env slines t.searchInput t.searchMode ≠ [] →
        (goToStraceSearchMatch env (some slines) direction t).searchMatches =
          runStraceSearch env slines t.searchInput t.searchMode ∧
        (goToStraceSearchMatch env (some slines) direction t).searchCurrentIndex =
          stepIndex direction 0
            (runStraceSearch env slines t.searchInput t.searchMode).length)) ∧
    ((goToDisasmSearchMatch env none direction d).searchMatches = [] ∧
      (goToDisasmSearchMatch env none direction d).searchCurrentIndex = -1 ∧
      (goToStraceSearchMatch env none direction t).searchMatches = [] ∧
      (goToStraceSearchMatch env none direction t).searchCurrentIndex = -1) ∧
    (∀ n : Int, 0 < n → stepIndex "next" 0 n = 1 % n ∧ stepIndex "prev" 0 n = n - 1) := by
  refine ⟨goToMem_unmatched emu shown direction s hs.1 hs.2,
    goToLine_unmatched (runDisasmSearch env dlines)
      (fun q m h => runDisasmSearch_blank env dlines q m h) direction d hd.1 hd.2,
    goToLine_unmatched (runStraceSearch env slines)
      (fun q m h => runStraceSearch_blank env slines q m h) direction t ht.1 ht.2,
    ?_, ?_⟩
  swap
  · intro n hn
    rw [stepIndex_next 0 n (by decide) hn, stepIndex_prev "prev" (by decide) 0 n (le_refl 0) hn]
    refine ⟨by norm_num, ?_⟩
    have e : (0 : Int) - 1 + n = n - 1 := by ring
    rw [e]
    exact Int.emod_eq_of_lt (by omega) (by omega)
  have e1 := goToLine_unrendered direction d hd.1
  have e2 := goToLine_unrendered direction t ht.1
  refine ⟨?_, ?_, ?_, ?_⟩
  · exact (congrArg SearchSession.searchMatches e1).trans hd.1
  · exact (congrArg SearchSession.searchCurrentIndex e1).trans hd.2
  · exact (congrArg SearchSession.searchMatches e2).trans ht.1
  · exact (congrArg SearchSession.searchCurrentIndex e2).trans ht.2

/-- Instance of C24, amended: with `"zz"` typed, which no line holds, next
leaves the disassembly and the syscall log session without matches; in the
memory session with `"A"` typed, prev installs the two matches found and
selects the last. -/
theorem goTo_empty_matches_witness :
    ((goToDisasmSearchMatch asciiEnv (some sampleDisasm) "prev" (disasmTyped "zz")).searchMatches
        = [] ∧
      (goToDisasmSearchMatch asciiEnv (some sampleDisasm) "prev"
        (disasmTyped "zz")).searchCurrentIndex = -1) ∧
    ((goToMemSearchMatch (some sampleMemory) true "prev" (memTyped "A")).searchMatches =
        searchAllMemory (some sampleMemory) (memTyped "A").searchInput
          (memTyped "A").searchMode ∧
      (goToMemSearchMatch (some sampleMemory) true "prev" (memTyped "A")).searchCurrentIndex =
        stepIndex "prev" 0
          (searchAllMemory (some sampleMemory) (memTyped "A").searchInput
            (memTyped "A").searchMode).length) ∧
    (goToMemSearchMatch (some sampleMemory) true "prev" (memTyped "A")).searchCurrentIndex = 1 :=
  ⟨(goTo_empty_matches asciiEnv sampleDisasm sampleStrace (some sampleMemory) true "prev"
      (disasmTyped "zz") (straceTyped "zz") (memTyped "A") (by decide) (by decide)
      (by decide)).2.1.1 (by decide),
   (goTo_empty_matches asciiEnv sampleDisasm sampleStrace (some sampleMemory) true "prev"
      (disasmTyped "zz") (straceTyped "zz") (memTyped "A") (by decide) (by decide)
      (by decide)).1.2 (by decide),
   by decide⟩

/-! ## Search sessions: the index stays in range -/

/-- Whatever the state before, the search block leaves `currentIndex` in
`[-1, matches.length)`. -/
theorem searchBlock_inRange (search : JsString → SearchMode → List Nat) (s : SearchSession Nat) :
    IndexInRange (searchBlock search s) := by
  unfold searchBlock IndexInRange
  dsimp only
  split_ifs with h1 h2 h3
  · dsimp only
    constructor <;> omega
  · dsimp only
    constructor <;> omega
  · dsimp only
    constructor <;> omega
  · dsimp only
    simp

theorem renderDisasm_inRange {ρ : Type} (env : JsEnv ρ) (lines : Option (List DisasmLine))
    (s : SearchSession Nat) (h : IndexInRange s) : IndexInRange (renderDisasm env lines s) := by
  cases lines with
  | none => exact h
  | some ls => exact searchBlock_inRange _ _

theorem renderStraceOutput_inRange {ρ : Type} (env : JsEnv ρ) (lines : Option (List JsString))
    (s : SearchSession Nat) (h : IndexInRange s) :
    IndexInRange (renderStraceOutput env lines s) := by
  cases lines with
  | none => exact h
  | some ls => exact searchBlock_inRange _ _

theorem onLineSearchInput_inRange (render : SearchSession Nat → SearchSession Nat)
    (hr : ∀ u, IndexInRange u → IndexInRange (render u)) (v : JsString) (s : SearchSession Nat) :
    IndexInRange (onLineSearchInput render v s) := by
  unfold onLineSearchInput
  apply hr
  unfold IndexInRange
  dsimp only
  constructor <;> omega

theorem onLineSearchEnter_inRange (render : SearchSession Nat → SearchSession Nat)
    (hr : ∀ u, IndexInRange u → IndexInRange (render u)) (s : SearchSession Nat)
    (h : IndexInRange s) : IndexInRange (onLineSearchEnter render s) := by
  unfold onLineSearchEnter
  dsimp only
  split_ifs with h1
  · unfold IndexInRange
    dsimp only
    constructor <;> omega
  · exact hr s h

theorem goToLineSearchMatch_inRange (render : SearchSession Nat → SearchSession Nat)
    (hr : ∀ u, IndexInRange u → IndexInRange (render u)) (d : String) (s : SearchSession Nat)
    (h : IndexInRange s) : IndexInRange (goToLineSearchMatch render d s) := by
  have h1 : IndexInRange ({ s with searchQuery := s.searchInput } : SearchSession Nat) := h
  have h2 := hr _ h1
  unfold goToLineSearchMatch
  dsimp only
  split_ifs with hq hl
  · exact h1
  · exact h2
  · apply hr
    have hpos : (0 : Int) <
        ((render { s with searchQuery := s.searchInput }).searchMatches.length : Int) := by
      omega
    have hs := stepIndex_range d _ _ h2.1 hpos
    unfold IndexInRange
    dsimp only
    exact ⟨by omega, hs.2⟩

theorem refreshMemory_inRange (shown : Bool) (s : SearchSession (Int × Int))
    (h : IndexInRange s) : IndexInRange (refreshMemory shown s) := by
  unfold refreshMemory
  split_ifs
  · exact h
  · unfold IndexInRange
    dsimp only
    simp
  · exact h

theorem memSearchDone_inRange (emu : Option MemSearcher) (shown : Bool) (q : JsString)
    (m : SearchMode) (s : SearchSession (Int × Int)) :
    IndexInRange (memSearchDone emu shown q m s) := by
  unfold memSearchDone
  apply refreshMemory_inRange
  unfold IndexInRange
  dsimp only
  split_ifs with h
  · constructor <;> omega
  · constructor <;> omega

theorem goToMemSearchMatch_inRange (emu : Option MemSearcher) (shown : Bool) (d : String)
    (s : SearchSession (Int × Int)) (h : IndexInRange s) :
    IndexInRange (goToMemSearchMatch emu shown d s) := by
  rcases s with ⟨q, ms, i, v, md⟩
  unfold IndexInRange at h
  dsimp only at h
  unfold goToMemSearchMatch
  dsimp only
  by_cases hq : jsTrim v = []
  · rw [if_pos hq]
    exact h
  · rw [if_neg hq]
    by_cases hl : ms.length = 0
    · simp only [hl, if_true]
      generalize searchAllMemory emu v md = found
      by_cases hf : found.length = 0
      · rw [if_pos hf]
        unfold IndexInRange
        dsimp only
        rw [if_neg (by omega)]
        constructor <;> omega
      · rw [if_neg hf]
        apply refreshMemory_inRange
        have hs := stepIndex_range d 0 found.length (by omega) (by omega)
        unfold IndexInRange
        dsimp only
        rw [if_pos (by omega)]
        exact ⟨by omega, hs.2⟩
    · simp only [hl, if_false]
      apply refreshMemory_inRange
      have hs := stepIndex_range d i ms.length h.1 (by omega)
      unfold IndexInRange
      dsimp only
      exact ⟨by omega, hs.2⟩

theorem memSearch_inRange (s : SearchSession (Int × Int)) (h : MemSearchReachable s) :
    IndexInRange s := by
  induction h with
  | init mode => exact ⟨le_refl _, by simp [SearchSession.initial]⟩
  | load s _ _ => exact ⟨le_refl _, by simp [resetSearch]⟩
  | mode s m _ ih => exact ih
  | typed s shown v _ _ =>
    exact refreshMemory_inRange _ _ ⟨le_refl _, by simp⟩
  | searchAll s shown _ ih =>
    unfold runMemSearchAll
    dsimp only
    split_ifs
    · exact refreshMemory_inRange _ _ ih
    · exact ih
  | done s emu shown q m _ _ => exact memSearchDone_inRange emu shown q m s
  | goTo s emu shown d _ ih => exact goToMemSearchMatch_inRange emu shown d s ih
  | refresh s shown _ ih => exact refreshMemory_inRange shown s ih

theorem disasmSearch_inRange {ρ : Type} (env : JsEnv ρ) (s : SearchSession Nat)
    (h : DisasmSearchReachable env s) : IndexInRange s := by
  induction h with
  | init mode => exact ⟨le_refl _, by simp [SearchSession.initial]⟩
  | load s _ _ => exact ⟨le_refl _, by simp [resetSearch]⟩
  | mode s m _ ih => exact ih
  | typed s lines v _ _ =>
    exact onLineSearchInput_inRange _ (fun u hu => renderDisasm_inRange env lines u hu) v s
  | enter s lines _ ih =>
    exact onLineSearchEnter_inRange _ (fun u hu => renderDisasm_inRange env lines u hu) s ih
  | goTo s lines d _ ih =>
    exact goToLineSearchMatch_inRange _ (fun u hu => renderDisasm_inRange env lines u hu) d s ih
  | render s lines _ ih => exact renderDisasm_inRange env lines s ih

theorem straceSearch_inRange {ρ : Type} (env : JsEnv ρ) (s : SearchSession Nat)
    (h : StraceSearchReachable env s) : IndexInRange s := by
  induction h with
  | init mode => exact ⟨le_refl _, by simp [SearchSession.initial]⟩
  | load s _ _ => exact ⟨le_refl _, by simp [resetSearch]⟩
  | mode s m _ ih => exact ih
  | typed s lines v _ _ =>
    exact onLineSearchInput_inRange _ (fun u hu => renderStraceOutput_inRange env lines u hu) v s
  | enter s lines _ ih =>
    exact onLineSearchEnter_inRange _ (fun u hu => renderStraceOutput_inRange env lines u hu) s ih
  | goTo s lines d _ ih =>
    exact goToLineSearchMatch_inRange _
      (fun u hu => renderStraceOutput_inRange env lines u hu) d s ih
  | render s lines _ ih => exact renderStraceOutput_inRange env lines s ih

/-- C25: in every reachable state of each of the three search sessions,
`currentIndex` is an integer with `-1 ≤ currentIndex < matches.length`.  The
reachable states are those produced from the initial one by query input, Enter
and the search-all callback, next, prev, re-render, program load and session
reset (and a change of the mode selector), on any engine and any lines. -/
theorem currentIndex_in_range {ρ : Type} (env : JsEnv ρ) :
    (∀ s, MemSearchReachable s → IndexInRange s) ∧
    (∀ s, DisasmSearchReachable env s → IndexInRange s) ∧
    (∀ s, StraceSearchReachable env s → IndexInRange s) :=
  ⟨memSearch_inRange, disasmSearch_inRange env,
    straceSearch_inRange env⟩

/-- Instance of C25: the index is in range after `"mov"` was typed and prev was
pressed in the disassembly session, and after a memory search was followed by
next and by the clearing of the box. -/
theorem currentIndex_in_range_witness :
    IndexInRange (goToDisasmSearchMatch asciiEnv (some sampleDisasm) "prev" (disasmTyped "mov")) ∧
    (goToDisasmSearchMatch asciiEnv (some sampleDisasm) "prev"
      (disasmTyped "mov")).searchCurrentIndex = 1 ∧
    IndexInRange
      (onMemSearchInput true []
        (goToMemSearchMatch (some sampleMemory) true "next" (memSearched "A"))) :=
  ⟨(currentIndex_in_range asciiEnv).2.1 _
      (DisasmSearchReachable.goTo _ _ _
        (DisasmSearchReachable.typed _ _ _ (DisasmSearchReachable.init SearchMode.auto))),
   by decide,
   (currentIndex_in_range asciiEnv).1 _
      (MemSearchReachable.typed _ _ _
        (MemSearchReachable.goTo _ _ _ _
          (MemSearchReachable.done _ _ _ _ _
            (MemSearchReachable.typed _ _ _ (MemSearchReachable.init SearchMode.auto)))))⟩

/-! ## Search sessions: searching again -/

/-- The search block is idempotent. -/
theorem searchBlock_idem (search : JsString → SearchMode → List Nat) (s : SearchSession Nat) :
    searchBlock search (searchBlock search s) = searchBlock search s := by
  by_cases hq : jsTrim s.searchQuery = []
  · have e : searchBlock search s = { s with searchMatches := [], searchCurrentIndex := -1 } := by
      unfold searchBlock
      rw [if_neg (not_not.mpr hq)]
    rw [e]
    unfold searchBlock
    rw [if_neg (not_not.mpr hq)]
  · have hr := searchBlock_inRange search s
    have hfr := searchBlock_frame search s
    by_cases hf : search s.searchQuery s.searchMode = []
    · have e : searchBlock search s = { s with searchMatches := [], searchCurrentIndex := -1 } := by
        unfold searchBlock
        dsimp only
        rw [if_pos hq, hf]
        simp
      rw [e]
      unfold searchBlock
      dsimp only
      rw [if_pos hq, hf]
      simp
    · have hm : (searchBlock search s).searchMatches = search s.searchQuery s.searchMode := by
        unfold searchBlock
        dsimp only
        rw [if_pos hq]
        split_ifs <;> rfl
      have hpos := length_pos_cast _ hf
      have hi : (searchBlock search s).searchCurrentIndex ≠ -1 := by
        unfold searchBlock
        dsimp only
        rw [if_pos hq]
        split_ifs with h1 h2
        · simp
        · omega
        · dsimp only
          omega
      apply searchBlock_fixed
      · rw [hfr.1]; exact hq
      · rw [hfr.1, hfr.2.2, hm]
      · have := hr.1
        omega
      · exact hr.2

theorem renderDisasm_idem {ρ : Type} (env : JsEnv ρ) (lines : Option (List DisasmLine))
    (s : SearchSession Nat) :
    renderDisasm env lines (renderDisasm env lines s) = renderDisasm env lines s := by
  cases lines with
  | none => rfl
  | some ls => exact searchBlock_idem _ _

theorem renderStraceOutput_idem {ρ : Type} (env : JsEnv ρ) (lines : Option (List JsString))
    (s : SearchSession Nat) :
    renderStraceOutput env lines (renderStraceOutput env lines s) =
      renderStraceOutput env lines s := by
  cases lines with
  | none => rfl
  | some ls => exact searchBlock_idem _ _

/-- Enter after a render: the match list of the render, and the first match
selected when there is one. -/
theorem onLineSearchEnter_after (render : SearchSession Nat → SearchSession Nat)
    (hidem : ∀ u, render (render u) = render u) (s : SearchSession Nat) :
    (onLineSearchEnter render (render s)).searchMatches = (render s).searchMatches ∧
    (onLineSearchEnter render (render s)).searchCurrentIndex =
      if (render s).searchMatches = [] then (render s).searchCurrentIndex else 0 := by
  unfold onLineSearchEnter
  dsimp only
  rw [hidem]
  by_cases h : (render s).searchMatches = []
  · rw [h]
    simp [h]
  · have := length_pos_cast _ h
    rw [if_pos (by omega), if_neg h]
    exact ⟨rfl, rfl⟩

/-- C26 as stated fails for Enter and for the search-all callback, which select
the first match again.  With `"mov"` searched in the disassembly and the second
of the two matches selected by next, Enter on the same lines keeps the match
list `[0, 2]` and moves `currentIndex` from 1 to 0; so does the callback of the
memory search on the same engine. -/
theorem search_again_counterexample :
    (goToDisasmSearchMatch asciiEnv (some sampleDisasm) "next"
      (disasmTyped "mov")).searchMatches = [0, 2] ∧
    (goToDisasmSearchMatch asciiEnv (some sampleDisasm) "next"
      (disasmTyped "mov")).searchCurrentIndex = 1 ∧
    (onDisasmSearchEnter asciiEnv (some sampleDisasm)
      (goToDisasmSearchMatch asciiEnv (some sampleDisasm) "next"
        (disasmTyped "mov"))).searchMatches = [0, 2] ∧
    (onDisasmSearchEnter asciiEnv (some sampleDisasm)
      (goToDisasmSearchMatch asciiEnv (some sampleDisasm) "next"
        (disasmTyped "mov"))).searchCurrentIndex = 0 ∧
    (goToMemSearchMatch (some sampleMemory) true "next" (memSearched "A")).searchCurrentIndex =
      1 ∧
    (memSearchDone (some sampleMemory) true (str "A") SearchMode.auto
      (goToMemSearchMatch (some sampleMemory) true "next"
        (memSearched "A"))).searchCurrentIndex = 0 := by
  decide

/-- C26, amended: with an unchanged `(query, mode)` and an unchanged haystack,
a re-render of the disassembly or of the syscall log produces the identical
match list and does not move `currentIndex` (rendering twice is rendering
once).  Enter after a render also produces the identical match list, and the
callback of the memory search installs the same list whatever was stored
before; but both select the first match again, setting `currentIndex` to `0`
when there is a match. -/
theorem search_again {ρ : Type} (env : JsEnv ρ) (dlines : Option (List DisasmLine))
    (slines : Option (List JsString)) (emu : Option MemSearcher) (shown : Bool) (q : JsString)
    (m : SearchMode) (d t : SearchSession Nat) (s s2 : SearchSession (Int × Int)) :
    renderDisasm env dlines (renderDisasm env dlines d) = renderDisasm env dlines d ∧
    renderStraceOutput env slines (renderStraceOutput env slines t) =
      renderStraceOutput env slines t ∧
    ((onDisasmSearchEnter env dlines (renderDisasm env dlines d)).searchMatches =
        (renderDisasm env dlines d).searchMatches ∧
      (onDisasmSearchEnter env dlines (renderDisasm env dlines d)).searchCurrentIndex =
        if (renderDisasm env dlines d).searchMatches = [] then
          (renderDisasm env dlines d).searchCurrentIndex
        else 0) ∧
    ((onStraceSearchEnter env slines (renderStraceOutput env slines t)).searchMatches =
        (renderStraceOutput env slines t).searchMatches ∧
      (onStraceSearchEnter env slines (renderStraceOutput env slines t)).searchCurrentIndex =
        if (renderStraceOutput env slines t).searchMatches = [] then
          (renderStraceOutput env slines t).searchCurrentIndex
        else 0) ∧
    (jsTrim s.searchQuery ≠ [] → jsTrim s2.searchQuery ≠ [] →
      (memSearchDone emu shown q m s).searchMatches =
        (memSearchDone emu shown q m s2).searchMatches ∧
      (memSearchDone emu shown q m s).searchCurrentIndex =
        (if searchAllMemory emu q m = [] then -1 else 0) ∧
      (memSearchDone emu shown q m s2).searchCurrentIndex =
        if searchAllMemory emu q m = [] then -1 else 0) := by
  refine ⟨renderDisasm_idem env dlines d, renderStraceOutput_idem env slines t,
    onLineSearchEnter_after _ (renderDisasm_idem env dlines) d,
    onLineSearchEnter_after _ (renderStraceOutput_idem env slines) t, ?_⟩
  intro h1 h2
  have e1 : memSearchDone emu shown q m s =
      { s with
        searchMatches := searchAllMemory emu q m
        searchCurrentIndex := if (searchAllMemory emu q m).length > 0 then 0 else -1 } := by
    unfold memSearchDone
    exact refreshMemory_of_query shown _ h1
  have e2 : memSearchDone emu shown q m s2 =
      { s2 with
        searchMatches := searchAllMemory emu q m
        searchCurrentIndex := if (searchAllMemory emu q m).length > 0 then 0 else -1 } := by
    unfold memSearchDone
    exact refreshMemory_of_query shown _ h2
  rw [e1, e2]
  dsimp only
  refine ⟨rfl, ?_, ?_⟩ <;> cases searchAllMemory emu q m <;> simp

/-- Instance of C26, amended: with `"mov"` searched and the second match
selected, a re-render leaves the disassembly session as it is, and the callback
of a repeated memory search for `"A"` installs the list of the first search. -/
theorem search_again_witness :
    renderDisasm asciiEnv (some sampleDisasm)
        (renderDisasm asciiEnv (some sampleDisasm)
          (goToDisasmSearchMatch asciiEnv (some sampleDisasm) "next" (disasmTyped "mov"))) =
      renderDisasm asciiEnv (some sampleDisasm)
        (goToDisasmSearchMatch asciiEnv (some sampleDisasm) "next" (disasmTyped "mov")) ∧
    (renderDisasm asciiEnv (some sampleDisasm)
      (goToDisasmSearchMatch asciiEnv (some sampleDisasm) "next"
        (disasmTyped "mov"))).searchCurrentIndex = 1 ∧
    (memSearchDone (some sampleMemory) true (str "A") SearchMode.auto
        (goToMemSearchMatch (some sampleMemory) true "next" (memSearched "A"))).searchMatches =
      (memSearchDone (some sampleMemory) true (str "A") SearchMode.auto
        (memTyped "A")).searchMatches :=
  ⟨(search_again asciiEnv (some sampleDisasm) none none true [] SearchMode.auto
      (goToDisasmSearchMatch asciiEnv (some sampleDisasm) "next" (disasmTyped "mov"))
      (straceTyped "read") (memTyped "A") (memTyped "A")).1,
   by decide,
   ((search_again asciiEnv none none (some sampleMemory) true (str "A") SearchMode.auto
      (disasmTyped "mov") (straceTyped "read")
      (goToMemSearchMatch (some sampleMemory) true "next" (memSearched "A")) (memTyped "A")).2.2.2.2
      (by decide) (by decide)).1⟩

/-! ## Removing a watch entry: the address decides -/

theorem removeWatch_of_ge (s : WatchState) (i : Nat) (h : s.watchList.length ≤ i) :
    removeWatch s i = s := by
  rcases s with ⟨dd, wl⟩
  dsimp only at h
  have hs : spliceStart wl.length (i : Int) = wl.length := by
    unfold spliceStart
    rw [if_neg (by omega)]
    simp only [Int.toNat_ofNat]
    omega
  unfold removeWatch
  simp only [hs]
  have hnone : wl[wl.length]? = none := List.getElem?_eq_none (le_refl _)
  have he : wl.eraseIdx wl.length = wl := List.eraseIdx_of_length_le (le_refl _)
  rw [hnone, he]
  cases dd <;> rfl

/-- C27: `_removeWatch(i)` decides from the address alone.  For every watch
list, every valid index `i` and every non-null daddr, the daddr is cleared
exactly when `watchList[i].addr = daddr.addr`, whatever the two sizes are, and
is left as it is otherwise; the entry is removed in both cases.  When `i` is
past the end of the list nothing is removed and the daddr is left as it is. -/
theorem removeWatch_address_alone (s : WatchState) (i : Nat) (dAddr dSize : Int)
    (hd : s.daddr = some (dAddr, dSize)) :
    (∀ e, s.watchList[i]? = some e →
      ((removeWatch s i).daddr = none ↔ e.addr = dAddr) ∧
      (e.addr ≠ dAddr → (removeWatch s i).daddr = some (dAddr, dSize)) ∧
      (removeWatch s i).watchList = s.watchList.eraseIdx i) ∧
    (s.watchList.length ≤ i → removeWatch s i = s) := by
  refine ⟨fun e he => ?_, removeWatch_of_ge s i⟩
  rw [removeWatch_of_lt s i e he, hd]
  dsimp only
  by_cases h : dAddr = e.addr
  · rw [if_pos h]
    exact ⟨⟨fun _ => h.symm, fun _ => rfl⟩, fun hne => absurd h.symm hne, rfl⟩
  · rw [if_neg h]
    exact ⟨⟨fun hn => absurd hn (by simp), fun heq => absurd heq.symm h⟩, fun _ => rfl, rfl⟩

/-- Instance of C27: with the daddr on `0x1000` (4 bytes), removing the entry
`0x1000` (8 bytes) clears it although the sizes differ, removing the entry
`0x2000` (4 bytes) leaves it, and so does an index past the end. -/
theorem removeWatch_address_alone_witness :
    (removeWatch ⟨some (4096, 4), [⟨4096, 8, []⟩, ⟨8192, 4, []⟩]⟩ 0).daddr = none ∧
    (removeWatch ⟨some (4096, 4), [⟨4096, 8, []⟩, ⟨8192, 4, []⟩]⟩ 1).daddr = some (4096, 4) ∧
    removeWatch ⟨some (4096, 4), [⟨4096, 8, []⟩, ⟨8192, 4, []⟩]⟩ 2 =
      ⟨some (4096, 4), [⟨4096, 8, []⟩, ⟨8192, 4, []⟩]⟩ :=
  ⟨((removeWatch_address_alone ⟨some (4096, 4), [⟨4096, 8, []⟩, ⟨8192, 4, []⟩]⟩ 0 4096 4
      rfl).1 ⟨4096, 8, []⟩ rfl).1.2 rfl,
   ((removeWatch_address_alone ⟨some (4096, 4), [⟨4096, 8, []⟩, ⟨8192, 4, []⟩]⟩ 1 4096 4
      rfl).1 ⟨8192, 4, []⟩ rfl).2.1 (by decide),
   (removeWatch_address_alone ⟨some (4096, 4), [⟨4096, 8, []⟩, ⟨8192, 4, []⟩]⟩ 2 4096 4
      rfl).2 (by decide)⟩

/-! ## Hex mode in the disassembly -/

theorem digitChar_not_ws (k : Nat) (h : k < 16) : isWs (Nat.digitChar k).toNat = false := by
  interval_cases k <;> decide

theorem toDigitsCore_not_ws (fuel n : Nat) (ds : List Char)
    (hds : ∀ c ∈ ds, isWs c.toNat = false) :
    ∀ c ∈ Nat.toDigitsCore 16 fuel n ds, isWs c.toNat = false := by
  induction fuel generalizing n ds with
  | zero => exact hds
  | succ fuel ih =>
    have hcons : ∀ c ∈ Nat.digitChar (n % 16) :: ds, isWs c.toNat = false := by
      intro c hc
      rcases List.mem_cons.mp hc with h | h
      · rw [h]; exact digitChar_not_ws _ (Nat.mod_lt _ (by decide))
      · exact hds c h
    unfold Nat.toDigitsCore
    dsimp only
    split_ifs
    · exact hcons
    · exact ih _ _ hcons

theorem toDigitsCore_ne_nil (fuel n : Nat) (ds : List Char) (h : ds ≠ [] ∨ 0 < fuel) :
    Nat.toDigitsCore 16 fuel n ds ≠ [] := by
  induction fuel generalizing n ds with
  | zero =>
    rcases h with h | h
    · exact h
    · exact absurd h (by decide)
  | succ fuel ih =>
    unfold Nat.toDigitsCore
    dsimp only
    split_ifs
    · simp
    · exact ih _ _ (Or.inl (by simp))

/-- The text of `n.toString(16)` is not empty and holds no white space. -/
theorem toHexString_chars (n : Int) :
    toHexString n ≠ [] ∧ ∀ c ∈ toHexString n, isWs c = false := by
  have h1 : ∀ c ∈ (Nat.toDigits 16 n.natAbs).map Char.toNat, isWs c = false := by
    intro c hc
    obtain ⟨ch, hch, rfl⟩ := List.mem_map.mp hc
    exact toDigitsCore_not_ws _ _ [] (fun _ h => absurd h (List.not_mem_nil _)) ch hch
  have h2 : (Nat.toDigits 16 n.natAbs).map Char.toNat ≠ [] := by
    intro h
    exact toDigitsCore_ne_nil (n.natAbs + 1) n.natAbs [] (Or.inr (by omega))
      (List.map_eq_nil_iff.mp h)
  unfold toHexString
  split_ifs
  · refine ⟨by simp, fun c hc => ?_⟩
    rcases List.mem_cons.mp hc with h | h
    · rw [h]; decide
    · exact h1 c h
  · exact ⟨h2, h1⟩

theorem jsTrim_toHexString (n : Int) : jsTrim (toHexString n) = toHexString n := by
  have h := (toHexString_chars n).2
  apply jsTrim_eq_self
  · intro c hc
    exact h c (List.mem_of_mem_head? hc)
  · intro c hc
    exact h c (List.mem_of_mem_getLast? hc)

theorem matchingIndices_congr {α : Type} (lines : List α) (p q : α → Bool)
    (h : ∀ line ∈ lines, p line = q line) : matchingIndices lines p = matchingIndices lines q := by
  unfold matchingIndices
  apply List.filter_congr
  intro i hi
  have hlt : i < lines.length := List.mem_range.mp hi
  rw [List.getElem?_eq_getElem hlt]
  simp only [Option.map_some']
  have e := h _ (List.getElem_mem hlt)
  simp only [e]

/-- The hex branch of `runDisasmSearch`. -/
theorem runDisasmSearch_hex_eq {ρ : Type} (env : JsEnv ρ) (lines : List DisasmLine)
    (query : JsString) (mode : SearchMode) (n : Int)
    (hmode : effectiveMode (jsTrim query) mode = SearchMode.hex)
    (hparse : parseInt16 ((strip0x (jsTrim query)).filter (fun c => !isWs c)) = some n) :
    runDisasmSearch env lines query mode =
      matchingIndices lines (fun line =>
        jsIncludes (env.toLowerCase (strip0x line.addr)) (toHexString n) ||
          jsIncludes (env.toLowerCase line.full) (toHexString n)) := by
  have hq : jsTrim query ≠ [] := by
    intro h
    rw [h] at hparse
    have e : parseInt16 ((strip0x []).filter (fun c => !isWs c)) = none := by decide
    rw [e] at hparse
    exact absurd hparse (by simp)
  unfold runDisasmSearch
  simp only [hmode, hq, if_false, hparse]

/-- A line split around its address without the `0x`. -/
theorem full_split (line : DisasmLine) :
    ∃ a c, line.full = a ++ (strip0x line.addr ++ c) := by
  unfold DisasmLine.full strip0x
  split_ifs
  · refine ⟨line.addr.take 2, [32] ++ line.text, ?_⟩
    rw [← List.append_assoc, ← List.append_assoc, List.take_append_drop]
  · exact ⟨[], [32] ++ line.text, by simp⟩

/-- C28: in `runDisasmSearch` hex mode is string mode on the canonical digits.
For every line list and every query resolved to hex mode whose digits, after
stripping a leading `0x` and all white space, parse to a number `N` with
`|N| < 2^53`, the hex result equals the string-mode result for `N` written in
lower-case hex without prefix; the test on the address column never adds a
line.  It is assumed of the runtime that `toLowerCase` leaves the digits of `N`
as they are and lower-cases each line piece by piece. -/
theorem disasm_hex_is_string {ρ : Type} (env : JsEnv ρ) (lines : List DisasmLine)
    (query : JsString) (mode : SearchMode) (n : Int)
    (hmode : effectiveMode (jsTrim query) mode = SearchMode.hex)
    (hparse : parseInt16 ((strip0x (jsTrim query)).filter (fun c => !isWs c)) = some n)
    (_hn : n.natAbs < 2 ^ 53)
    (hfix : env.toLowerCase (toHexString n) = toHexString n)
    (hsplit : ∀ line ∈ lines, ∀ a b c, line.full = a ++ (b ++ c) →
      env.toLowerCase line.full =
        env.toLowerCase a ++ (env.toLowerCase b ++ env.toLowerCase c)) :
    runDisasmSearch env lines query mode =
      runDisasmSearch env lines (toHexString n) SearchMode.string ∧
    ∀ line ∈ lines, jsIncludes (env.toLowerCase (strip0x line.addr)) (toHexString n) = true →
      jsIncludes (env.toLowerCase line.full) (toHexString n) = true := by
  have hadd : ∀ line ∈ lines,
      jsIncludes (env.toLowerCase (strip0x line.addr)) (toHexString n) = true →
        jsIncludes (env.toLowerCase line.full) (toHexString n) = true := by
    intro line hl h
    obtain ⟨a, c, hac⟩ := full_split line
    unfold jsIncludes at h ⊢
    rw [decide_eq_true_eq] at h ⊢
    rw [hsplit line hl a _ c hac]
    exact h.trans ((List.infix_append' _ _ _))
  refine ⟨?_, hadd⟩
  have hne : jsTrim (toHexString n) ≠ [] := by
    rw [jsTrim_toHexString]
    exact (toHexString_chars n).1
  rw [runDisasmSearch_hex_eq env lines query mode n hmode hparse,
    runDisasmSearch_string_eq env lines _ hne, jsTrim_toHexString, hfix]
  apply matchingIndices_congr
  intro line hl
  cases h : jsIncludes (env.toLowerCase (strip0x line.addr)) (toHexString n)
  · simp
  · rw [hadd line hl h]
    rfl

/-- Instance of C28: on `sampleDisasm` the query `"0x1004"`, which `'auto'`
resolves to hex, finds the line at `0x1004`, as the string query `"1004"`
does. -/
theorem disasm_hex_is_string_witness :
    runDisasmSearch asciiEnv sampleDisasm (str "0x1004") SearchMode.auto =
      runDisasmSearch asciiEnv sampleDisasm (str "1004") SearchMode.string ∧
    runDisasmSearch asciiEnv sampleDisasm (str "1004") SearchMode.string = [2] :=
  ⟨(disasm_hex_is_string asciiEnv sampleDisasm (str "0x1004") SearchMode.auto 4100 (by decide)
      (by decide) (by decide) (by decide)
      (fun line _ a b c h => by
        rw [h]
        simp [asciiEnv])).1,
   by decide⟩

/-! ## The flags of a line regex -/

theorem lastIndexOfSlash_of_not_mem (s : JsString) (h : 47 ∉ s) : lastIndexOfSlash s = -1 := by
  induction s with
  | nil => rfl
  | cons c r ih =>
    have hr : 47 ∉ r := fun hm => h (List.mem_cons_of_mem _ hm)
    have hc : c ≠ 47 := fun hc => h (hc ▸ List.mem_cons_self _ _)
    rw [lastIndexOfSlash, ih hr]
    simp [hc]

theorem lastIndexOfSlash_append (a flags : JsString) (h : 47 ∉ flags) :
    lastIndexOfSlash (a ++ 47 :: flags) = a.length := by
  induction a with
  | nil =>
    rw [List.nil_append, lastIndexOfSlash, lastIndexOfSlash_of_not_mem flags h]
    simp
  | cons c r ih =>
    rw [List.cons_append, lastIndexOfSlash, ih]
    simp only [List.length_cons]
    rw [if_pos (by omega)]
    push_cast
    rfl

/-- The parts `runDisasmSearch` and `runStraceSearch` cut the query
`/pattern/flags` into, for flags without a slash. -/
theorem regexQuery_parts (pattern flags : JsString) (h : 47 ∉ flags) :
    regexQuery pattern flags ≠ [] ∧
    (startsWithSlash (regexQuery pattern flags) = true ∧
      lastIndexOfSlash (regexQuery pattern flags) > 0) ∧
    jsSlice (regexQuery pattern flags) 1 (lastIndexOfSlash (regexQuery pattern flags)).toNat =
      pattern ∧
    (regexQuery pattern flags).drop ((lastIndexOfSlash (regexQuery pattern flags)).toNat + 1) =
      flags := by
  have hl : lastIndexOfSlash (regexQuery pattern flags) = (pattern.length + 1 : Nat) := by
    have := lastIndexOfSlash_append (47 :: pattern) flags h
    rw [regexQuery, this]
    simp
  rw [hl]
  refine ⟨by simp [regexQuery], ⟨by simp [regexQuery, startsWithSlash], by omega⟩, ?_, ?_⟩
  · simp only [Int.toNat_ofNat]
    unfold jsSlice regexQuery
    rw [List.cons_append, List.take_succ_cons, List.drop_succ_cons, List.drop_zero,
      List.take_left' rfl]
  · simp only [Int.toNat_ofNat]
    unfold regexQuery
    rw [List.cons_append, List.drop_succ_cons]
    have e : pattern ++ 47 :: flags = (pattern ++ [47]) ++ flags := by simp
    rw [e, List.drop_left' (by simp)]

/-- The flags handed to `new RegExp` for a line search: the user's flags
without any `g`, followed by one `i`. -/
theorem lineRegexFlags_eq (flags : JsString) :
    lineRegexFlags flags = flags.filter (fun c => c ≠ 103) ++ [105] := by
  unfold lineRegexFlags withGlobalFlag
  split_ifs
  · rfl
  · simp [List.filter_append]

theorem lineRegexFlags_count (flags : JsString) (h : 105 ∈ flags) :
    2 ≤ (lineRegexFlags flags).count 105 := by
  rw [lineRegexFlags_eq, List.count_append, List.count_filter (by decide)]
  have := List.count_pos_iff.mpr h
  have e : List.count 105 [105] = 1 := by decide
  rw [e]
  omega

/-- C29: in `runDisasmSearch` and `runStraceSearch` the flag string handed to
the regex constructor for the query `/pattern/flags` is the user's flags with
every `g` removed and one `i` appended.  Hence, when the flags already contain
`i`, the flag string contains `i` twice; a runtime that rejects a repeated
flag, as JavaScript does, rejects it, and the search in regex mode returns no
match for every list of lines. -/
theorem line_regex_flags_doubled {ρ : Type} (env : JsEnv ρ) (dlines : List DisasmLine)
    (slines : List JsString) (query pattern flags : JsString) (dmode smode : SearchMode)
    (hq : jsTrim query = regexQuery pattern flags) (hslash : 47 ∉ flags)
    (hd : effectiveMode (jsTrim query) dmode = SearchMode.regex)
    (hs : straceEffectiveMode (jsTrim query) smode = SearchMode.regex) :
    (runDisasmSearch env dlines query dmode =
        (env.newRegExp pattern (flags.filter (fun c => c ≠ 103) ++ [105])).elim []
          (fun re => matchingIndices dlines (fun line => env.test re line.full)) ∧
      runStraceSearch env slines query smode =
        (env.newRegExp pattern (flags.filter (fun c => c ≠ 103) ++ [105])).elim []
          (fun re => matchingIndices slines (fun line => env.test re line))) ∧
    (105 ∈ flags →
      2 ≤ (flags.filter (fun c => c ≠ 103) ++ [105]).count 105 ∧
      ((∀ p f, ¬ f.Nodup → env.newRegExp p f = none) →
        env.newRegExp pattern (flags.filter (fun c => c ≠ 103) ++ [105]) = none ∧
        runDisasmSearch env dlines query dmode = [] ∧
        runStraceSearch env slines query smode = [])) := by
  obtain ⟨hne, hform, hpat, hfl⟩ := regexQuery_parts pattern flags hslash
  have e1 : runDisasmSearch env dlines query dmode =
      (env.newRegExp pattern (flags.filter (fun c => c ≠ 103) ++ [105])).elim []
        (fun re => matchingIndices dlines (fun line => env.test re line.full)) := by
    rw [runDisasmSearch_regex_eq env dlines query dmode hd, hq, if_neg hne, if_pos hform, hpat,
      hfl, lineRegexFlags_eq]
  have e2 : runStraceSearch env slines query smode =
      (env.newRegExp pattern (flags.filter (fun c => c ≠ 103) ++ [105])).elim []
        (fun re => matchingIndices slines (fun line => env.test re line)) := by
    rw [runStraceSearch_regex_eq env slines query smode hs, hq, if_neg hne, if_pos hform, hpat,
      hfl, lineRegexFlags_eq]
  refine ⟨⟨e1, e2⟩, fun hi => ?_⟩
  have hc := lineRegexFlags_count flags hi
  rw [lineRegexFlags_eq] at hc
  refine ⟨hc, fun hdup => ?_⟩
  have hnone : env.newRegExp pattern (flags.filter (fun c => c ≠ 103) ++ [105]) = none := by
    apply hdup
    intro hnd
    have := List.nodup_iff_count_le_one.mp hnd 105
    omega
  rw [e1, e2, hnone]
  exact ⟨rfl, rfl, rfl⟩

/-- Instance of C29: on `sampleDisasm` and `sampleStrace`, in a runtime with
literal patterns, `"/mov/"` and `"/read/"` find two lines each, and `"/MOV/i"`
and `"/read/gi"`, whose flags become `"ii"`, find none. -/
theorem line_regex_flags_doubled_witness :
    runDisasmSearch literalEnv sampleDisasm (str "/mov/") SearchMode.auto = [0, 2] ∧
    runStraceSearch literalEnv sampleStrace (str "/read/") SearchMode.auto = [1, 2] ∧
    lineRegexFlags (str "gi") = str "ii" ∧
    runDisasmSearch literalEnv sampleDisasm (str "/MOV/i") SearchMode.auto = [] ∧
    runStraceSearch literalEnv sampleStrace (str "/read/gi") SearchMode.auto = [] :=
  ⟨by decide, by decide, by decide,
   (((line_regex_flags_doubled literalEnv sampleDisasm sampleStrace (str "/MOV/i") (str "MOV")
      (str "i") SearchMode.auto SearchMode.auto (by decide) (by decide) (by decide)
      (by decide)).2 (by decide)).2
      (fun p f h => by simp [literalEnv, h])).2.1,
   (((line_regex_flags_doubled literalEnv sampleDisasm sampleStrace (str "/read/gi") (str "read")
      (str "gi") SearchMode.regex SearchMode.auto (by decide) (by decide) (by decide)
      (by decide)).2 (by decide)).2
      (fun p f h => by simp [literalEnv, h])).2.2⟩

/-! ## Live mode keeps the cursor at 0 -/

/-- After `seekTrace` the session is in replay, unless the call returned at
once. -/
theorem seekTrace_replay_or_same {ε : Type} (E : Engine ε) (s : UI ε) (k : Int) :
    (seekTrace E s k).traceMode = true ∨ seekTrace E s k = s := by
  cases hemu : s.emulator with
  | none =>
    right
    unfold seekTrace
    simp only [hemu]
  | some emu =>
    by_cases h0 : ((E.get_trace_length emu : Nat) : Int) = 0
    · right
      unfold seekTrace
      simp only [hemu, h0, if_true]
    · left
      unfold seekTrace
      simp only [hemu, h0, if_false]
      cases s.traceMode <;> rfl

/-- In every reachable state a live session has its cursor at 0. -/
theorem TraceReachable.live_cursor {ε : Type} (E : Engine ε) (s : UI ε)
    (h : TraceReachable E s) : s.traceMode = false → s.traceCursor = 0 := by
  induction h with
  | init => intro _; rfl
  | load s created _ ih =>
    cases created with
    | none => exact ih
    | some emu =>
      intro _
      exact (updateFullUI_live E _ rfl).2.1
  | reset s _ _ => intro _; rfl
  | seek s idx _ ih =>
    intro hl
    rcases seekTrace_replay_or_same E s idx with h | h
    · rw [h] at hl
      exact absurd hl (by decide)
    · rw [h] at hl ⊢
      exact ih hl
  | exit s _ _ => intro _; exact exitTraceMode_traceCursor E s
  | other s t _ hm hc ih =>
    intro hl
    rw [hc]
    exact ih (hm ▸ hl)

/-- A seek from a state with an emulator and a non-empty trace ends in replay
at the clamped index. -/
theorem seekTrace_enters {ε : Type} (E : Engine ε) (s : UI ε) (emu : ε) (k : Int)
    (hemu : s.emulator = some emu) (hlen : 1 ≤ E.get_trace_length emu) :
    (seekTrace E s k).traceMode = true ∧
    (seekTrace E s k).traceCursor = max 0 (min k ((E.get_trace_length emu : Int) - 1)) := by
  refine ⟨?_, seekTrace_traceCursor E s emu k hemu hlen⟩
  have h0 : ((E.get_trace_length emu : Nat) : Int) ≠ 0 := by omega
  unfold seekTrace
  simp only [hemu, h0, if_false]
  cases s.traceMode <;> rfl

/-- C30: in every reachable state, `traceMode = false` implies
`traceCursor = 0`.  So the relative seeks issued from live mode are measured
from index 0: with a trace of length `len ≥ 1`, the back-1 and back-10 buttons
enter replay at index 0, and forward-1 and forward-10 at `min(1, len - 1)` and
`min(10, len - 1)`. -/
theorem live_cursor_is_zero {ε : Type} (E : Engine ε) (s : UI ε) (h : TraceReachable E s)
    (hlive : s.traceMode = false) :
    s.traceCursor = 0 ∧
    ∀ emu, s.emulator = some emu → 1 ≤ E.get_trace_length emu →
      ((onTraceBack E s).traceMode = true ∧ (onTraceBack E s).traceCursor = 0) ∧
      ((onTraceBack10 E s).traceMode = true ∧ (onTraceBack10 E s).traceCursor = 0) ∧
      ((onTraceFwd E s).traceMode = true ∧
        (onTraceFwd E s).traceCursor = min 1 ((E.get_trace_length emu : Int) - 1)) ∧
      ((onTraceFwd10 E s).traceMode = true ∧
        (onTraceFwd10 E s).traceCursor = min 10 ((E.get_trace_length emu : Int) - 1)) := by
  have hc := TraceReachable.live_cursor E s h hlive
  refine ⟨hc, fun emu hemu hlen => ?_⟩
  unfold onTraceBack onTraceBack10 onTraceFwd onTraceFwd10
  rw [hc]
  have h1 := seekTrace_enters E s emu (0 - 1) hemu hlen
  have h2 := seekTrace_enters E s emu (0 - 10) hemu hlen
  have h3 := seekTrace_enters E s emu (0 + 1) hemu hlen
  have h4 := seekTrace_enters E s emu (0 + 10) hemu hlen
  refine ⟨⟨h1.1, ?_⟩, ⟨h2.1, ?_⟩, ⟨h3.1, ?_⟩, ⟨h4.1, ?_⟩⟩
  · rw [h1.2]; omega
  · rw [h2.2]; omega
  · rw [h3.2]; omega
  · rw [h4.2]; omega

/-- Instance of C30: a program with 5 recorded entries, after a seek to index 3
and the return to live.  The cursor is back at 0, so back-1 enters replay at 0
and forward-10 at 4, not at the live end. -/
theorem live_cursor_is_zero_witness :
    (exitTraceMode counterEngine (seekTrace counterEngine (liveSession 5) 3)).traceCursor = 0 ∧
    (onTraceBack counterEngine
      (exitTraceMode counterEngine (seekTrace counterEngine (liveSession 5) 3))).traceCursor =
        0 ∧
    (onTraceFwd10 counterEngine
      (exitTraceMode counterEngine (seekTrace counterEngine (liveSession 5) 3))).traceCursor =
        4 := by
  have hr : TraceReachable counterEngine
      (exitTraceMode counterEngine (seekTrace counterEngine (liveSession 5) 3)) :=
    TraceReachable.exit _ (TraceReachable.seek _ 3
      (TraceReachable.other _ (liveSession 5) TraceReachable.init rfl rfl))
  have h := live_cursor_is_zero counterEngine _ hr (exitTraceMode_traceMode _ _)
  have hb := h.2 5 (exitTraceMode_emulator _ _) (by decide)
  exact ⟨h.1, hb.1.2, hb.2.2.2.2.trans (by decide)⟩

end Binb
